import Mathlib

/-!
# GWAVI: an AVI (RIFF) container writer

A shallow embedding of `GWAVI.cpp` and theorems about the bytes it writes.

Conventions of the embedding.

* A byte is a natural number; the output stream `outFile` is a list of bytes
  together with the write position (`tellp` / `seekp`).  Stream writes
  succeed, except where a definition says otherwise: a write that throws
  `std::system_error` is a failure of the operating system, and the `catch`
  path of the appenders for it is in `AddVideoFrame_io` / `AddAudioFrame_io`.
* `unsigned int` values are reduced modulo `2 ^ 32` wherever the source
  computes with them (`write_int`, casts, `width * height * 3`, the entries of
  the offset table).  The records of `GWAVI.h` are kept as natural numbers and
  are reduced when they are emitted.
* `size_t` arithmetic on buffer lengths is exact, and so are the differences
  of stream positions (`long`), which are never negative in a session that
  was opened by the constructor.
* A `const char *` is the list of its characters before the terminating NUL;
  a frame buffer is the function from an offset to the byte stored there.
* `new unsigned int[n]` returns memory whose contents are not determined by
  the program: they are a parameter `heap` of the operations that allocate.
* Accesses that C++ leaves undefined (a store through a null or too short
  `offsets`) have no effect in the embedding; a division by zero
  (`SetFramerate` with `fps = 0`) has no result, `none`.
* The file named `filename` enters only where the constructor is asked what
  it does to it (`Open_file`); elsewhere the stream stands for the file.
-/

namespace GWAVI

/-! ## The output stream -/

/-- The output stream: the bytes of the file and the current write position. -/
structure OutFile where
  data : List Nat
  pos : Nat
deriving DecidableEq, Repr

/-- The call `outFile.write(bs, bs.length)`: the bytes are stored at the write
position, over what is there and extending the file when they pass its end
(a position beyond the end leaves a gap of zero bytes); writing nothing
changes nothing. -/
def OutFile.write (f : OutFile) (bs : List Nat) : OutFile :=
  if bs = [] then f
  else
    { data := f.data.take f.pos ++ List.replicate (f.pos - f.data.length) 0 ++ bs
              ++ f.data.drop (f.pos + bs.length),
      pos := f.pos + bs.length }

/-- The call `outFile.tellp()`. -/
def OutFile.tellp (f : OutFile) : Nat := f.pos

/-- The call `outFile.seekp(p, ios_base::beg)`. -/
def OutFile.seekp (f : OutFile) (p : Nat) : OutFile := { f with pos := p }

/-! ## Primitive emitters -/

/-- The characters of a string literal as bytes. -/
def chars (s : String) : List Nat := s.toList.map Char.toNat

/-- Byte `i` behind a `char *`: the characters, then NUL (and zero for what
lies behind the NUL, which is not read for a tag of four characters). -/
def charAt (s : List Nat) (i : Nat) : Nat := s.getD i 0

/-- The local `buffer` of `write_int`, filled from the `unsigned int` `n`:
`buffer[0] = n; buffer[1] = n >> 8; buffer[2] = n >> 16; buffer[3] = n >> 24`. -/
def int_buffer (n : Nat) : List Nat :=
  let n := n % 2 ^ 32
  [n % 256, (n >>> 8) % 256, (n >>> 16) % 256, (n >>> 24) % 256]

/-- The local `buffer` of `write_short`: `buffer[0] = n; buffer[1] = n >> 8`. -/
def short_buffer (n : Nat) : List Nat :=
  let n := n % 2 ^ 32
  [n % 256, (n >>> 8) % 256]

/-- Source `write_int`: four bytes, least significant first. -/
def write_int (f : OutFile) (n : Nat) : OutFile :=
  f.write (int_buffer n)

/-- Source `write_short`: the two low bytes of `n`. -/
def write_short (f : OutFile) (n : Nat) : OutFile :=
  f.write (short_buffer n)

/-- Source `write_chars`: the characters of `s`, at most 255 of them. -/
def write_chars (f : OutFile) (s : List Nat) : OutFile :=
  let count := if s.length > 255 then 255 else s.length
  f.write ((List.range count).map (charAt s))

/-- Source `write_chars_bin`: `count` bytes starting at `s`. -/
def write_chars_bin (f : OutFile) (s : List Nat) (count : Nat) : OutFile :=
  f.write ((List.range count).map (charAt s))

/-! ## Header records (declared in `GWAVI.h`) -/

/-- The container header `avih`. -/
structure gwavi_header_t where
  time_delay : Nat
  data_rate : Nat
  reserved : Nat
  flags : Nat
  number_of_frames : Nat
  initial_frames : Nat
  data_streams : Nat
  buffer_size : Nat
  width : Nat
  height : Nat
  time_scale : Nat
  playback_data_rate : Nat
  starting_time : Nat
  data_length : Nat
deriving DecidableEq, Repr

/-- A stream header `strh`. -/
structure gwavi_stream_header_t where
  data_type : List Nat
  codec : List Nat
  flags : Nat
  priority : Nat
  initial_frames : Nat
  time_scale : Nat
  data_rate : Nat
  start_time : Nat
  data_length : Nat
  buffer_size : Nat
  video_quality : Nat
  audio_quality : Int
  sample_size : Nat
deriving DecidableEq, Repr

/-- The video stream format `strf`. -/
structure gwavi_stream_format_v_t where
  header_size : Nat
  width : Nat
  height : Nat
  num_planes : Nat
  bits_per_pixel : Nat
  compression_type : Nat
  image_size : Nat
  x_pels_per_meter : Nat
  y_pels_per_meter : Nat
  colors_used : Nat
  colors_important : Nat
  palette : List Nat
  palette_count : Nat
deriving DecidableEq, Repr

/-- The audio stream format `strf`. -/
structure gwavi_stream_format_a_t where
  format_type : Nat
  channels : Nat
  sample_rate : Nat
  bytes_per_second : Nat
  block_align : Nat
  bits_per_sample : Nat
  size : Nat
deriving DecidableEq, Repr

/-- The audio description passed to the constructor. -/
structure gwavi_audio_t where
  channels : Nat
  bits : Nat
  samples_per_second : Nat
deriving DecidableEq, Repr

/-- The record after `ZEROIZE(avi_header)`. -/
def gwavi_header_t.zero : gwavi_header_t :=
  ⟨0, 0, 0, 0, 0, 0, 0, 0, 0, 0, 0, 0, 0, 0⟩

/-- The record after `ZEROIZE(stream_header)`. -/
def gwavi_stream_header_t.zero : gwavi_stream_header_t :=
  ⟨[], [], 0, 0, 0, 0, 0, 0, 0, 0, 0, 0, 0⟩

/-- The record after `ZEROIZE(stream_format_v)`. -/
def gwavi_stream_format_v_t.zero : gwavi_stream_format_v_t :=
  ⟨0, 0, 0, 0, 0, 0, 0, 0, 0, 0, 0, [], 0⟩

/-- The record after `ZEROIZE(stream_format_a)`. -/
def gwavi_stream_format_a_t.zero : gwavi_stream_format_a_t :=
  ⟨0, 0, 0, 0, 0, 0, 0⟩

/-! ## Header serializers -/

/-- Source `write_avi_header`. -/
def write_avi_header (f : OutFile) (avi_header : gwavi_header_t) : OutFile :=
  let f := write_chars_bin f (chars "avih") 4
  let marker := f.tellp
  let f := write_int f 0
  let f := write_int f avi_header.time_delay
  let f := write_int f avi_header.data_rate
  let f := write_int f avi_header.reserved
  let f := write_int f avi_header.flags
  let f := write_int f avi_header.number_of_frames
  let f := write_int f avi_header.initial_frames
  let f := write_int f avi_header.data_streams
  let f := write_int f avi_header.buffer_size
  let f := write_int f avi_header.width
  let f := write_int f avi_header.height
  let f := write_int f avi_header.time_scale
  let f := write_int f avi_header.playback_data_rate
  let f := write_int f avi_header.starting_time
  let f := write_int f avi_header.data_length
  let t := f.tellp
  let f := f.seekp marker
  let f := write_int f (t - marker - 4)
  f.seekp t

/-- Source `write_stream_header`. -/
def write_stream_header (f : OutFile) (stream_header : gwavi_stream_header_t) : OutFile :=
  let f := write_chars_bin f (chars "strh") 4
  let marker := f.tellp
  let f := write_int f 0
  let f := write_chars_bin f stream_header.data_type 4
  let f := write_chars_bin f stream_header.codec 4
  let f := write_int f stream_header.flags
  let f := write_int f stream_header.priority
  let f := write_int f stream_header.initial_frames
  let f := write_int f stream_header.time_scale
  let f := write_int f stream_header.data_rate
  let f := write_int f stream_header.start_time
  let f := write_int f stream_header.data_length
  let f := write_int f stream_header.buffer_size
  let f := write_int f stream_header.video_quality
  let f := write_int f stream_header.sample_size
  let f := write_int f 0
  let f := write_int f 0
  let t := f.tellp
  let f := f.seekp marker
  let f := write_int f (t - marker - 4)
  f.seekp t

/-- The four bytes written for palette entry `i` by `write_stream_format_v`. -/
def palette_entry (palette : List Nat) (i : Nat) : List Nat :=
  let p := palette.getD i 0
  [(p &&& 255) % 256, ((p >>> 8) &&& 255) % 256, ((p >>> 16) &&& 255) % 256, 0]

/-- Source `write_stream_format_v`. -/
def write_stream_format_v (f : OutFile) (stream_format_v : gwavi_stream_format_v_t) : OutFile :=
  let f := write_chars_bin f (chars "strf") 4
  let marker := f.tellp
  let f := write_int f 0
  let f := write_int f stream_format_v.header_size
  let f := write_int f stream_format_v.width
  let f := write_int f stream_format_v.height
  let f := write_short f stream_format_v.num_planes
  let f := write_short f stream_format_v.bits_per_pixel
  let f := write_int f stream_format_v.compression_type
  let f := write_int f stream_format_v.image_size
  let f := write_int f stream_format_v.x_pels_per_meter
  let f := write_int f stream_format_v.y_pels_per_meter
  let f := write_int f stream_format_v.colors_used
  let f := write_int f stream_format_v.colors_important
  let f :=
    if stream_format_v.colors_used ≠ 0 then
      (List.range stream_format_v.colors_used).foldl
        (fun g i => g.write (palette_entry stream_format_v.palette i)) f
    else f
  let t := f.tellp
  let f := f.seekp marker
  let f := write_int f (t - marker - 4)
  f.seekp t

/-- Source `write_stream_format_a`. -/
def write_stream_format_a (f : OutFile) (stream_format_a : gwavi_stream_format_a_t) : OutFile :=
  let f := write_chars_bin f (chars "strf") 4
  let marker := f.tellp
  let f := write_int f 0
  let f := write_short f stream_format_a.format_type
  let f := write_short f stream_format_a.channels
  let f := write_int f stream_format_a.sample_rate
  let f := write_int f stream_format_a.bytes_per_second
  let f := write_short f stream_format_a.block_align
  let f := write_short f stream_format_a.bits_per_sample
  let f := write_short f stream_format_a.size
  let t := f.tellp
  let f := f.seekp marker
  let f := write_int f (t - marker - 4)
  f.seekp t

/-! ## The session -/

/-- The data members of class `GWAVI`, for a session whose stream is open.
`offsets = none` is the null pointer. -/
structure Session where
  outFile : OutFile
  avi_header : gwavi_header_t
  stream_header_v : gwavi_stream_header_t
  stream_format_v : gwavi_stream_format_v_t
  stream_header_a : gwavi_stream_header_t
  stream_format_a : gwavi_stream_format_a_t
  marker : Nat
  offsets_ptr : Nat
  offsets_len : Nat
  offsets_start : Nat
  offsets : Option (List Nat)
  offset_count : Nat
deriving DecidableEq, Repr

/-- The expression `new unsigned int[n]`: an array of `n` slots whose contents
are whatever the allocator left there, `heap n i` in slot `i`. -/
def new_array (heap : Nat → Nat → Nat) (n : Nat) : List Nat :=
  (List.range n).map (fun i => heap n i % 2 ^ 32)

/-- Source `write_avi_header_chunk`. -/
def write_avi_header_chunk (s : Session) : Session :=
  let f := s.outFile
  let f := write_chars_bin f (chars "LIST") 4
  let marker := f.tellp
  let f := write_int f 0
  let f := write_chars_bin f (chars "hdrl") 4
  let f := write_avi_header f s.avi_header
  let f := write_chars_bin f (chars "LIST") 4
  let sub_marker := f.tellp
  let f := write_int f 0
  let f := write_chars_bin f (chars "strl") 4
  let f := write_stream_header f s.stream_header_v
  let f := write_stream_format_v f s.stream_format_v
  let t := f.tellp
  let f := f.seekp sub_marker
  let f := write_int f (t - sub_marker - 4)
  let f := f.seekp t
  let f :=
    if s.avi_header.data_streams = 2 then
      let f := write_chars_bin f (chars "LIST") 4
      let sub_marker := f.tellp
      let f := write_int f 0
      let f := write_chars_bin f (chars "strl") 4
      let f := write_stream_header f s.stream_header_a
      let f := write_stream_format_a f s.stream_format_a
      let t := f.tellp
      let f := f.seekp sub_marker
      let f := write_int f (t - sub_marker - 4)
      f.seekp t
    else f
  let t := f.tellp
  let f := f.seekp marker
  let f := write_int f (t - marker - 4)
  { s with outFile := f.seekp t }

/-- The conversion `(unsigned int) c` of a `char` (signed, as on x86). -/
def char_to_uint (c : Nat) : Nat :=
  if c % 256 < 128 then c % 256 else c % 256 + (2 ^ 32 - 256)

/-- The compression code computed from the codec tag by the constructor and by
`SetFourccCodec`. -/
def compression_code (fourcc : List Nat) : Nat :=
  ((char_to_uint (charAt fourcc 3) <<< 24) % 2 ^ 32
    + (char_to_uint (charAt fourcc 2) <<< 16) % 2 ^ 32
    + (char_to_uint (charAt fourcc 1) <<< 8) % 2 ^ 32
    + char_to_uint (charAt fourcc 0)) % 2 ^ 32

/-- The members of the session as the constructor sets them before its first
write: everything zeroed, the stream just opened (and truncated), and the
header fields computed from the arguments. -/
def init_session (width height : Nat) (fourcc : List Nat) (fps : Nat)
    (audio : Option gwavi_audio_t) : Session :=
  { outFile := { data := [], pos := 0 }
    avi_header :=
      { gwavi_header_t.zero with
        time_delay := 1000000 / fps
        data_rate := (width * height * 3) % 2 ^ 32
        flags := 0x10
        data_streams := if audio.isSome then 2 else 1
        number_of_frames := 0
        width := width
        height := height
        buffer_size := (width * height * 3) % 2 ^ 32 }
    stream_header_v :=
      { gwavi_stream_header_t.zero with
        data_type := chars "vids"
        codec := (List.range 4).map (charAt fourcc)
        time_scale := 1
        data_rate := fps
        buffer_size := (width * height * 3) % 2 ^ 32
        data_length := 0 }
    stream_format_v :=
      { gwavi_stream_format_v_t.zero with
        header_size := 40
        width := width
        height := height
        num_planes := 1
        bits_per_pixel := 24
        compression_type := compression_code fourcc
        image_size := (width * height * 3) % 2 ^ 32
        colors_used := 0
        colors_important := 0
        palette := []
        palette_count := 0 }
    stream_header_a :=
      match audio with
      | none => gwavi_stream_header_t.zero
      | some a =>
        { gwavi_stream_header_t.zero with
          data_type := chars "auds"
          codec := [1, 0, 0, 0]
          time_scale := 1
          data_rate := a.samples_per_second
          buffer_size := (a.channels * (a.bits / 8) * a.samples_per_second) % 2 ^ 32
          audio_quality := -1
          sample_size := ((a.bits / 8) * a.channels) % 2 ^ 32 }
    stream_format_a :=
      match audio with
      | none => gwavi_stream_format_a_t.zero
      | some a =>
        { format_type := 1
          channels := a.channels
          sample_rate := a.samples_per_second
          bytes_per_second := (a.channels * (a.bits / 8) * a.samples_per_second) % 2 ^ 32
          block_align := (a.channels * (a.bits / 8)) % 2 ^ 32
          bits_per_sample := a.bits
          size := 0 }
    marker := 0
    offsets_ptr := 0
    offsets_len := 0
    offsets_start := 0
    offsets := none
    offset_count := 0 }

/-- The constructor `GWAVI::GWAVI` (the specification's Open), for a non-null
`fourcc` and on a file that opens; `none` is the exception thrown for
`fps < 1`.  The advisory `check_fourcc` call only prints a warning. -/
def Open (heap : Nat → Nat → Nat) (width height : Nat) (fourcc : List Nat) (fps : Nat)
    (audio : Option gwavi_audio_t) : Option Session :=
  if fps < 1 then none
  else
    let s := init_session width height fourcc fps audio
    let f := write_chars_bin s.outFile (chars "RIFF") 4
    let f := write_int f 0
    let f := write_chars_bin f (chars "AVI ") 4
    let s := write_avi_header_chunk { s with outFile := f }
    let f := write_chars_bin s.outFile (chars "LIST") 4
    let marker := f.tellp
    let f := write_int f 0
    let f := write_chars_bin f (chars "movi") 4
    some { s with
      outFile := f
      marker := marker
      offsets_len := 1024
      offsets := some (new_array heap 1024)
      offsets_ptr := 0 }

/-- The padding computed by `AddVideoFrame` and `AddAudioFrame`:
`maxi_pad = len % 4; if (maxi_pad > 0) maxi_pad = 4 - maxi_pad;`. -/
def maxi_pad (len : Nat) : Nat :=
  let maxi_pad := len % 4
  if maxi_pad > 0 then 4 - maxi_pad else maxi_pad

/-- The bytes `buffer[0 .. len)` handed to `outFile.write(buffer, len)`. -/
def buffer_bytes (buffer : Nat → Nat) (len : Nat) : List Nat :=
  (List.range len).map buffer

/-- The loop `for (t = 0; t < maxi_pad; t++) outFile.write("\0", 1);`. -/
def write_padding (f : OutFile) (maxi_pad : Nat) : OutFile :=
  (List.range maxi_pad).foldl (fun g _ => g.write [0]) f

/-- The growth step shared by both appenders: when `offset_count` has reached
`offsets_len`, the table is deleted and a new, larger one is allocated. -/
def grow_offsets (heap : Nat → Nat → Nat) (s : Session) : Session :=
  if s.offset_count ≥ s.offsets_len then
    { s with
      offsets_len := s.offsets_len + 1024
      offsets := some (new_array heap (s.offsets_len + 1024)) }
  else s

/-- The store `offsets[offsets_ptr++] = v` (no store happens through a null
pointer or beyond the end of the array). -/
def store_offset (s : Session) (v : Nat) : Session :=
  { s with
    offsets := s.offsets.map (fun a => a.set s.offsets_ptr v)
    offsets_ptr := s.offsets_ptr + 1 }

/-- Source `AddVideoFrame` when no stream write throws; `buffer = none` is the
null pointer.  Returns the return code and the session afterwards.  The
`catch (std::system_error&)` path of a write that throws is in
`AddVideoFrame_io`. -/
def AddVideoFrame (heap : Nat → Nat → Nat) (s : Session) (buffer : Option (Nat → Nat))
    (len : Nat) : Int × Session :=
  match buffer with
  | none => (-1, s)
  | some buffer =>
    let s := { s with offset_count := s.offset_count + 1 }
    let s := { s with
      stream_header_v := { s.stream_header_v with
        data_length := s.stream_header_v.data_length + 1 } }
    let maxi_pad := maxi_pad len
    let s := grow_offsets heap s
    let s := store_offset s ((len + maxi_pad) % 2 ^ 32)
    let f := write_chars_bin s.outFile (chars "00dc") 4
    let f := write_int f ((len + maxi_pad) % 2 ^ 32)
    let f := f.write (buffer_bytes buffer len)
    let f := write_padding f maxi_pad
    (0, { s with outFile := f })

/-- Source `AddAudioFrame` when no stream write throws; `buffer = none` is the
null pointer.  The `catch (std::system_error&)` path of a write that throws is
in `AddAudioFrame_io`. -/
def AddAudioFrame (heap : Nat → Nat → Nat) (s : Session) (buffer : Option (Nat → Nat))
    (len : Nat) : Int × Session :=
  match buffer with
  | none => (-1, s)
  | some buffer =>
    let s := { s with offset_count := s.offset_count + 1 }
    let maxi_pad := maxi_pad len
    let s := grow_offsets heap s
    let s := store_offset s (((len + maxi_pad) ||| 0x80000000) % 2 ^ 32)
    let f := write_chars_bin s.outFile (chars "01wb") 4
    let f := write_int f ((len + maxi_pad) % 2 ^ 32)
    let f := f.write (buffer_bytes buffer len)
    let f := write_padding f maxi_pad
    let s := { s with outFile := f }
    (0, { s with
      stream_header_a := { s.stream_header_a with
        data_length := s.stream_header_a.data_length + (len + maxi_pad) % 2 ^ 32 } })

/-- One pass of the loop of `write_index` for slot `t`: the state is the
stream, the table and the running `offset`. -/
def write_index_step (st : OutFile × List Nat × Nat) (t : Nat) : OutFile × List Nat × Nat :=
  let f := st.1
  let offsets := st.2.1
  let offset := st.2.2
  let r : OutFile × List Nat :=
    if (offsets.getD t 0) &&& 0x80000000 = 0 then
      (write_chars f (chars "00dc"), offsets)
    else
      (write_chars f (chars "01wb"), offsets.set t ((offsets.getD t 0) &&& 0x7fffffff))
  let f := r.1
  let offsets := r.2
  let f := write_int f 0x10
  let f := write_int f offset
  let f := write_int f (offsets.getD t 0)
  (f, offsets, (offset + offsets.getD t 0 + 8) % 2 ^ 32)

/-- Source `write_index`; `none` is the exception thrown for a null table.
Returns the stream and the table, whose audio entries have lost their high
bit. -/
def write_index (f : OutFile) (count : Nat) (offsets : Option (List Nat)) :
    Option (OutFile × List Nat) :=
  match offsets with
  | none => none
  | some offsets =>
    let f := write_chars_bin f (chars "idx1") 4
    let marker := f.tellp
    let f := write_int f 0
    let st := (List.range count).foldl write_index_step (f, offsets, 4)
    let f := st.1
    let t := f.tellp
    let f := f.seekp marker
    let f := write_int f (t - marker - 4)
    some (f.seekp t, st.2.1)

/-- Source `Finalize`; `none` is the exception that leaves `write_index`.
Returns the return code and the session afterwards, whose `outFile.data` is
the finished file. -/
def Finalize (s : Session) : Option (Int × Session) :=
  let f := s.outFile
  let t := f.tellp
  let f := f.seekp s.marker
  let f := write_int f (t - s.marker - 4)
  let f := f.seekp t
  match write_index f s.offset_count s.offsets with
  | none => none
  | some (f, _) =>
    let s := { s with outFile := f, offsets := none }
    let s := { s with
      avi_header := { s.avi_header with
        number_of_frames := s.stream_header_v.data_length } }
    let t := s.outFile.tellp
    let s := { s with outFile := s.outFile.seekp 12 }
    let s := write_avi_header_chunk s
    let s := { s with outFile := s.outFile.seekp t }
    let t := s.outFile.tellp
    let f := s.outFile.seekp 4
    let f := write_int f (t - 8)
    let f := f.seekp t
    some (0, { s with outFile := f })

/-- Source `SetFramerate`.  With `fps = 0` the source divides by zero, which C++ leaves
undefined: there is no resulting session (`none`). -/
def SetFramerate (s : Session) (fps : Nat) : Option Session :=
  if fps = 0 then none
  else
    some { s with
      stream_header_v := { s.stream_header_v with data_rate := fps }
      avi_header := { s.avi_header with time_delay := 10000000 / fps } }

/-- Source `SetFourccCodec`, for a non-null `fourcc`.  The advisory
`check_fourcc` call only prints a warning. -/
def SetFourccCodec (s : Session) (fourcc : List Nat) : Session :=
  { s with
    stream_header_v := { s.stream_header_v with codec := (List.range 4).map (charAt fourcc) }
    stream_format_v := { s.stream_format_v with compression_type := compression_code fourcc } }

/-- Source `SetVideoFrameSize`. -/
def SetVideoFrameSize (s : Session) (width height : Nat) : Session :=
  let size := (width * height * 3) % 2 ^ 32
  { s with
    avi_header := { s.avi_header with
      data_rate := size, width := width, height := height, buffer_size := size }
    stream_header_v := { s.stream_header_v with buffer_size := size }
    stream_format_v := { s.stream_format_v with
      width := width, height := height, image_size := size } }

/-! ## Sequences of appended frames -/

/-- One successful append: which appender is called, the buffer and `len`. -/
structure Frame where
  audio : Bool
  buffer : Nat → Nat
  len : Nat

/-- The session after appending one frame. -/
def add_frame (heap : Nat → Nat → Nat) (s : Session) (fr : Frame) : Session :=
  if fr.audio then (AddAudioFrame heap s (some fr.buffer) fr.len).2
  else (AddVideoFrame heap s (some fr.buffer) fr.len).2

/-- The session after appending the frames in order. -/
def add_frames (heap : Nat → Nat → Nat) (s : Session) (frs : List Frame) : Session :=
  frs.foldl (add_frame heap) s

/-! ## Byte layouts

The byte strings that the serializers are shown to write, and the reader used
to state what a file contains. -/

/-- The bytes in front of the write position, the gap of a position beyond the
end included. -/
def OutFile.before (f : OutFile) : List Nat :=
  f.data.take f.pos ++ List.replicate (f.pos - f.data.length) 0

/-- Little-endian reading of a byte string. -/
def le_decode : List Nat → Nat
  | [] => 0
  | b :: bs => b + 256 * le_decode bs

/-- The 4-byte little-endian integer found at offset `off` of `data`. -/
def read_int (data : List Nat) (off : Nat) : Nat :=
  le_decode ((data.drop off).take 4)

/-- The fourteen fields of the container header, in the order in which
`write_avi_header` emits them. -/
def avih_payload (h : gwavi_header_t) : List Nat :=
  int_buffer h.time_delay ++ int_buffer h.data_rate ++ int_buffer h.reserved
    ++ int_buffer h.flags ++ int_buffer h.number_of_frames ++ int_buffer h.initial_frames
    ++ int_buffer h.data_streams ++ int_buffer h.buffer_size ++ int_buffer h.width
    ++ int_buffer h.height ++ int_buffer h.time_scale ++ int_buffer h.playback_data_rate
    ++ int_buffer h.starting_time ++ int_buffer h.data_length

/-- The `avih` chunk: tag, size, and the fourteen fields. -/
def avih_chunk (h : gwavi_header_t) : List Nat :=
  chars "avih" ++ int_buffer 56 ++ avih_payload h

/-- A `strh` chunk. -/
def strh_chunk (h : gwavi_stream_header_t) : List Nat :=
  chars "strh" ++ int_buffer 56
    ++ (List.range 4).map (charAt h.data_type) ++ (List.range 4).map (charAt h.codec)
    ++ int_buffer h.flags ++ int_buffer h.priority ++ int_buffer h.initial_frames
    ++ int_buffer h.time_scale ++ int_buffer h.data_rate ++ int_buffer h.start_time
    ++ int_buffer h.data_length ++ int_buffer h.buffer_size ++ int_buffer h.video_quality
    ++ int_buffer h.sample_size ++ int_buffer 0 ++ int_buffer 0

/-- The palette bytes of the video `strf` chunk. -/
def palette_bytes (h : gwavi_stream_format_v_t) : List Nat :=
  ((List.range h.colors_used).map (palette_entry h.palette)).flatten

/-- The video `strf` chunk. -/
def strf_v_chunk (h : gwavi_stream_format_v_t) : List Nat :=
  chars "strf" ++ int_buffer (40 + 4 * h.colors_used)
    ++ int_buffer h.header_size ++ int_buffer h.width ++ int_buffer h.height
    ++ short_buffer h.num_planes ++ short_buffer h.bits_per_pixel
    ++ int_buffer h.compression_type ++ int_buffer h.image_size
    ++ int_buffer h.x_pels_per_meter ++ int_buffer h.y_pels_per_meter
    ++ int_buffer h.colors_used ++ int_buffer h.colors_important ++ palette_bytes h

/-- The audio `strf` chunk. -/
def strf_a_chunk (h : gwavi_stream_format_a_t) : List Nat :=
  chars "strf" ++ int_buffer 18
    ++ short_buffer h.format_type ++ short_buffer h.channels ++ int_buffer h.sample_rate
    ++ int_buffer h.bytes_per_second ++ short_buffer h.block_align
    ++ short_buffer h.bits_per_sample ++ short_buffer h.size

/-- The video `strl` list. -/
def strl_v_list (s : Session) : List Nat :=
  chars "LIST" ++ int_buffer (4 + (strh_chunk s.stream_header_v).length
      + (strf_v_chunk s.stream_format_v).length)
    ++ chars "strl" ++ strh_chunk s.stream_header_v ++ strf_v_chunk s.stream_format_v

/-- The audio `strl` list, present when there are two streams. -/
def strl_a_list (s : Session) : List Nat :=
  if s.avi_header.data_streams = 2 then
    chars "LIST" ++ int_buffer (4 + (strh_chunk s.stream_header_a).length
        + (strf_a_chunk s.stream_format_a).length)
      ++ chars "strl" ++ strh_chunk s.stream_header_a ++ strf_a_chunk s.stream_format_a
  else []

/-- The `hdrl` list. -/
def hdrl_list (s : Session) : List Nat :=
  chars "LIST" ++ int_buffer (4 + (avih_chunk s.avi_header).length + (strl_v_list s).length
      + (strl_a_list s).length)
    ++ chars "hdrl" ++ avih_chunk s.avi_header ++ strl_v_list s ++ strl_a_list s

/-- The chunk that an appender writes for one buffer: tag, length field,
payload, padding. -/
def frame_chunk (tag : List Nat) (buffer : Nat → Nat) (len : Nat) : List Nat :=
  tag ++ int_buffer (len + maxi_pad len) ++ buffer_bytes buffer len
    ++ List.replicate (maxi_pad len) 0

/-- The tag of the chunk of a frame. -/
def Frame.tag (fr : Frame) : List Nat :=
  if fr.audio then chars "01wb" else chars "00dc"

/-- The padded length `len + maxi_pad` of a frame. -/
def Frame.padded (fr : Frame) : Nat := fr.len + maxi_pad fr.len

/-- The chunk of a frame. -/
def Frame.chunk (fr : Frame) : List Nat :=
  frame_chunk fr.tag fr.buffer fr.len

/-- The value stored in the offset table for a frame. -/
def Frame.entry (fr : Frame) : Nat :=
  if fr.audio then (fr.padded ||| 0x80000000) % 2 ^ 32 else fr.padded % 2 ^ 32

/-- The chunks of a sequence of frames, one after the other: the payload of
the `movi` list after its tag. -/
def movi_chunks (frs : List Frame) : List Nat :=
  (frs.map Frame.chunk).flatten

/-- What an appender does to the stream, in the words of the specification:
it writes the tag, a four-byte little-endian field holding `len + pad`, the
`len` payload bytes in order and `pad` zero bytes, with
`pad = (4 - len mod 4) mod 4`; at the end of the file this appends them. -/
def WritesChunk (s s' : Session) (tag : List Nat) (buffer : Nat → Nat) (len : Nat) : Prop :=
  ∃ field : List Nat,
    field.length = 4 ∧ (∀ b ∈ field, b < 256) ∧ le_decode field = len + (4 - len % 4) % 4 ∧
    (tag ++ field ++ (List.range len).map buffer
        ++ List.replicate ((4 - len % 4) % 4) 0).length = 8 + len + (4 - len % 4) % 4 ∧
    s'.outFile = s.outFile.write
      (tag ++ field ++ (List.range len).map buffer ++ List.replicate ((4 - len % 4) % 4) 0) ∧
    (s.outFile.pos = s.outFile.data.length →
      s'.outFile.data = s.outFile.data
        ++ (tag ++ field ++ (List.range len).map buffer
            ++ List.replicate ((4 - len % 4) % 4) 0))

/-- An allocator that hands out zeroed memory. -/
def zero_heap : Nat → Nat → Nat := fun _ _ => 0

/-- A small session used to instantiate the theorems: twelve bytes written,
a table of four slots with one entry recorded. -/
def sample_session : Session :=
  { outFile := { data := chars "RIFF" ++ int_buffer 0 ++ chars "AVI ", pos := 12 }
    avi_header := { gwavi_header_t.zero with data_streams := 2 }
    stream_header_v := { gwavi_stream_header_t.zero with data_length := 1 }
    stream_format_v := gwavi_stream_format_v_t.zero
    stream_header_a := gwavi_stream_header_t.zero
    stream_format_a := gwavi_stream_format_a_t.zero
    marker := 4
    offsets_ptr := 1
    offsets_len := 4
    offsets_start := 0
    offsets := some [8, 5, 6, 7]
    offset_count := 1 }

/-- The layout of the file of a session while frames are appended: the RIFF
prefix with its placeholder size, a header list `hdrl` of the size the
session's records serialize to, the `movi` list with its placeholder size at
`marker`, and the chunks `movi` written so far; the write position is the end
of the file. -/
def Layout (s : Session) (hdrl movi : List Nat) : Prop :=
  hdrl.length = (hdrl_list s).length
    ∧ s.outFile.data = chars "RIFF" ++ int_buffer 0 ++ chars "AVI " ++ hdrl
        ++ chars "LIST" ++ int_buffer 0 ++ chars "movi" ++ movi
    ∧ s.outFile.pos = s.outFile.data.length
    ∧ s.marker = 16 + hdrl.length

/-- The length that `write_index` emits for a table entry: the entry without
its high bit. -/
def entry_len (e : Nat) : Nat :=
  if e &&& 0x80000000 = 0 then e else e &&& 0x7fffffff

/-- The tag that `write_index` emits for a table entry. -/
def entry_tag (e : Nat) : List Nat :=
  if e &&& 0x80000000 = 0 then chars "00dc" else chars "01wb"

/-- One record of the index: tag, flags, offset, length. -/
def index_record (offset e : Nat) : List Nat :=
  entry_tag e ++ int_buffer 0x10 ++ int_buffer offset ++ int_buffer (entry_len e)

/-- The running `offset` of `write_index` after the entries `es`. -/
def index_offset (offset : Nat) (es : List Nat) : Nat :=
  es.foldl (fun o e => (o + entry_len e + 8) % 2 ^ 32) offset

/-- The records of the index for the entries `es`, the first at `offset`. -/
def index_records : Nat → List Nat → List Nat
  | _, [] => []
  | offset, e :: es => index_record offset e ++ index_records ((offset + entry_len e + 8) % 2 ^ 32) es

/-- The `idx1` chunk for the entries `es`. -/
def idx1_chunk (es : List Nat) : List Nat :=
  chars "idx1" ++ int_buffer (16 * es.length) ++ index_records 4 es

/-- The first `count` slots of the offset table, as `write_index` reads
them. -/
def table_entries (tbl : List Nat) (count : Nat) : List Nat :=
  (List.range count).map (fun t => tbl.getD t 0)

/-- The bytes of a RIFF AVI file: the outer size field, the header list, the
`movi` list with its size field and chunks, and what follows it. -/
def riff_file (riff_size : Nat) (hdrl : List Nat) (movi_size : Nat) (movi idx : List Nat) :
    List Nat :=
  chars "RIFF" ++ int_buffer riff_size ++ chars "AVI " ++ hdrl
    ++ chars "LIST" ++ int_buffer movi_size ++ chars "movi" ++ movi ++ idx

/-- The records as `Finalize` serializes them: the container header carries
the accumulated number of video frames. -/
def final_records (s : Session) : Session :=
  { s with
    avi_header := { s.avi_header with number_of_frames := s.stream_header_v.data_length } }

/-- The `n` bytes found at offset `off` of `data`. -/
def read_bytes (data : List Nat) (off n : Nat) : List Nat :=
  (data.drop off).take n

/-- Walking a run of chunks: the size fields of the chunks that start at `off`
and end at `stop`, each chunk being an 8-byte prefix (tag and size) followed
by as many bytes as its size field says. -/
def chunk_sizes (data : List Nat) : Nat → Nat → Nat → List Nat
  | 0, _, _ => []
  | fuel + 1, off, stop =>
    if off + 8 ≤ stop then
      read_int data (off + 4)
        :: chunk_sizes data fuel (off + 8 + read_int data (off + 4)) stop
    else []

/-- The offset of the `movi` list in a file: it follows the 12-byte RIFF
prefix and the `hdrl` list, whose size field is at offset 16. -/
def movi_start (data : List Nat) : Nat :=
  20 + read_int data 16

/-- Reading back the chunk sizes of the frames of a file: the chunks of the
`movi` list, from after its tag to the end that its size field gives. -/
def read_frame_sizes (data : List Nat) : List Nat :=
  chunk_sizes data data.length (movi_start data + 12)
    (movi_start data + 8 + read_int data (movi_start data + 4))

/-- The file that open, append, finalize produce, `none` when the constructor
or `Finalize` throws. -/
def produce (heap : Nat → Nat → Nat) (width height : Nat) (fourcc : List Nat) (fps : Nat)
    (audio : Option gwavi_audio_t) (frs : List Frame) : Option (Int × Session) :=
  (Open heap width height fourcc fps audio).bind (fun s => Finalize (add_frames heap s frs))

/-- A short interleaving used to instantiate the theorems: an audio frame of
200 bytes, a video frame of 101 bytes, an audio frame of 5 bytes. -/
def sample_frames : List Frame :=
  [⟨true, fun i => i % 256, 200⟩, ⟨false, fun _ => 0, 101⟩, ⟨true, fun _ => 1, 5⟩]

/-! ## The codec check -/

/-- The string literals that make up the array `valid_fourcc` of `check_fourcc`,
one per source line. -/
def valid_fourcc_lines : List String :=
  ["3IV1 3IV2 8BPS",
   "AASC ABYR ADV1 ADVJ AEMI AFLC AFLI AJPG AMPG ANIM AP41 ASLC",
   "ASV1 ASV2 ASVX AUR2 AURA AVC1 AVRN",
   "BA81 BINK BLZ0 BT20 BTCV BW10 BYR1 BYR2",
   "CC12 CDVC CFCC CGDI CHAM CJPG CMYK CPLA CRAM CSCD CTRX CVID",
   "CWLT CXY1 CXY2 CYUV CYUY",
   "D261 D263 DAVC DCL1 DCL2 DCL3 DCL4 DCL5 DIV3 DIV4 DIV5 DIVX",
   "DM4V DMB1 DMB2 DMK2 DSVD DUCK DV25 DV50 DVAN DVCS DVE2 DVH1",
   "DVHD DVSD DVSL DVX1 DVX2 DVX3 DX50 DXGM DXTC DXTN",
   "EKQ0 ELK0 EM2V ES07 ESCP ETV1 ETV2 ETVC",
   "FFV1 FLJP FMP4 FMVC FPS1 FRWA FRWD FVF1",
   "GEOX GJPG GLZW GPEG GWLT",
   "H260 H261 H262 H263 H264 H265 H266 H267 H268 H269",
   "HDYC HFYU HMCR HMRR",
   "I263 ICLB IGOR IJPG ILVC ILVR IPDV IR21 IRAW ISME",
   "IV30 IV31 IV32 IV33 IV34 IV35 IV36 IV37 IV38 IV39 IV40 IV41",
   "IV41 IV43 IV44 IV45 IV46 IV47 IV48 IV49 IV50",
   "JBYR JPEG JPGL",
   "KMVC",
   "L261 L263 LBYR LCMW LCW2 LEAD LGRY LJ11 LJ22 LJ2K LJ44 LJPG",
   "LMP2 LMP4 LSVC LSVM LSVX LZO1",
   "M261 M263 M4CC M4S2 MC12 MCAM MJ2C MJPG MMES MP2A MP2T MP2V",
   "MP42 MP43 MP4A MP4S MP4T MP4V MPEG MPNG MPG4 MPGI MR16 MRCA MRLE",
   "MSVC MSZH",
   "MTX1 MTX2 MTX3 MTX4 MTX5 MTX6 MTX7 MTX8 MTX9",
   "MVI1 MVI2 MWV1",
   "NAVI NDSC NDSM NDSP NDSS NDXC NDXH NDXP NDXS NHVU NTN1 NTN2",
   "NVDS NVHS",
   "NVS0 NVS1 NVS2 NVS3 NVS4 NVS5",
   "NVT0 NVT1 NVT2 NVT3 NVT4 NVT5",
   "PDVC PGVV PHMO PIM1 PIM2 PIMJ PIXL PJPG PVEZ PVMM PVW2",
   "QPEG QPEQ",
   "RGBT RLE RLE4 RLE8 RMP4 RPZA RT21 RV20 RV30 RV40 S422 SAN3",
   "SDCC SEDG SFMC SMP4 SMSC SMSD SMSV SP40 SP44 SP54 SPIG SQZ2",
   "STVA STVB STVC STVX STVY SV10 SVQ1 SVQ3",
   "TLMS TLST TM20 TM2X TMIC TMOT TR20 TSCC TV10 TVJP TVMJ TY0N",
   "TY2C TY2N",
   "UCOD ULTI",
   "V210 V261 V655 VCR1 VCR2 VCR3 VCR4 VCR5 VCR6 VCR7 VCR8 VCR9",
   "VDCT VDOM VDTZ VGPX VIDS VIFP VIVO VIXL VLV1 VP30 VP31 VP40",
   "VP50 VP60 VP61 VP62 VP70 VP80 VQC1 VQC2 VQJC VSSV VUUU VX1K",
   "VX2K VXSP VYU9 VYUY",
   "WBVC WHAM WINX WJPG WMV1 WMV2 WMV3 WMVA WNV1 WVC1",
   "X263 X264 XLV0 XMPG XVID",
   "XWV0 XWV1 XWV2 XWV3 XWV4 XWV5 XWV6 XWV7 XWV8 XWV9",
   "XXAN",
   "Y16 Y411 Y41P Y444 Y8 YC12 YUV8 YUV9 YUVP YUY2 YUYV YV12 YV16",
   "YV92",
   "ZLIB ZMBV ZPEG ZYGO ZYYY"]

/-- The array `valid_fourcc`: adjacent string literals are concatenated, with
nothing between the last code of a line and the first code of the next. -/
def valid_fourcc : List Nat :=
  (valid_fourcc_lines.map chars).flatten

/-- Source `check_fourcc`; `none` is the null pointer.  `strchr(fourcc, ' ')`
finds a space among the characters of `fourcc`, and
`strstr(valid_fourcc, fourcc)` finds `fourcc` as a contiguous run of characters
of `valid_fourcc`. -/
def check_fourcc (fourcc : Option (List Nat)) : Int :=
  match fourcc with
  | none => -1
  | some fourcc =>
    if 32 ∈ fourcc ∨ ¬ fourcc <:+: valid_fourcc then 1 else 0

/-- The constructor together with the file named `filename`: `disk` is the
content of that file before the call (`none` when there is no such file), and
the result is its content after the call, with the session.  The `throw 1` for
`fps < 1` comes before `outFile.open`, so the file is neither created nor
truncated, and the `catch` block finds no open stream to close. -/
def Open_file (heap : Nat → Nat → Nat) (width height : Nat) (fourcc : List Nat) (fps : Nat)
    (audio : Option gwavi_audio_t) (disk : Option (List Nat)) :
    Option (List Nat) × Option Session :=
  match Open heap width height fourcc fps audio with
  | none => (disk, none)
  | some s => (some s.outFile.data, some s)

/-! ## Sequences of calls -/

/-- One call of an appender: which one, the buffer pointer (`none` when
null) and `len`. -/
structure Call where
  audio : Bool
  buffer : Option (Nat → Nat)
  len : Nat

/-- The return code and the session after one call. -/
def call (heap : Nat → Nat → Nat) (s : Session) (c : Call) : Int × Session :=
  if c.audio then AddAudioFrame heap s c.buffer c.len
  else AddVideoFrame heap s c.buffer c.len

/-- The return codes, in order, and the session after a sequence of calls. -/
def calls (heap : Nat → Nat → Nat) (s : Session) : List Call → List Int × Session
  | [] => ([], s)
  | c :: cs =>
    ((call heap s c).1 :: (calls heap (call heap s c).2 cs).1,
      (calls heap (call heap s c).2 cs).2)

/-- One call between the constructor and `Finalize`: an appender or a
setter. -/
inductive Op where
  | append (c : Call)
  | framerate (fps : Nat)
  | fourcc (tag : List Nat)
  | frame_size (width height : Nat)

/-- The session after one call, `none` when `SetFramerate` divides by zero. -/
def apply_op (heap : Nat → Nat → Nat) (s : Session) : Op → Option Session
  | Op.append c => some (call heap s c).2
  | Op.framerate fps => SetFramerate s fps
  | Op.fourcc tag => some (SetFourccCodec s tag)
  | Op.frame_size width height => some (SetVideoFrameSize s width height)

/-- The session after a sequence of calls. -/
def apply_ops (heap : Nat → Nat → Nat) (s : Session) : List Op → Option Session
  | [] => some s
  | op :: ops => (apply_op heap s op).bind (fun s => apply_ops heap s ops)

/-- The words of a line of text: the runs of characters between spaces. -/
def words_of : List Nat → List (List Nat)
  | [] => [[]]
  | c :: cs =>
    if c = 32 then [] :: words_of cs
    else
      match words_of cs with
      | [] => [[c]]
      | w :: ws => (c :: w) :: ws

/-- The codes listed in the table of `check_fourcc`: the words of its
lines. -/
def listed_codes : List (List Nat) :=
  (valid_fourcc_lines.map (fun l => words_of (chars l))).flatten

/-- What a setter leaves alone, in the words of the specification: the bytes
already written and the write position, the retained `movi` marker, the offset
table with its count, cursor and capacity, the accumulated number of video
frames and the accumulated audio byte length. -/
def KeepsOutput (s s' : Session) : Prop :=
  s'.outFile.data = s.outFile.data ∧ s'.outFile.pos = s.outFile.pos
    ∧ s'.marker = s.marker
    ∧ s'.offsets = s.offsets ∧ s'.offset_count = s.offset_count
    ∧ s'.offsets_ptr = s.offsets_ptr ∧ s'.offsets_len = s.offsets_len
    ∧ s'.stream_header_v.data_length = s.stream_header_v.data_length
    ∧ s'.stream_header_a.data_length = s.stream_header_a.data_length

/-- The frames that a sequence of calls appends: those of the calls with a
non-null buffer, in order. -/
def appended (cs : List Call) : List Frame :=
  cs.filterMap (fun c => c.buffer.map (fun b => (⟨c.audio, b, c.len⟩ : Frame)))

/-- The offset that the specification gives the `i`-th index record: 4 plus the
sum over `j < i` of the padded length of frame `j` plus 8. -/
def chunk_offset (frs : List Frame) (i : Nat) : Nat :=
  4 + ((frs.take i).map (fun fr => fr.padded + 8)).sum

/-- The state of the offset table in a session that the constructor and the
appenders have produced: the table is allocated with `offsets_len` slots, the
cursor `offsets_ptr` equals `offset_count`, and both are below `offsets_len`. -/
def TableOk (s : Session) : Prop :=
  ∃ tbl, s.offsets = some tbl ∧ tbl.length = s.offsets_len
    ∧ s.offsets_ptr = s.offset_count ∧ s.offset_count < s.offsets_len

/-- The session at the store `offsets[offsets_ptr++] = ...` of an appender
called with a non-null buffer: `offset_count` has been incremented (and, in
`AddVideoFrame`, the number of video frames), and the growth step has run. -/
def at_store (heap : Nat → Nat → Nat) (s : Session) (audio : Bool) : Session :=
  if audio then
    grow_offsets heap { s with offset_count := s.offset_count + 1 }
  else
    grow_offsets heap
      { s with
        offset_count := s.offset_count + 1
        stream_header_v := { s.stream_header_v with
          data_length := s.stream_header_v.data_length + 1 } }

/-! ## The appenders on a stream whose writes can throw -/

/-- Source `AddVideoFrame` with its `catch` path.  `throws = none`: no stream
write throws.  `throws = some f`: a write of the `try` block throws
`std::system_error`, and `f` is the stream as the failed write leaves it; the
increments of `offset_count` and of the frame count, the growth step and the
store into the table come before the first write and have taken effect when
the `catch` block sets the return code to -1. -/
def AddVideoFrame_io (heap : Nat → Nat → Nat) (s : Session) (buffer : Option (Nat → Nat))
    (len : Nat) (throws : Option OutFile) : Int × Session :=
  match buffer with
  | none => (-1, s)
  | some buffer =>
    let s := { s with offset_count := s.offset_count + 1 }
    let s := { s with
      stream_header_v := { s.stream_header_v with
        data_length := s.stream_header_v.data_length + 1 } }
    let maxi_pad := maxi_pad len
    let s := grow_offsets heap s
    let s := store_offset s ((len + maxi_pad) % 2 ^ 32)
    match throws with
    | some f => (-1, { s with outFile := f })
    | none =>
      let f := write_chars_bin s.outFile (chars "00dc") 4
      let f := write_int f ((len + maxi_pad) % 2 ^ 32)
      let f := f.write (buffer_bytes buffer len)
      let f := write_padding f maxi_pad
      (0, { s with outFile := f })

/-- Source `AddAudioFrame` with its `catch` path, as `AddVideoFrame_io`.  The
update of the audio byte length comes after the writes and is skipped when a
write throws. -/
def AddAudioFrame_io (heap : Nat → Nat → Nat) (s : Session) (buffer : Option (Nat → Nat))
    (len : Nat) (throws : Option OutFile) : Int × Session :=
  match buffer with
  | none => (-1, s)
  | some buffer =>
    let s := { s with offset_count := s.offset_count + 1 }
    let maxi_pad := maxi_pad len
    let s := grow_offsets heap s
    let s := store_offset s (((len + maxi_pad) ||| 0x80000000) % 2 ^ 32)
    match throws with
    | some f => (-1, { s with outFile := f })
    | none =>
      let f := write_chars_bin s.outFile (chars "01wb") 4
      let f := write_int f ((len + maxi_pad) % 2 ^ 32)
      let f := f.write (buffer_bytes buffer len)
      let f := write_padding f maxi_pad
      let s := { s with outFile := f }
      (0, { s with
        stream_header_a := { s.stream_header_a with
          data_length := s.stream_header_a.data_length + (len + maxi_pad) % 2 ^ 32 } })

/-- One call of an appender on such a stream: which appender, the buffer
pointer (`none` when null), `len`, and whether a write of the call throws. -/
structure IoCall where
  audio : Bool
  buffer : Option (Nat → Nat)
  len : Nat
  throws : Option OutFile

/-- The return code and the session after one call. -/
def io_call (heap : Nat → Nat → Nat) (s : Session) (c : IoCall) : Int × Session :=
  if c.audio then AddAudioFrame_io heap s c.buffer c.len c.throws
  else AddVideoFrame_io heap s c.buffer c.len c.throws

/-- The return codes, in order, and the session after a sequence of calls. -/
def io_calls (heap : Nat → Nat → Nat) (s : Session) : List IoCall → List Int × Session
  | [] => ([], s)
  | c :: cs =>
    ((io_call heap s c).1 :: (io_calls heap (io_call heap s c).2 cs).1,
      (io_calls heap (io_call heap s c).2 cs).2)

/-- The frames of the calls that got past the null check, in order. -/
def io_appended (cs : List IoCall) : List Frame :=
  cs.filterMap (fun c => c.buffer.map (fun b => (⟨c.audio, b, c.len⟩ : Frame)))

/-- Two sessions with the same offset table: the same array, cursor, capacity
and count. -/
def SameTable (s t : Session) : Prop :=
  s.offsets = t.offsets ∧ s.offsets_ptr = t.offsets_ptr ∧ s.offsets_len = t.offsets_len
    ∧ s.offset_count = t.offset_count

/-! ## The output stream: writes compose, and backpatching -/

theorem OutFile.write_nil (f : OutFile) : f.write [] = f := by
  simp [OutFile.write]

theorem OutFile.write_pos (f : OutFile) (bs : List Nat) : (f.write bs).pos = f.pos + bs.length := by
  unfold OutFile.write
  split
  · next h => simp [h]
  · rfl

theorem OutFile.before_length (f : OutFile) : f.before.length = f.pos := by
  simp [OutFile.before]; omega

theorem OutFile.write_data (f : OutFile) (bs : List Nat) (h : bs ≠ []) :
    (f.write bs).data = f.before ++ bs ++ f.data.drop (f.pos + bs.length) := by
  simp [OutFile.write, h, OutFile.before]

theorem OutFile.write_data_length (f : OutFile) (bs : List Nat) (h : bs ≠ []) :
    (f.write bs).data.length = max (f.pos + bs.length) f.data.length := by
  rw [OutFile.write_data f bs h]
  simp [OutFile.before_length]
  omega

theorem OutFile.write_before (f : OutFile) (bs : List Nat) (h : bs ≠ []) :
    (f.write bs).before = f.before ++ bs := by
  have hl := OutFile.write_data_length f bs h
  have hp := OutFile.write_pos f bs
  unfold OutFile.before
  rw [hp, hl, OutFile.write_data f bs h]
  have h0 : f.pos + bs.length - max (f.pos + bs.length) f.data.length = 0 := by omega
  rw [h0]
  have hb : (f.before ++ bs).length = f.pos + bs.length := by simp [OutFile.before_length]
  rw [List.take_left' hb]
  simp [OutFile.before]

theorem OutFile.ext_iff' (f g : OutFile) : f = g ↔ f.data = g.data ∧ f.pos = g.pos := by
  cases f; cases g; simp

theorem OutFile.write_write (f : OutFile) (a b : List Nat) :
    (f.write a).write b = f.write (a ++ b) := by
  by_cases ha : a = []
  · simp [ha, OutFile.write_nil]
  by_cases hb : b = []
  · simp [hb, OutFile.write_nil]
  have hab : a ++ b ≠ [] := by simp [ha]
  rw [OutFile.ext_iff']
  refine ⟨?_, ?_⟩
  · rw [OutFile.write_data _ b hb, OutFile.write_before f a ha, OutFile.write_data f (a ++ b) hab,
      OutFile.write_data f a ha, OutFile.write_pos]
    have hl : (f.before ++ a).length = f.pos + a.length := by simp [OutFile.before_length]
    rw [List.drop_append_eq_append_drop]
    simp [hl, List.length_append]
    rw [List.drop_of_length_le (by omega)]
    simp [Nat.add_assoc]
  · simp [OutFile.write_pos]; omega

theorem OutFile.write_at_end (f : OutFile) (bs : List Nat) (h : f.pos = f.data.length) :
    (f.write bs).data = f.data ++ bs := by
  by_cases hb : bs = []
  · simp [hb, OutFile.write_nil]
  rw [OutFile.write_data f bs hb]
  simp [OutFile.before, h]

theorem patch_list (B bs post c : List Nat) (k : Nat) (hk : k + c.length ≤ bs.length) :
    List.take (B.length + k) (B ++ bs ++ post)
        ++ List.replicate (B.length + k - (B ++ bs ++ post).length) 0 ++ c
        ++ List.drop (B.length + k + c.length) (B ++ bs ++ post)
      = B ++ (List.take k bs ++ c ++ List.drop (k + c.length) bs) ++ post := by
  have h0 : B.length + k - (B ++ bs ++ post).length = 0 := by simp; omega
  rw [h0, List.append_assoc B bs post, List.take_append, Nat.add_assoc, List.drop_append,
    List.take_append_of_le_length (by omega), List.drop_append_of_le_length (by omega)]
  simp

/-- Backpatching: after `bs` has been written, seeking `k` bytes into it,
writing `c` there and seeking back is the same as writing `bs` with `c`
already in place. -/
theorem OutFile.backpatch (f : OutFile) (bs c : List Nat) (k : Nat)
    (hk : k + c.length ≤ bs.length) (hc : c ≠ []) :
    (((f.write bs).seekp (f.pos + k)).write c).seekp (f.pos + bs.length)
      = f.write (bs.take k ++ c ++ bs.drop (k + c.length)) := by
  have hb : bs ≠ [] := by
    intro h; subst h; simp at hk; exact hc hk.2
  have hne : bs.take k ++ c ++ bs.drop (k + c.length) ≠ [] := by simp [hc]
  have hlen : (bs.take k ++ c ++ bs.drop (k + c.length)).length = bs.length := by
    simp; omega
  rw [OutFile.ext_iff']
  refine ⟨?_, ?_⟩
  · show (((f.write bs).seekp (f.pos + k)).write c).data = _
    rw [OutFile.write_data _ _ hc, OutFile.write_data _ _ hne, hlen]
    have hd := OutFile.write_data f bs hb
    have hbl := OutFile.before_length f
    have hp := patch_list f.before bs (List.drop (f.pos + bs.length) f.data) c k hk
    rw [hbl] at hp
    simp only [OutFile.seekp, hd]
    rw [← hp]
    unfold OutFile.before
    simp only [hd]
  · simp [OutFile.seekp, OutFile.write_pos]; omega

theorem int_buffer_length (n : Nat) : (int_buffer n).length = 4 := rfl

theorem short_buffer_length (n : Nat) : (short_buffer n).length = 2 := rfl

/-- The bytes `s[0 .. count)` written by `write_chars_bin`. -/
theorem write_chars_bin_eq (f : OutFile) (s : List Nat) (count : Nat) :
    write_chars_bin f s count = f.write ((List.range count).map (charAt s)) := rfl

theorem map_charAt_four (s : List Nat) (h : s.length = 4) :
    (List.range 4).map (charAt s) = s := by
  match s, h with
  | [a, b, c, d], _ => rfl

/-- The pattern every serializer follows: tag, placeholder, body, then the
placeholder is overwritten with the number of bytes of the body. -/
theorem write_chunk_patch (f : OutFile) (T B : List Nat) :
    (((f.write (T ++ (int_buffer 0 ++ B))).seekp (f.pos + T.length)).write
        (int_buffer (f.pos + (T ++ (int_buffer 0 ++ B)).length - (f.pos + T.length) - 4))).seekp
        (f.pos + (T ++ (int_buffer 0 ++ B)).length)
      = f.write (T ++ (int_buffer B.length ++ B)) := by
  have hn : f.pos + (T ++ (int_buffer 0 ++ B)).length - (f.pos + T.length) - 4 = B.length := by
    simp [int_buffer_length]; omega
  rw [hn, OutFile.backpatch f _ (int_buffer B.length) T.length
    (by simp [int_buffer_length]) (by simp [int_buffer])]
  congr 1
  rw [List.take_left, int_buffer_length, List.drop_append, ← int_buffer_length 0, List.drop_left]
  simp

theorem write_avi_header_eq (f : OutFile) (h : gwavi_header_t) :
    write_avi_header f h = f.write (avih_chunk h) := by
  unfold write_avi_header
  simp only [write_chars_bin_eq, write_int, OutFile.write_write, OutFile.tellp, OutFile.write_pos,
    List.append_assoc]
  rw [write_chunk_patch, map_charAt_four (chars "avih") rfl]
  simp only [avih_chunk, avih_payload, List.length_append, int_buffer_length, List.append_assoc]

theorem write_stream_header_eq (f : OutFile) (h : gwavi_stream_header_t) :
    write_stream_header f h = f.write (strh_chunk h) := by
  unfold write_stream_header
  simp only [write_chars_bin_eq, write_int, OutFile.write_write, OutFile.tellp, OutFile.write_pos,
    List.append_assoc]
  rw [write_chunk_patch, map_charAt_four (chars "strh") rfl]
  simp only [strh_chunk, List.length_append, int_buffer_length, List.append_assoc,
    List.length_map, List.length_range]

theorem write_stream_format_a_eq (f : OutFile) (h : gwavi_stream_format_a_t) :
    write_stream_format_a f h = f.write (strf_a_chunk h) := by
  unfold write_stream_format_a
  simp only [write_chars_bin_eq, write_int, write_short, OutFile.write_write, OutFile.tellp,
    OutFile.write_pos, List.append_assoc]
  rw [write_chunk_patch, map_charAt_four (chars "strf") rfl]
  simp only [strf_a_chunk, List.length_append, int_buffer_length, short_buffer_length,
    List.append_assoc]

theorem foldl_write (f : OutFile) {α : Type} (g : α → List Nat) (l : List α) :
    l.foldl (fun h i => h.write (g i)) f = f.write (l.map g).flatten := by
  induction l generalizing f with
  | nil => simp [OutFile.write_nil]
  | cons a l ih => simp [ih, OutFile.write_write]

theorem palette_bytes_length (h : gwavi_stream_format_v_t) :
    (palette_bytes h).length = 4 * h.colors_used := by
  unfold palette_bytes
  generalize h.colors_used = n
  induction n with
  | zero => simp
  | succ n ih =>
    rw [List.range_succ]
    simp [palette_entry] at ih ⊢
    omega

theorem palette_write (g : OutFile) (h : gwavi_stream_format_v_t) :
    (if h.colors_used ≠ 0 then
        (List.range h.colors_used).foldl (fun g i => g.write (palette_entry h.palette i)) g
      else g) = g.write (palette_bytes h) := by
  split
  · rw [foldl_write]; rfl
  · next h0 =>
    have : h.colors_used = 0 := by omega
    simp [palette_bytes, this, OutFile.write_nil]

theorem write_stream_format_v_eq (f : OutFile) (h : gwavi_stream_format_v_t) :
    write_stream_format_v f h = f.write (strf_v_chunk h) := by
  unfold write_stream_format_v
  simp only [palette_write, write_chars_bin_eq, write_int, write_short, OutFile.write_write,
    OutFile.tellp, OutFile.write_pos, List.append_assoc]
  rw [write_chunk_patch, map_charAt_four (chars "strf") rfl]
  simp only [strf_v_chunk, List.length_append, int_buffer_length, short_buffer_length,
    List.append_assoc, palette_bytes_length]
  have e : ∀ x, 4 + (4 + (4 + (2 + (2 + (4 + (4 + (4 + (4 + (4 + (4 + x)))))))))) = 40 + x := by
    intro x; omega
  rw [e]

theorem avih_chunk_length (h : gwavi_header_t) : (avih_chunk h).length = 64 := by
  simp [avih_chunk, avih_payload, int_buffer_length, chars]

theorem strh_chunk_length (h : gwavi_stream_header_t) : (strh_chunk h).length = 64 := by
  simp [strh_chunk, int_buffer_length, chars]

theorem strf_v_chunk_length (h : gwavi_stream_format_v_t) :
    (strf_v_chunk h).length = 48 + 4 * h.colors_used := by
  simp [strf_v_chunk, int_buffer_length, short_buffer_length, chars, palette_bytes_length]
  omega

theorem strf_a_chunk_length (h : gwavi_stream_format_a_t) : (strf_a_chunk h).length = 26 := by
  simp [strf_a_chunk, int_buffer_length, short_buffer_length, chars]

/-- Backpatching a size field in the middle of what has been written. -/
theorem patch_mid (f : OutFile) (bs P B : List Nat) (n m k t : Nat)
    (hbs : bs = P ++ (int_buffer 0 ++ B)) (hk : k = f.pos + P.length)
    (ht : t = f.pos + bs.length) (hn : n = m) :
    (((f.write bs).seekp k).write (int_buffer n)).seekp t = f.write (P ++ (int_buffer m ++ B)) := by
  subst hbs hk ht hn
  rw [OutFile.backpatch f _ (int_buffer n) P.length (by simp [int_buffer_length])
    (by simp [int_buffer])]
  congr 1
  rw [List.take_left, int_buffer_length, List.drop_append, ← int_buffer_length 0, List.drop_left]
  simp

theorem chars_length_LIST : (chars "LIST").length = 4 := rfl

theorem chars_length_hdrl : (chars "hdrl").length = 4 := rfl

theorem chars_length_strl : (chars "strl").length = 4 := rfl

theorem strl_v_list_length (s : Session) :
    (strl_v_list s).length = 124 + 4 * s.stream_format_v.colors_used := by
  simp [strl_v_list, int_buffer_length, chars_length_LIST, chars_length_strl,
    strh_chunk_length, strf_v_chunk_length]
  omega

theorem strl_a_list_length (s : Session) :
    (strl_a_list s).length = if s.avi_header.data_streams = 2 then 102 else 0 := by
  unfold strl_a_list
  split <;> simp [int_buffer_length, chars_length_LIST, chars_length_strl,
    strh_chunk_length, strf_a_chunk_length]

theorem write_avi_header_chunk_eq (s : Session) :
    write_avi_header_chunk s = { s with outFile := s.outFile.write (hdrl_list s) } := by
  unfold write_avi_header_chunk
  simp only [write_avi_header_eq, write_stream_header_eq, write_stream_format_v_eq,
    write_stream_format_a_eq, write_chars_bin_eq, write_int, OutFile.write_write,
    OutFile.tellp, OutFile.write_pos, List.append_assoc,
    map_charAt_four (chars "LIST") rfl, map_charAt_four (chars "hdrl") rfl,
    map_charAt_four (chars "strl") rfl]
  rw [patch_mid s.outFile _ (chars "LIST" ++ (int_buffer 0 ++ (chars "hdrl" ++
      (avih_chunk s.avi_header ++ chars "LIST"))))
      (chars "strl" ++ (strh_chunk s.stream_header_v ++ strf_v_chunk s.stream_format_v))
      _ (4 + (strh_chunk s.stream_header_v).length + (strf_v_chunk s.stream_format_v).length)
      _ _ (by simp only [List.append_assoc]) (by simp only [List.append_assoc]) rfl
      (by simp only [List.length_append, int_buffer_length, chars_length_LIST,
            chars_length_hdrl, chars_length_strl]; omega)]
  by_cases h2 : s.avi_header.data_streams = 2
  · simp only [h2, if_true, OutFile.write_write, OutFile.write_pos, List.append_assoc]
    rw [patch_mid s.outFile _ (chars "LIST" ++ (int_buffer 0 ++ (chars "hdrl" ++
      (avih_chunk s.avi_header ++ (strl_v_list s ++ chars "LIST")))))
      (chars "strl" ++ (strh_chunk s.stream_header_a ++ strf_a_chunk s.stream_format_a))
      _ (4 + (strh_chunk s.stream_header_a).length + (strf_a_chunk s.stream_format_a).length)
      _ _ (by simp only [strl_v_list, List.append_assoc])
      (by simp only [strl_v_list, List.length_append, int_buffer_length]; omega)
      (by simp only [OutFile.write_pos, List.length_append, int_buffer_length]; omega)
      (by simp only [List.length_append, int_buffer_length, chars_length_LIST,
            chars_length_hdrl, chars_length_strl]; omega)]
    rw [patch_mid s.outFile _ (chars "LIST")
      (chars "hdrl" ++ (avih_chunk s.avi_header ++ (strl_v_list s ++ strl_a_list s)))
      _ (4 + (avih_chunk s.avi_header).length + (strl_v_list s).length + (strl_a_list s).length)
      _ _ (by simp only [strl_a_list, h2, if_true, List.append_assoc])
      (by simp only [List.length_append, int_buffer_length])
      (by simp only [OutFile.write_pos, List.length_append, int_buffer_length])
      (by simp only [OutFile.write_pos, strl_a_list, h2, if_true, strl_v_list, List.length_append, int_buffer_length,
            chars_length_LIST, chars_length_hdrl, chars_length_strl]; omega)]
    simp only [hdrl_list, List.append_assoc]
  · simp only [h2, if_false, OutFile.write_write, OutFile.write_pos, List.append_assoc]
    rw [patch_mid s.outFile _ (chars "LIST")
      (chars "hdrl" ++ (avih_chunk s.avi_header ++ (strl_v_list s ++ strl_a_list s)))
      _ (4 + (avih_chunk s.avi_header).length + (strl_v_list s).length + (strl_a_list s).length)
      _ _ (by simp only [strl_a_list, h2, if_false, strl_v_list, List.append_assoc, List.append_nil])
      (by simp only [List.length_append, int_buffer_length])
      (by simp only [OutFile.write_pos, List.length_append, int_buffer_length])
      (by simp only [OutFile.write_pos, strl_a_list, h2, if_false, strl_v_list, List.length_append, int_buffer_length,
            chars_length_LIST, chars_length_hdrl, chars_length_strl, List.length_nil]; omega)]
    simp only [hdrl_list, List.append_assoc]

theorem int_buffer_mod (n : Nat) : int_buffer (n % 2 ^ 32) = int_buffer n := by
  simp [int_buffer]

theorem le_decode_int_buffer (n : Nat) : le_decode (int_buffer n) = n % 2 ^ 32 := by
  simp only [int_buffer, le_decode, Nat.shiftRight_eq_div_pow]
  omega

theorem int_buffer_lt (n : Nat) : ∀ b ∈ int_buffer n, b < 256 := by
  intro b hb
  simp only [int_buffer, List.mem_cons, List.mem_singleton, List.not_mem_nil, or_false] at hb
  rcases hb with h | h | h | h <;> (subst h; exact Nat.mod_lt _ (by decide))

theorem write_padding_eq (f : OutFile) (n : Nat) :
    write_padding f n = f.write (List.replicate n 0) := by
  unfold write_padding
  rw [foldl_write f (fun _ => [0]) (List.range n)]
  congr 1
  induction n with
  | zero => rfl
  | succ n ih => rw [List.range_succ, List.map_append, List.flatten_append, ih,
      List.replicate_succ']; rfl

theorem maxi_pad_eq (len : Nat) : maxi_pad len = (4 - len % 4) % 4 := by
  simp only [maxi_pad]
  have := Nat.mod_lt len (show 4 > 0 by decide)
  split <;> omega

theorem maxi_pad_lt (len : Nat) : maxi_pad len < 4 := by
  rw [maxi_pad_eq]; exact Nat.mod_lt _ (by decide)

theorem frame_chunk_length (tag : List Nat) (buffer : Nat → Nat) (len : Nat) :
    (frame_chunk tag buffer len).length = tag.length + 4 + len + maxi_pad len := by
  simp [frame_chunk, int_buffer_length, buffer_bytes]
  omega

theorem grow_offsets_outFile (heap : Nat → Nat → Nat) (s : Session) :
    (grow_offsets heap s).outFile = s.outFile := by
  unfold grow_offsets; split <;> rfl

theorem AddVideoFrame_outFile (heap : Nat → Nat → Nat) (s : Session) (buffer : Nat → Nat)
    (len : Nat) :
    (AddVideoFrame heap s (some buffer) len).2.outFile
      = s.outFile.write (frame_chunk (chars "00dc") buffer len) := by
  simp only [AddVideoFrame, store_offset, grow_offsets_outFile, write_chars_bin_eq, write_int,
    write_padding_eq, OutFile.write_write, map_charAt_four (chars "00dc") rfl, int_buffer_mod,
    frame_chunk]

theorem AddAudioFrame_outFile (heap : Nat → Nat → Nat) (s : Session) (buffer : Nat → Nat)
    (len : Nat) :
    (AddAudioFrame heap s (some buffer) len).2.outFile
      = s.outFile.write (frame_chunk (chars "01wb") buffer len) := by
  simp only [AddAudioFrame, store_offset, grow_offsets_outFile, write_chars_bin_eq, write_int,
    write_padding_eq, OutFile.write_write, map_charAt_four (chars "01wb") rfl, int_buffer_mod,
    frame_chunk]

theorem or_high_mod (x : Nat) : (x ||| 2 ^ 31) % 2 ^ 31 = x % 2 ^ 31 := by
  apply Nat.eq_of_testBit_eq
  intro i
  simp only [Nat.testBit_mod_two_pow, Nat.testBit_lor, Nat.testBit_two_pow]
  by_cases h : i < 31
  · have : ¬ (31 = i) := by omega
    simp [h, this]
  · simp [h]

theorem audio_entry_low (x : Nat) :
    ((x ||| 0x80000000) % 2 ^ 32) &&& 0x7fffffff = x % 2 ^ 31 := by
  have h1 : (0x7fffffff : Nat) = 2 ^ 31 - 1 := by norm_num
  have h2 : (0x80000000 : Nat) = 2 ^ 31 := by norm_num
  rw [h1, h2, Nat.and_pow_two_sub_one_eq_mod, Nat.mod_mod_of_dvd _ (by norm_num), or_high_mod]

theorem or_high_testBit (x : Nat) : ((x ||| 2 ^ 31) % 2 ^ 32).testBit 31 = true := by
  rw [Nat.testBit_mod_two_pow, Nat.testBit_lor, Nat.testBit_two_pow_self]
  simp

theorem audio_entry_high (x : Nat) :
    ((x ||| 0x80000000) % 2 ^ 32) &&& 0x80000000 = 0x80000000 := by
  show ((x ||| 2 ^ 31) % 2 ^ 32) &&& 2 ^ 31 = 2 ^ 31
  rw [Nat.and_two_pow, or_high_testBit]
  simp

theorem and_high_eq_zero (x : Nat) (h : x < 2 ^ 31) : x &&& 0x80000000 = 0 := by
  show x &&& 2 ^ 31 = 0
  rw [Nat.and_two_pow, Nat.testBit_lt_two_pow h]
  simp

theorem and_high_of_ge (x : Nat) (h1 : 2 ^ 31 ≤ x) (h2 : x < 2 ^ 32) :
    x &&& 0x80000000 = 0x80000000 := by
  show x &&& 2 ^ 31 = 2 ^ 31
  rw [Nat.and_two_pow, Nat.toNat_testBit]
  have : x / 2 ^ 31 = 1 := by omega
  rw [this]
  norm_num

theorem and_low_eq_mod (x : Nat) : x &&& 0x7fffffff = x % 2 ^ 31 := by
  have h1 : (0x7fffffff : Nat) = 2 ^ 31 - 1 := by norm_num
  rw [h1, Nat.and_pow_two_sub_one_eq_mod]

/-! ## The frame appenders -/

theorem writesChunk_of_outFile (s s' : Session) (tag : List Nat) (buffer : Nat → Nat)
    (len : Nat) (htag : tag.length = 4) (hlen : len + 3 < 2 ^ 31)
    (h : s'.outFile = s.outFile.write (frame_chunk tag buffer len)) :
    WritesChunk s s' tag buffer len := by
  have hp := maxi_pad_eq len
  have hlt := maxi_pad_lt len
  have hc : frame_chunk tag buffer len
      = tag ++ int_buffer (len + maxi_pad len) ++ (List.range len).map buffer
        ++ List.replicate ((4 - len % 4) % 4) 0 := by
    simp only [frame_chunk, buffer_bytes, hp]
  refine ⟨int_buffer (len + maxi_pad len), int_buffer_length _, int_buffer_lt _, ?_, ?_, ?_, ?_⟩
  · rw [le_decode_int_buffer, ← hp]
    apply Nat.mod_eq_of_lt
    omega
  · rw [← hc, frame_chunk_length, htag, ← hp]
  · rw [h, hc]
  · intro hend
    rw [h, OutFile.write_at_end _ _ hend, hc]

theorem new_array_length (heap : Nat → Nat → Nat) (n : Nat) : (new_array heap n).length = n := by
  simp [new_array]

/-- The table of a session after the growth step, when there was one. -/
theorem grow_offsets_table (heap : Nat → Nat → Nat) (s : Session) (tbl : List Nat)
    (h1 : s.offsets = some tbl) (h2 : tbl.length = s.offsets_len) :
    ∃ tbl', (grow_offsets heap s).offsets = some tbl' ∧ s.offsets_len ≤ tbl'.length
      ∧ (grow_offsets heap s).offsets_ptr = s.offsets_ptr := by
  unfold grow_offsets
  split
  · exact ⟨_, rfl, by simp [new_array_length], rfl⟩
  · exact ⟨tbl, h1, by omega, rfl⟩

theorem store_offset_slot (s : Session) (v : Nat) (tbl : List Nat) (h1 : s.offsets = some tbl)
    (h2 : s.offsets_ptr < tbl.length) :
    ∃ tbl', (store_offset s v).offsets = some tbl' ∧ tbl'[s.offsets_ptr]? = some v := by
  refine ⟨tbl.set s.offsets_ptr v, by simp [store_offset, h1], ?_⟩
  simp [List.getElem?_set, h2]

/-! ## The constructor -/

theorem hdrl_list_length (s : Session) :
    (hdrl_list s).length = 200 + 4 * s.stream_format_v.colors_used
      + (if s.avi_header.data_streams = 2 then 102 else 0) := by
  simp only [hdrl_list, List.length_append, int_buffer_length, chars_length_LIST,
    chars_length_hdrl, avih_chunk_length, strl_v_list_length, strl_a_list_length]
  omega

theorem write_from_empty (bs : List Nat) :
    (OutFile.mk [] 0).write bs = { data := bs, pos := bs.length } := by
  by_cases h : bs = []
  · simp [h, OutFile.write_nil]
  · rw [OutFile.ext_iff']
    refine ⟨?_, by simp [OutFile.write_pos]⟩
    rw [OutFile.write_at_end _ _ rfl]
    simp

/-- The session that the constructor returns. -/
theorem Open_eq (heap : Nat → Nat → Nat) (width height : Nat) (fourcc : List Nat) (fps : Nat)
    (audio : Option gwavi_audio_t) (hfps : 1 ≤ fps) :
    Open heap width height fourcc fps audio
      = some { init_session width height fourcc fps audio with
          outFile :=
            { data := chars "RIFF" ++ int_buffer 0 ++ chars "AVI "
                ++ hdrl_list (init_session width height fourcc fps audio)
                ++ chars "LIST" ++ int_buffer 0 ++ chars "movi" ++ []
              pos := 24 + (hdrl_list (init_session width height fourcc fps audio)).length }
          marker := 16 + (hdrl_list (init_session width height fourcc fps audio)).length
          offsets_len := 1024
          offsets := some (new_array heap 1024)
          offsets_ptr := 0 } := by
  have h0 : ¬ fps < 1 := by omega
  have hs : (init_session width height fourcc fps audio).outFile = OutFile.mk [] 0 := rfl
  have hh : ∀ f, hdrl_list { init_session width height fourcc fps audio with outFile := f }
      = hdrl_list (init_session width height fourcc fps audio) := fun _ => rfl
  simp only [Open, h0, if_false, write_avi_header_chunk_eq, write_chars_bin_eq, write_int,
    OutFile.write_write, OutFile.tellp, OutFile.write_pos, hs, write_from_empty, hh,
    map_charAt_four (chars "RIFF") rfl, map_charAt_four (chars "AVI ") rfl,
    map_charAt_four (chars "LIST") rfl, map_charAt_four (chars "movi") rfl]
  rw [Option.some.injEq, Session.mk.injEq]
  refine ⟨?_, rfl, rfl, rfl, rfl, rfl, ?_, rfl, rfl, rfl, rfl, rfl⟩
  · rw [OutFile.ext_iff']
    refine ⟨?_, ?_⟩
    · rw [OutFile.write_at_end _ _ rfl]
      simp only [List.append_assoc, List.append_nil]
    · simp only [OutFile.write_pos, List.length_append, int_buffer_length]
      have : (chars "RIFF").length = 4 ∧ (chars "AVI ").length = 4 ∧ (chars "LIST").length = 4
        ∧ (chars "movi").length = 4 := ⟨rfl, rfl, rfl, rfl⟩
      omega
  · simp only [List.length_append, int_buffer_length]
    have : (chars "RIFF").length = 4 ∧ (chars "AVI ").length = 4 ∧ (chars "LIST").length = 4 :=
      ⟨rfl, rfl, rfl⟩
    omega

theorem Open_layout (heap : Nat → Nat → Nat) (width height : Nat) (fourcc : List Nat)
    (fps : Nat) (audio : Option gwavi_audio_t) (s : Session)
    (h : Open heap width height fourcc fps audio = some s) :
    Layout s (hdrl_list s) [] ∧ 1 ≤ fps
      ∧ s.offsets = some (new_array heap 1024) ∧ s.offsets_len = 1024
      ∧ s.offsets_ptr = 0 ∧ s.offset_count = 0
      ∧ s.avi_header = (init_session width height fourcc fps audio).avi_header
      ∧ s.stream_header_v = (init_session width height fourcc fps audio).stream_header_v
      ∧ s.stream_format_v = (init_session width height fourcc fps audio).stream_format_v
      ∧ s.stream_header_a = (init_session width height fourcc fps audio).stream_header_a
      ∧ s.stream_format_a = (init_session width height fourcc fps audio).stream_format_a := by
  have hfps : 1 ≤ fps := by
    by_contra hc
    have : fps < 1 := by omega
    simp [Open, this] at h
  rw [Open_eq heap width height fourcc fps audio hfps, Option.some.injEq] at h
  subst h
  refine ⟨⟨rfl, rfl, ?_, rfl⟩, hfps, rfl, rfl, rfl, rfl, rfl, rfl, rfl, rfl, rfl⟩
  show 24 + (hdrl_list (init_session width height fourcc fps audio)).length = _
  simp only [List.length_append, int_buffer_length, List.length_nil]
  have : (chars "RIFF").length = 4 ∧ (chars "AVI ").length = 4 ∧ (chars "LIST").length = 4
    ∧ (chars "movi").length = 4 := ⟨rfl, rfl, rfl, rfl⟩
  omega

/-! ## Sequences of appends -/

theorem add_frame_outFile (heap : Nat → Nat → Nat) (s : Session) (fr : Frame) :
    (add_frame heap s fr).outFile = s.outFile.write fr.chunk := by
  unfold add_frame Frame.chunk Frame.tag
  split
  · exact AddAudioFrame_outFile heap s fr.buffer fr.len
  · exact AddVideoFrame_outFile heap s fr.buffer fr.len

theorem grow_offsets_fields (heap : Nat → Nat → Nat) (s : Session) :
    (grow_offsets heap s).avi_header = s.avi_header
      ∧ (grow_offsets heap s).stream_format_v = s.stream_format_v
      ∧ (grow_offsets heap s).stream_format_a = s.stream_format_a
      ∧ (grow_offsets heap s).marker = s.marker
      ∧ (grow_offsets heap s).offset_count = s.offset_count
      ∧ (grow_offsets heap s).offsets_ptr = s.offsets_ptr
      ∧ (grow_offsets heap s).stream_header_v = s.stream_header_v
      ∧ (grow_offsets heap s).stream_header_a = s.stream_header_a := by
  unfold grow_offsets
  split <;> exact ⟨rfl, rfl, rfl, rfl, rfl, rfl, rfl, rfl⟩

/-- What one append leaves alone, and what it counts. -/
theorem add_frame_fields (heap : Nat → Nat → Nat) (s : Session) (fr : Frame) :
    (add_frame heap s fr).avi_header = s.avi_header
      ∧ (add_frame heap s fr).stream_format_v = s.stream_format_v
      ∧ (add_frame heap s fr).stream_format_a = s.stream_format_a
      ∧ (add_frame heap s fr).marker = s.marker
      ∧ (add_frame heap s fr).offset_count = s.offset_count + 1
      ∧ (add_frame heap s fr).offsets_ptr = s.offsets_ptr + 1
      ∧ (add_frame heap s fr).stream_header_v = { s.stream_header_v with
          data_length := s.stream_header_v.data_length + (if fr.audio then 0 else 1) }
      ∧ (add_frame heap s fr).stream_header_a = { s.stream_header_a with
          data_length := s.stream_header_a.data_length
            + (if fr.audio then fr.padded % 2 ^ 32 else 0) } := by
  unfold add_frame
  cases hfa : fr.audio
  · simp only [Bool.false_eq_true, if_false]
    obtain ⟨g1, g2, g3, g4, g5, g6, g7, g8⟩ := grow_offsets_fields heap
      { s with
        offset_count := s.offset_count + 1
        stream_header_v := { s.stream_header_v with
          data_length := s.stream_header_v.data_length + 1 } }
    exact ⟨g1, g2, g3, g4, g5, congrArg (· + 1) g6, g7, g8⟩
  · simp only [if_true]
    obtain ⟨g1, g2, g3, g4, g5, g6, g7, g8⟩ := grow_offsets_fields heap
      { s with offset_count := s.offset_count + 1 }
    refine ⟨g1, g2, g3, g4, g5, congrArg (· + 1) g6, g7, ?_⟩
    show ({ (grow_offsets heap { s with offset_count := s.offset_count + 1 }).stream_header_a with
      data_length := (grow_offsets heap { s with offset_count := s.offset_count + 1 }).stream_header_a.data_length
        + (fr.len + maxi_pad fr.len) % 2 ^ 32 } : gwavi_stream_header_t) = _
    rw [g8]
    rfl

theorem add_frame_hdrl_length (heap : Nat → Nat → Nat) (s : Session) (fr : Frame) :
    (hdrl_list (add_frame heap s fr)).length = (hdrl_list s).length := by
  obtain ⟨h1, h2, -⟩ := add_frame_fields heap s fr
  rw [hdrl_list_length, hdrl_list_length, h1, h2]

theorem add_frame_layout (heap : Nat → Nat → Nat) (s : Session) (fr : Frame)
    (hdrl movi : List Nat) (h : Layout s hdrl movi) :
    Layout (add_frame heap s fr) hdrl (movi ++ fr.chunk) := by
  obtain ⟨h1, h2, h3, h4⟩ := h
  have hf := add_frame_fields heap s fr
  refine ⟨by rw [add_frame_hdrl_length, h1], ?_, ?_, by rw [hf.2.2.2.1, h4]⟩
  · rw [add_frame_outFile, OutFile.write_at_end _ _ h3, h2]
    simp only [List.append_assoc]
  · rw [add_frame_outFile, OutFile.write_at_end _ _ h3, OutFile.write_pos, h3]
    simp

theorem add_frames_nil (heap : Nat → Nat → Nat) (s : Session) : add_frames heap s [] = s := rfl

theorem add_frames_cons (heap : Nat → Nat → Nat) (s : Session) (fr : Frame) (frs : List Frame) :
    add_frames heap s (fr :: frs) = add_frames heap (add_frame heap s fr) frs := rfl

theorem add_frames_append (heap : Nat → Nat → Nat) (s : Session) (frs gs : List Frame) :
    add_frames heap s (frs ++ gs) = add_frames heap (add_frames heap s frs) gs := by
  simp [add_frames, List.foldl_append]

theorem movi_chunks_cons (fr : Frame) (frs : List Frame) :
    movi_chunks (fr :: frs) = fr.chunk ++ movi_chunks frs := by
  simp [movi_chunks]

theorem add_frames_layout (heap : Nat → Nat → Nat) (frs : List Frame) :
    ∀ (s : Session) (hdrl movi : List Nat), Layout s hdrl movi →
      Layout (add_frames heap s frs) hdrl (movi ++ movi_chunks frs) := by
  induction frs with
  | nil => intro s hdrl movi h; simpa [add_frames_nil, movi_chunks] using h
  | cons fr frs ih =>
    intro s hdrl movi h
    rw [add_frames_cons, movi_chunks_cons, ← List.append_assoc]
    exact ih _ _ _ (add_frame_layout heap s fr hdrl movi h)

/-- What a sequence of appends leaves alone, and what it counts. -/
theorem add_frames_fields (heap : Nat → Nat → Nat) (frs : List Frame) :
    ∀ s : Session,
      (add_frames heap s frs).avi_header = s.avi_header
      ∧ (add_frames heap s frs).stream_format_v = s.stream_format_v
      ∧ (add_frames heap s frs).stream_format_a = s.stream_format_a
      ∧ (add_frames heap s frs).marker = s.marker
      ∧ (add_frames heap s frs).offset_count = s.offset_count + frs.length
      ∧ (add_frames heap s frs).offsets_ptr = s.offsets_ptr + frs.length
      ∧ (add_frames heap s frs).stream_header_v = { s.stream_header_v with
          data_length := s.stream_header_v.data_length
            + (frs.filter (fun fr => !fr.audio)).length }
      ∧ (add_frames heap s frs).stream_header_a = { s.stream_header_a with
          data_length := s.stream_header_a.data_length
            + ((frs.filter (fun fr => fr.audio)).map (fun fr => fr.padded % 2 ^ 32)).sum } := by
  induction frs with
  | nil => intro s; exact ⟨rfl, rfl, rfl, rfl, rfl, rfl, rfl, rfl⟩
  | cons fr frs ih =>
    intro s
    obtain ⟨a1, a2, a3, a4, a5, a6, a7, a8⟩ := ih (add_frame heap s fr)
    obtain ⟨b1, b2, b3, b4, b5, b6, b7, b8⟩ := add_frame_fields heap s fr
    rw [add_frames_cons]
    refine ⟨by rw [a1, b1], by rw [a2, b2], by rw [a3, b3], by rw [a4, b4],
      by rw [a5, b5, List.length_cons]; omega, by rw [a6, b6, List.length_cons]; omega, ?_, ?_⟩
    · rw [a7, b7]
      cases hfa : fr.audio <;> simp [List.filter_cons, hfa, Nat.add_assoc, Nat.add_comm]
    · rw [a8, b8]
      cases hfa : fr.audio <;> simp [List.filter_cons, hfa, Nat.add_assoc]

/-! ## The index -/

theorem write_chars_tag (f : OutFile) (s : List Nat) (h : s.length = 4) :
    write_chars f s = f.write s := by
  unfold write_chars
  have : ¬ s.length > 255 := by omega
  rw [if_neg this, h]
  exact congrArg f.write (map_charAt_four s h)

theorem index_record_length (offset e : Nat) : (index_record offset e).length = 16 := by
  unfold index_record entry_tag
  split <;> simp [int_buffer_length, chars]

theorem index_records_length (es : List Nat) :
    ∀ offset, (index_records offset es).length = 16 * es.length := by
  induction es with
  | nil => intro offset; rfl
  | cons e es ih =>
    intro offset
    simp only [index_records, List.length_append, index_record_length, ih, List.length_cons]
    omega

theorem index_records_append (es : List Nat) (e : Nat) :
    ∀ offset, index_records offset (es ++ [e])
      = index_records offset es ++ index_record (index_offset offset es) e := by
  induction es with
  | nil => intro offset; simp [index_records, index_offset]
  | cons a es ih =>
    intro offset
    rw [List.cons_append, index_records, ih, index_records, List.append_assoc]
    rfl

theorem index_offset_append (es : List Nat) (e : Nat) (offset : Nat) :
    index_offset offset (es ++ [e]) = (index_offset offset es + entry_len e + 8) % 2 ^ 32 := by
  simp [index_offset, List.foldl_append]

theorem table_entries_succ (tbl : List Nat) (n : Nat) :
    table_entries tbl (n + 1) = table_entries tbl n ++ [tbl.getD n 0] := by
  simp [table_entries, List.range_succ]

theorem getD_set_ne (l : List Nat) (i j v : Nat) (h : i ≠ j) :
    (l.set i v).getD j 0 = l.getD j 0 := by
  simp [List.getD_eq_getElem?_getD, List.getElem?_set_ne h]

theorem getD_set_self (l : List Nat) (i v : Nat) (h : i < l.length) :
    (l.set i v).getD i 0 = v := by
  simp [List.getD_eq_getElem?_getD, List.getElem?_set, h]

theorem lt_length_of_getD_ne_zero (l : List Nat) (i : Nat) (h : l.getD i 0 ≠ 0) :
    i < l.length := by
  by_contra hc
  apply h
  simp [List.getD_eq_getElem?_getD, List.getElem?_eq_none (Nat.le_of_not_lt hc)]

/-- One pass of the loop writes the record of slot `t` and touches only that
slot of the table. -/
theorem write_index_step_eq (f : OutFile) (tbl : List Nat) (offset t : Nat) :
    ∃ tbl', write_index_step (f, tbl, offset) t
        = (f.write (index_record offset (tbl.getD t 0)), tbl',
            (offset + entry_len (tbl.getD t 0) + 8) % 2 ^ 32)
      ∧ ∀ j, j ≠ t → tbl'.getD j 0 = tbl.getD j 0 := by
  unfold write_index_step
  by_cases h : tbl.getD t 0 &&& 0x80000000 = 0
  · refine ⟨tbl, ?_, fun _ _ => rfl⟩
    simp only [h, if_true, write_chars_tag _ (chars "00dc") rfl, write_int, OutFile.write_write,
      index_record, entry_tag, entry_len, List.append_assoc]
  · have hne : tbl.getD t 0 ≠ 0 := by
      intro h0; apply h; rw [h0]; rfl
    have hlt := lt_length_of_getD_ne_zero tbl t hne
    refine ⟨tbl.set t (tbl.getD t 0 &&& 0x7fffffff), ?_, fun j hj => getD_set_ne _ _ _ _ (Ne.symm hj)⟩
    simp only [h, if_false, write_chars_tag _ (chars "01wb") rfl, write_int, OutFile.write_write,
      index_record, entry_tag, entry_len, List.append_assoc, getD_set_self _ _ _ hlt]

theorem write_index_loop (f : OutFile) (tbl : List Nat) (n : Nat) :
    ∃ tbl', (List.range n).foldl write_index_step (f, tbl, 4)
        = (f.write (index_records 4 (table_entries tbl n)), tbl',
            index_offset 4 (table_entries tbl n))
      ∧ ∀ j, n ≤ j → tbl'.getD j 0 = tbl.getD j 0 := by
  induction n with
  | zero => exact ⟨tbl, by simp [table_entries, index_records, index_offset, OutFile.write_nil],
      fun _ _ => rfl⟩
  | succ n ih =>
    obtain ⟨t1, e1, k1⟩ := ih
    obtain ⟨t2, e2, k2⟩ := write_index_step_eq
      (f.write (index_records 4 (table_entries tbl n))) t1 (index_offset 4 (table_entries tbl n)) n
    refine ⟨t2, ?_, fun j hj => by rw [k2 j (by omega), k1 j (by omega)]⟩
    rw [List.range_succ, List.foldl_append, e1, List.foldl_cons, List.foldl_nil, e2,
      k1 n (Nat.le_refl n), OutFile.write_write, table_entries_succ, index_records_append,
      index_offset_append]

theorem table_entries_length (tbl : List Nat) (n : Nat) : (table_entries tbl n).length = n := by
  simp [table_entries]

theorem chars_length_idx1 : (chars "idx1").length = 4 := rfl

theorem idx1_chunk_length (es : List Nat) : (idx1_chunk es).length = 8 + 16 * es.length := by
  simp [idx1_chunk, int_buffer_length, chars_length_idx1, index_records_length]
  omega

/-- The index that `write_index` writes: the `idx1` chunk of the first
`count` slots of the table. -/
theorem write_index_eq (f : OutFile) (count : Nat) (tbl : List Nat) :
    ∃ tbl', write_index f count (some tbl)
      = some (f.write (idx1_chunk (table_entries tbl count)), tbl') := by
  obtain ⟨t1, e1, -⟩ := write_index_loop (f.write (chars "idx1" ++ int_buffer 0)) tbl count
  refine ⟨t1, ?_⟩
  simp only [write_index, write_int, write_chars_bin_eq, map_charAt_four (chars "idx1") rfl,
    OutFile.write_write, OutFile.tellp, OutFile.write_pos, List.append_assoc, e1]
  rw [write_chunk_patch]
  simp only [idx1_chunk, index_records_length, table_entries_length, List.append_assoc]

/-! ## Finalize -/

/-- Overwriting a field inside the file. -/
theorem OutFile.overwrite (f : OutFile) (P c0 c R : List Nat) (k t : Nat)
    (hd : f.data = P ++ c0 ++ R) (hl : c0.length = c.length) (hk : k = P.length) :
    ((f.seekp k).write c).seekp t = { data := P ++ c ++ R, pos := t } := by
  subst hk
  by_cases hc : c = []
  · subst hc
    have : c0 = [] := List.eq_nil_of_length_eq_zero hl
    subst this
    rw [OutFile.write_nil]
    simp [OutFile.seekp, hd]
  · rw [OutFile.ext_iff']
    refine ⟨?_, rfl⟩
    show ((f.seekp P.length).write c).data = _
    rw [OutFile.write_data _ _ hc]
    simp only [OutFile.before, OutFile.seekp, hd]
    have h1 : P.length - (P ++ c0 ++ R).length = 0 := by simp
    rw [h1, List.append_assoc P c0 R, List.take_left, ← hl, List.drop_append,
      List.drop_left]
    simp

theorem layout_riff_file (s : Session) (hdrl movi : List Nat) (h : Layout s hdrl movi) :
    s.outFile.data = riff_file 0 hdrl 0 movi [] := by
  rw [h.2.1, riff_file, List.append_nil]

theorem riff_file_length (a : Nat) (hdrl : List Nat) (b : Nat) (movi idx : List Nat) :
    (riff_file a hdrl b movi idx).length = 24 + hdrl.length + movi.length + idx.length := by
  have : (chars "RIFF").length = 4 ∧ (chars "AVI ").length = 4 ∧ (chars "LIST").length = 4
    ∧ (chars "movi").length = 4 := ⟨rfl, rfl, rfl, rfl⟩
  simp only [riff_file, List.length_append, int_buffer_length]
  omega

/-- The header list is rewritten in place. -/
theorem rewrite_hdrl (hdrl hdrl' movi idx : List Nat) (m p t : Nat)
    (hl : hdrl.length = hdrl'.length) :
    (((OutFile.mk (riff_file 0 hdrl m movi idx) p).seekp 12).write hdrl').seekp t
      = { data := riff_file 0 hdrl' m movi idx, pos := t } := by
  rw [OutFile.overwrite _ (chars "RIFF" ++ int_buffer 0 ++ chars "AVI ") hdrl hdrl'
    (chars "LIST" ++ int_buffer m ++ chars "movi" ++ movi ++ idx) 12 t
    (by simp only [riff_file, List.append_assoc]) hl rfl]
  simp only [riff_file, List.append_assoc]

/-- The outer size field is patched in place. -/
theorem patch_riff_size (hdrl movi idx : List Nat) (m n p t : Nat) :
    (write_int ((OutFile.mk (riff_file 0 hdrl m movi idx) p).seekp 4) n).seekp t
      = { data := riff_file n hdrl m movi idx, pos := t } := by
  rw [write_int, OutFile.overwrite _ (chars "RIFF") (int_buffer 0) (int_buffer n)
    (chars "AVI " ++ hdrl ++ chars "LIST" ++ int_buffer m ++ chars "movi" ++ movi ++ idx) 4 t
    (by simp only [riff_file, List.append_assoc]) rfl rfl]
  simp only [riff_file, List.append_assoc]

/-- The movi size field is patched in place. -/
theorem patch_movi_size (hdrl movi : List Nat) (n p k t : Nat) (hk : k = 16 + hdrl.length) :
    (write_int ((OutFile.mk (riff_file 0 hdrl 0 movi []) p).seekp k) n).seekp t
      = { data := riff_file 0 hdrl n movi [], pos := t } := by
  rw [write_int, OutFile.overwrite _ (chars "RIFF" ++ int_buffer 0 ++ chars "AVI " ++ hdrl
      ++ chars "LIST") (int_buffer 0) (int_buffer n) (chars "movi" ++ movi) k t
    (by simp only [riff_file, List.append_assoc, List.append_nil]) rfl
    (by
      have : (chars "RIFF").length = 4 ∧ (chars "AVI ").length = 4 ∧ (chars "LIST").length = 4 :=
        ⟨rfl, rfl, rfl⟩
      simp only [List.length_append, int_buffer_length]; omega)]
  simp only [riff_file, List.append_assoc, List.append_nil]

theorem Finalize_eq (s : Session) (hdrl movi tbl : List Nat) (h : Layout s hdrl movi)
    (ht : s.offsets = some tbl) :
    Finalize s = some (0, { final_records s with
      outFile :=
        { data := riff_file
            (24 + hdrl.length + movi.length
              + (idx1_chunk (table_entries tbl s.offset_count)).length - 8)
            (hdrl_list (final_records s)) (4 + movi.length) movi
            (idx1_chunk (table_entries tbl s.offset_count))
          pos := 24 + hdrl.length + movi.length
            + (idx1_chunk (table_entries tbl s.offset_count)).length }
      offsets := none }) := by
  have hd := layout_riff_file s hdrl movi h
  obtain ⟨h1, h2, h3, h4⟩ := h
  have hlen : s.outFile.data.length = 24 + hdrl.length + movi.length := by
    rw [hd, riff_file_length, List.length_nil, Nat.add_zero]
  have hs : s.outFile = { data := riff_file 0 hdrl 0 movi [], pos := s.outFile.pos } := by
    rw [OutFile.ext_iff']; exact ⟨hd, rfl⟩
  -- the size of the movi list
  have hf1 : (write_int (s.outFile.seekp s.marker) (s.outFile.pos - s.marker - 4)).seekp
      s.outFile.pos
      = { data := riff_file 0 hdrl (4 + movi.length) movi [], pos := s.outFile.pos } := by
    have hn : s.outFile.pos - s.marker - 4 = 4 + movi.length := by omega
    rw [hn]
    conv => lhs; rw [hs]
    exact patch_movi_size hdrl movi _ _ _ _ h4
  -- the index
  obtain ⟨t1, e1⟩ := write_index_eq
    { data := riff_file 0 hdrl (4 + movi.length) movi [], pos := s.outFile.pos } s.offset_count tbl
  have hidx : (OutFile.mk (riff_file 0 hdrl (4 + movi.length) movi []) s.outFile.pos).write
      (idx1_chunk (table_entries tbl s.offset_count))
      = { data := riff_file 0 hdrl (4 + movi.length) movi
            (idx1_chunk (table_entries tbl s.offset_count)),
          pos := s.outFile.pos + (idx1_chunk (table_entries tbl s.offset_count)).length } := by
    rw [OutFile.ext_iff']
    refine ⟨?_, by rw [OutFile.write_pos]⟩
    rw [OutFile.write_at_end _ _ (by simp only [riff_file_length, List.length_nil]; omega)]
    simp only [riff_file, List.append_assoc, List.append_nil]
  rw [hidx] at e1
  have hH : ∀ (f : OutFile) (o : Option (List Nat)),
      hdrl_list { s with
        outFile := f
        offsets := o
        avi_header := { s.avi_header with number_of_frames := s.stream_header_v.data_length } }
      = hdrl_list (final_records s) :=
    fun _ _ => rfl
  have hl : hdrl.length = (hdrl_list (final_records s)).length := by
    rw [h1, hdrl_list_length, hdrl_list_length]; rfl
  unfold Finalize
  simp only [OutFile.tellp, hf1, ht, e1, write_avi_header_chunk_eq, hH,
    rewrite_hdrl _ _ _ _ _ _ _ hl, patch_riff_size]
  have hT : s.outFile.pos + (idx1_chunk (table_entries tbl s.offset_count)).length
      = 24 + hdrl.length + movi.length
        + (idx1_chunk (table_entries tbl s.offset_count)).length := by omega
  rw [hT]
  rfl

/-! ## Reading a file back -/

theorem read_int_skip (a l : List Nat) (n : Nat) (h : a.length ≤ n) :
    read_int (a ++ l) n = read_int l (n - a.length) := by
  unfold read_int
  rw [List.drop_append_eq_append_drop, List.drop_of_length_le h, List.nil_append]

theorem read_int_head (x : Nat) (l : List Nat) : read_int (int_buffer x ++ l) 0 = x % 2 ^ 32 := by
  unfold read_int
  rw [List.drop_zero, ← int_buffer_length x, List.take_left, le_decode_int_buffer]

theorem read_bytes_skip (a l : List Nat) (n k : Nat) (h : a.length ≤ n) :
    read_bytes (a ++ l) n k = read_bytes l (n - a.length) k := by
  unfold read_bytes
  rw [List.drop_append_eq_append_drop, List.drop_of_length_le h, List.nil_append]

theorem read_bytes_head (a l : List Nat) : read_bytes (a ++ l) 0 a.length = a := by
  unfold read_bytes
  rw [List.drop_zero, List.take_left]

theorem chars_length_RIFF : (chars "RIFF").length = 4 := rfl

theorem chars_length_AVI : (chars "AVI ").length = 4 := rfl

theorem chars_length_movi : (chars "movi").length = 4 := rfl

theorem chars_length_avih : (chars "avih").length = 4 := rfl

theorem chars_length_strh : (chars "strh").length = 4 := rfl

theorem read_riff_size (a : Nat) (hdrl : List Nat) (m : Nat) (movi idx : List Nat) :
    read_int (riff_file a hdrl m movi idx) 4 = a % 2 ^ 32 := by
  simp only [riff_file, List.append_assoc]
  rw [read_int_skip _ _ _ (by rw [chars_length_RIFF]), chars_length_RIFF, read_int_head]

theorem read_movi_size (a : Nat) (hdrl : List Nat) (m : Nat) (movi idx : List Nat) :
    read_int (riff_file a hdrl m movi idx) (16 + hdrl.length) = m % 2 ^ 32 := by
  have e : riff_file a hdrl m movi idx
      = (chars "RIFF" ++ int_buffer a ++ chars "AVI " ++ hdrl ++ chars "LIST")
        ++ (int_buffer m ++ (chars "movi" ++ movi ++ idx)) := by
    simp only [riff_file, List.append_assoc]
  have hl : (chars "RIFF" ++ int_buffer a ++ chars "AVI " ++ hdrl ++ chars "LIST").length
      = 16 + hdrl.length := by
    simp only [List.length_append, int_buffer_length, chars_length_RIFF, chars_length_AVI,
      chars_length_LIST]
    omega
  rw [e, read_int_skip _ _ _ (by rw [hl]), hl, Nat.sub_self, read_int_head]

/-- The fields of the headers at their offsets in the file. -/
theorem read_header_fields (a : Nat) (s : Session) (m : Nat) (movi idx : List Nat) :
    read_int (riff_file a (hdrl_list s) m movi idx) 16 = ((hdrl_list s).length - 8) % 2 ^ 32
      ∧ read_int (riff_file a (hdrl_list s) m movi idx) 32 = s.avi_header.time_delay % 2 ^ 32
      ∧ read_int (riff_file a (hdrl_list s) m movi idx) 48
          = s.avi_header.number_of_frames % 2 ^ 32
      ∧ read_int (riff_file a (hdrl_list s) m movi idx) 64 = s.avi_header.width % 2 ^ 32
      ∧ read_int (riff_file a (hdrl_list s) m movi idx) 68 = s.avi_header.height % 2 ^ 32
      ∧ read_bytes (riff_file a (hdrl_list s) m movi idx) 112 4
          = (List.range 4).map (charAt s.stream_header_v.codec) := by
  have hm : ((List.range 4).map (charAt s.stream_header_v.codec)).length = 4 := by simp
  have hd : ((List.range 4).map (charAt s.stream_header_v.data_type)).length = 4 := by simp
  refine ⟨?_, ?_, ?_, ?_, ?_, ?_⟩
  · simp only [riff_file, hdrl_list, List.append_assoc]
    simp only [read_int_skip, chars_length_RIFF, int_buffer_length, chars_length_AVI,
      chars_length_LIST, Nat.reduceLeDiff, Nat.reduceSub]
    rw [read_int_head]
    have e : (chars "LIST" ++ (int_buffer (4 + (avih_chunk s.avi_header).length
        + (strl_v_list s).length + (strl_a_list s).length) ++ (chars "hdrl"
        ++ (avih_chunk s.avi_header ++ (strl_v_list s ++ strl_a_list s))))).length - 8
        = 4 + (avih_chunk s.avi_header).length + (strl_v_list s).length
          + (strl_a_list s).length := by
      simp only [List.length_append, int_buffer_length, chars_length_LIST, chars_length_hdrl]
      omega
    rw [e]
  · simp only [riff_file, hdrl_list, avih_chunk, avih_payload, List.append_assoc]
    simp only [read_int_skip, chars_length_RIFF, int_buffer_length, chars_length_AVI,
      chars_length_LIST, chars_length_hdrl, chars_length_avih, Nat.reduceLeDiff, Nat.reduceSub]
    exact read_int_head _ _
  · simp only [riff_file, hdrl_list, avih_chunk, avih_payload, List.append_assoc]
    simp only [read_int_skip, chars_length_RIFF, int_buffer_length, chars_length_AVI,
      chars_length_LIST, chars_length_hdrl, chars_length_avih, Nat.reduceLeDiff, Nat.reduceSub]
    exact read_int_head _ _
  · simp only [riff_file, hdrl_list, avih_chunk, avih_payload, List.append_assoc]
    simp only [read_int_skip, chars_length_RIFF, int_buffer_length, chars_length_AVI,
      chars_length_LIST, chars_length_hdrl, chars_length_avih, Nat.reduceLeDiff, Nat.reduceSub]
    exact read_int_head _ _
  · simp only [riff_file, hdrl_list, avih_chunk, avih_payload, List.append_assoc]
    simp only [read_int_skip, chars_length_RIFF, int_buffer_length, chars_length_AVI,
      chars_length_LIST, chars_length_hdrl, chars_length_avih, Nat.reduceLeDiff, Nat.reduceSub]
    exact read_int_head _ _
  · simp only [riff_file, hdrl_list, avih_chunk, avih_payload, strl_v_list, strh_chunk,
      List.append_assoc]
    simp only [read_bytes_skip, chars_length_RIFF, int_buffer_length, chars_length_AVI,
      chars_length_LIST, chars_length_hdrl, chars_length_avih, chars_length_strl,
      chars_length_strh, hd, Nat.reduceLeDiff, Nat.reduceSub]
    exact (congrArg (read_bytes _ 0) hm.symm).trans (read_bytes_head _ _)

/-! ## Open, append, finalize -/

theorem add_frame_offsets_some (heap : Nat → Nat → Nat) (s : Session) (fr : Frame)
    (h : s.offsets.isSome) : (add_frame heap s fr).offsets.isSome := by
  unfold add_frame
  cases fr.audio
  · simp only [Bool.false_eq_true, if_false, AddVideoFrame, store_offset, grow_offsets]
    split <;> simp [h]
  · simp only [if_true, AddAudioFrame, store_offset, grow_offsets]
    split <;> simp [h]

theorem add_frames_offsets_some (heap : Nat → Nat → Nat) (frs : List Frame) :
    ∀ s : Session, s.offsets.isSome → (add_frames heap s frs).offsets.isSome := by
  induction frs with
  | nil => intro s h; exact h
  | cons fr frs ih => intro s h; exact ih _ (add_frame_offsets_some heap s fr h)

theorem Frame.chunk_length (fr : Frame) : fr.chunk.length = 8 + fr.padded := by
  have : fr.tag.length = 4 := by unfold Frame.tag; split <;> rfl
  rw [Frame.chunk, frame_chunk_length, this, Frame.padded]
  omega

theorem movi_chunks_length (frs : List Frame) :
    (movi_chunks frs).length = (frs.map (fun fr => 8 + fr.padded)).sum := by
  induction frs with
  | nil => rfl
  | cons fr frs ih =>
    rw [movi_chunks_cons, List.length_append, ih, Frame.chunk_length, List.map_cons, List.sum_cons]

/-- The result of open, append, finalize: the finished file in terms of the
frames and of the first slots of the offset table. -/
theorem produce_eq (heap : Nat → Nat → Nat) (width height : Nat) (fourcc : List Nat)
    (fps : Nat) (audio : Option gwavi_audio_t) (frs : List Frame) (hfps : 1 ≤ fps) :
    ∃ s tbl, Open heap width height fourcc fps audio = some s
      ∧ (add_frames heap s frs).offsets = some tbl
      ∧ produce heap width height fourcc fps audio frs
        = some (0, { final_records (add_frames heap s frs) with
            outFile :=
              { data := riff_file
                  (24 + (hdrl_list s).length + (movi_chunks frs).length
                    + (idx1_chunk (table_entries tbl frs.length)).length - 8)
                  (hdrl_list (final_records (add_frames heap s frs)))
                  (4 + (movi_chunks frs).length) (movi_chunks frs)
                  (idx1_chunk (table_entries tbl frs.length))
                pos := 24 + (hdrl_list s).length + (movi_chunks frs).length
                  + (idx1_chunk (table_entries tbl frs.length)).length }
            offsets := none }) := by
  obtain ⟨s, ho⟩ : ∃ s, Open heap width height fourcc fps audio = some s :=
    ⟨_, Open_eq heap width height fourcc fps audio hfps⟩
  obtain ⟨hl, -, ht, -, -, hc, -⟩ := Open_layout heap width height fourcc fps audio s ho
  have hl2 := add_frames_layout heap frs s _ _ hl
  have hs := add_frames_offsets_some heap frs s (by rw [ht]; rfl)
  obtain ⟨tbl, htbl⟩ := Option.isSome_iff_exists.mp hs
  have hcount := (add_frames_fields heap frs s).2.2.2.2.1
  rw [hc, Nat.zero_add] at hcount
  have hf := Finalize_eq _ _ _ tbl hl2 htbl
  rw [hcount, List.nil_append] at hf
  refine ⟨s, tbl, ho, htbl, ?_⟩
  rw [produce, ho]
  exact hf

theorem final_hdrl_length (heap : Nat → Nat → Nat) (s : Session) (frs : List Frame) :
    (hdrl_list (final_records (add_frames heap s frs))).length = (hdrl_list s).length := by
  obtain ⟨h1, h2, -⟩ := add_frames_fields heap frs s
  rw [hdrl_list_length, hdrl_list_length, ← h1, ← h2]
  rfl

theorem read_movi_tags (a : Nat) (hdrl : List Nat) (m : Nat) (movi idx : List Nat) :
    read_bytes (riff_file a hdrl m movi idx) (12 + hdrl.length) 4 = chars "LIST"
      ∧ read_bytes (riff_file a hdrl m movi idx) (20 + hdrl.length) 4 = chars "movi" := by
  have h1 : (chars "RIFF" ++ int_buffer a ++ chars "AVI " ++ hdrl).length = 12 + hdrl.length := by
    simp only [List.length_append, int_buffer_length, chars_length_RIFF, chars_length_AVI]
  have h2 : (chars "RIFF" ++ int_buffer a ++ chars "AVI " ++ hdrl ++ chars "LIST"
      ++ int_buffer m).length = 20 + hdrl.length := by
    simp only [List.length_append, int_buffer_length, chars_length_RIFF, chars_length_AVI,
      chars_length_LIST]
    omega
  constructor
  · have e : riff_file a hdrl m movi idx
        = (chars "RIFF" ++ int_buffer a ++ chars "AVI " ++ hdrl)
          ++ (chars "LIST" ++ (int_buffer m ++ chars "movi" ++ movi ++ idx)) := by
      simp only [riff_file, List.append_assoc]
    rw [e, read_bytes_skip _ _ _ _ (by rw [h1]), h1, Nat.sub_self]
    exact read_bytes_head (chars "LIST") _
  · have e : riff_file a hdrl m movi idx
        = (chars "RIFF" ++ int_buffer a ++ chars "AVI " ++ hdrl ++ chars "LIST" ++ int_buffer m)
          ++ (chars "movi" ++ (movi ++ idx)) := by
      simp only [riff_file, List.append_assoc]
    rw [e, read_bytes_skip _ _ _ _ (by rw [h2]), h2, Nat.sub_self]
    exact read_bytes_head (chars "movi") _

theorem Finalize_frame_count (s : Session) (r : Int × Session) (h : Finalize s = some r) :
    r.1 = 0 ∧ r.2.avi_header.number_of_frames = s.stream_header_v.data_length := by
  simp only [Finalize, write_avi_header_chunk_eq] at h
  split at h
  · exact absurd h (by simp)
  · rw [Option.some.injEq] at h
    subst h
    exact ⟨rfl, rfl⟩

/-! ## Reading the frames back -/

theorem chunk_sizes_nil (data : List Nat) (fuel off : Nat) : chunk_sizes data fuel off off = [] := by
  cases fuel with
  | zero => rfl
  | succ n =>
    have : ¬ off + 8 ≤ off := by omega
    simp only [chunk_sizes, this, if_false]

theorem Frame.tag_length (fr : Frame) : fr.tag.length = 4 := by
  unfold Frame.tag; split <;> rfl

theorem read_chunk_size (P R : List Nat) (fr : Frame) :
    read_int (P ++ (fr.chunk ++ R)) (P.length + 4) = fr.padded % 2 ^ 32 := by
  rw [read_int_skip _ _ _ (by omega), Nat.add_sub_cancel_left]
  have e : fr.chunk ++ R = fr.tag ++ (int_buffer fr.padded
      ++ (buffer_bytes fr.buffer fr.len ++ List.replicate (maxi_pad fr.len) 0 ++ R)) := by
    simp only [Frame.chunk, frame_chunk, Frame.padded, List.append_assoc]
  rw [e, read_int_skip _ _ _ (by rw [Frame.tag_length]), Frame.tag_length, Nat.sub_self,
    read_int_head]

/-- Walking the chunks of the frames gives their padded lengths. -/
theorem chunk_sizes_movi (frs : List Frame) (hfit : ∀ fr ∈ frs, fr.padded < 2 ^ 32) :
    ∀ (P Z : List Nat) (fuel : Nat), frs.length ≤ fuel →
      chunk_sizes (P ++ (movi_chunks frs ++ Z)) fuel P.length
          (P.length + (movi_chunks frs).length)
        = frs.map Frame.padded := by
  induction frs with
  | nil =>
    intro P Z fuel _
    simp only [movi_chunks, List.map_nil, List.flatten_nil, List.length_nil, Nat.add_zero,
      chunk_sizes_nil]
  | cons fr frs ih =>
    intro P Z fuel hfuel
    obtain ⟨n, rfl⟩ : ∃ n, fuel = n + 1 := ⟨fuel - 1, by simp at hfuel; omega⟩
    have hfr : fr.padded < 2 ^ 32 := hfit fr (List.mem_cons_self _ _)
    have hrest : ∀ g ∈ frs, g.padded < 2 ^ 32 := fun g hg => hfit g (List.mem_cons_of_mem _ hg)
    have hc := Frame.chunk_length fr
    have hsz : read_int (P ++ (movi_chunks (fr :: frs) ++ Z)) (P.length + 4) = fr.padded := by
      rw [movi_chunks_cons, List.append_assoc, read_chunk_size, Nat.mod_eq_of_lt hfr]
    have hcond : P.length + 8 ≤ P.length + (movi_chunks (fr :: frs)).length := by
      rw [movi_chunks_cons, List.length_append, hc]; omega
    rw [chunk_sizes, if_pos hcond, hsz, List.map_cons]
    congr 1
    have e : P ++ (movi_chunks (fr :: frs) ++ Z) = (P ++ fr.chunk) ++ (movi_chunks frs ++ Z) := by
      rw [movi_chunks_cons]; simp only [List.append_assoc]
    have hl : (P ++ fr.chunk).length = P.length + 8 + fr.padded := by
      rw [List.length_append, hc]; omega
    have hstop : P.length + (movi_chunks (fr :: frs)).length
        = (P ++ fr.chunk).length + (movi_chunks frs).length := by
      rw [movi_chunks_cons, List.length_append, List.length_append]; omega
    rw [e, ← hl, hstop]
    exact ih hrest (P ++ fr.chunk) Z n (by simp at hfuel; omega)

theorem read_frame_sizes_riff (a : Nat) (s : Session) (frs : List Frame) (idx : List Nat)
    (hh : (hdrl_list s).length < 2 ^ 32) (hfit : ∀ fr ∈ frs, fr.padded < 2 ^ 32)
    (hsize : 4 + (movi_chunks frs).length < 2 ^ 32) :
    read_frame_sizes (riff_file a (hdrl_list s) (4 + (movi_chunks frs).length) (movi_chunks frs) idx)
      = frs.map Frame.padded := by
  have h8 : 8 ≤ (hdrl_list s).length := by rw [hdrl_list_length]; omega
  have hstart : movi_start (riff_file a (hdrl_list s) (4 + (movi_chunks frs).length)
      (movi_chunks frs) idx) = 12 + (hdrl_list s).length := by
    rw [movi_start, (read_header_fields a s _ _ _).1, Nat.mod_eq_of_lt (by omega)]
    omega
  have e : riff_file a (hdrl_list s) (4 + (movi_chunks frs).length) (movi_chunks frs) idx
      = (chars "RIFF" ++ int_buffer a ++ chars "AVI " ++ hdrl_list s ++ chars "LIST"
          ++ int_buffer (4 + (movi_chunks frs).length) ++ chars "movi")
        ++ (movi_chunks frs ++ idx) := by
    simp only [riff_file, List.append_assoc]
  have hP : (chars "RIFF" ++ int_buffer a ++ chars "AVI " ++ hdrl_list s ++ chars "LIST"
      ++ int_buffer (4 + (movi_chunks frs).length) ++ chars "movi").length
      = 24 + (hdrl_list s).length := by
    simp only [List.length_append, int_buffer_length, chars_length_RIFF, chars_length_AVI,
      chars_length_LIST, chars_length_movi]
    omega
  have hfuel : frs.length ≤ (riff_file a (hdrl_list s) (4 + (movi_chunks frs).length)
      (movi_chunks frs) idx).length := by
    rw [riff_file_length, movi_chunks_length]
    have : frs.length ≤ (frs.map (fun fr => 8 + fr.padded)).sum := by
      clear hfit hsize hstart e hP
      induction frs with
      | nil => simp
      | cons fr frs ih => simp only [List.length_cons, List.map_cons, List.sum_cons]; omega
    omega
  unfold read_frame_sizes
  rw [hstart, show 12 + (hdrl_list s).length + 4 = 16 + (hdrl_list s).length by omega,
    read_movi_size, Nat.mod_eq_of_lt hsize]
  have h1 : 12 + (hdrl_list s).length + 12 = 24 + (hdrl_list s).length := by omega
  have h2 : 12 + (hdrl_list s).length + 8 + (4 + (movi_chunks frs).length)
      = 24 + (hdrl_list s).length + (movi_chunks frs).length := by omega
  rw [h1, h2]
  have := chunk_sizes_movi frs hfit (chars "RIFF" ++ int_buffer a ++ chars "AVI " ++ hdrl_list s
    ++ chars "LIST" ++ int_buffer (4 + (movi_chunks frs).length) ++ chars "movi") idx
    (riff_file a (hdrl_list s) (4 + (movi_chunks frs).length) (movi_chunks frs) idx).length hfuel
  rw [hP, ← e] at this
  exact this

/-! ## The offset table across a growth step -/

theorem add_frame_offsets_len (heap : Nat → Nat → Nat) (s : Session) (fr : Frame)
    (h : s.offset_count + 1 < s.offsets_len) :
    (add_frame heap s fr).offsets_len = s.offsets_len := by
  have hn : ¬ (s.offset_count + 1 ≥ s.offsets_len) := by omega
  unfold add_frame
  cases fr.audio
  · simp only [Bool.false_eq_true, if_false, AddVideoFrame, store_offset, grow_offsets, hn]
  · simp only [if_true, AddAudioFrame, store_offset, grow_offsets, hn, if_false]

theorem add_frames_offsets_len (heap : Nat → Nat → Nat) (frs : List Frame) :
    ∀ s : Session, s.offset_count + frs.length < s.offsets_len →
      (add_frames heap s frs).offsets_len = s.offsets_len := by
  induction frs with
  | nil => intro s _; rfl
  | cons fr frs ih =>
    intro s h
    rw [List.length_cons] at h
    have h1 := add_frame_offsets_len heap s fr (by omega)
    have h2 := (add_frame_fields heap s fr).2.2.2.2.1
    rw [add_frames_cons, ih _ (by rw [h1, h2]; omega), h1]

/-- An append that finds `offset_count` at `offsets_len` replaces the table:
what was recorded before is gone. -/
theorem add_frame_growth (heap : Nat → Nat → Nat) (s : Session) (fr : Frame)
    (h : s.offsets_len ≤ s.offset_count + 1) :
    (add_frame heap s fr).offsets
      = some ((new_array heap (s.offsets_len + 1024)).set s.offsets_ptr fr.entry) := by
  have hn : s.offset_count + 1 ≥ s.offsets_len := h
  unfold add_frame
  cases hfa : fr.audio
  · simp only [Bool.false_eq_true, if_false, AddVideoFrame, store_offset, grow_offsets, hn,
      if_true, Option.map_some', Frame.entry, hfa, Frame.padded]
  · simp only [if_true, AddAudioFrame, store_offset, grow_offsets, hn, Option.map_some',
      Frame.entry, hfa, Frame.padded]

/-- The table after the 1024th append to a fresh session. -/
theorem table_after_1024 (heap : Nat → Nat → Nat) (width height : Nat) (fourcc : List Nat)
    (fps : Nat) (audio : Option gwavi_audio_t) (s : Session) (frs : List Frame) (fr : Frame)
    (ho : Open heap width height fourcc fps audio = some s) (hlen : frs.length = 1023) :
    (add_frames heap s (frs ++ [fr])).offsets
      = some ((new_array heap 2048).set 1023 fr.entry) := by
  obtain ⟨-, -, -, hl, hp, hc, -⟩ := Open_layout heap width height fourcc fps audio s ho
  obtain ⟨-, -, -, -, fc, fp, -⟩ := add_frames_fields heap frs s
  have fl := add_frames_offsets_len heap frs s (by rw [hc, hl, hlen]; decide)
  rw [add_frames_append, add_frames_cons, add_frames_nil,
    add_frame_growth heap _ fr (by rw [fl, fc, hl, hc, hlen]), fl, hl, fp, hp, hlen]

theorem new_array_getD (heap : Nat → Nat → Nat) (n i : Nat) (h : i < n) :
    (new_array heap n).getD i 0 = heap n i % 2 ^ 32 := by
  simp [new_array, List.getD_eq_getElem?_getD, List.getElem?_map, List.getElem?_range h]

theorem read_bytes_riff_idx (a : Nat) (hdrl : List Nat) (m : Nat) (movi idx : List Nat)
    (off k n : Nat) (hoff : off = 24 + hdrl.length + movi.length) :
    read_bytes (riff_file a hdrl m movi idx) (off + k) n = read_bytes idx k n := by
  subst hoff
  have e : riff_file a hdrl m movi idx
      = (chars "RIFF" ++ int_buffer a ++ chars "AVI " ++ hdrl ++ chars "LIST"
          ++ int_buffer m ++ chars "movi" ++ movi) ++ idx := by
    simp only [riff_file, List.append_assoc]
  have hl : (chars "RIFF" ++ int_buffer a ++ chars "AVI " ++ hdrl ++ chars "LIST"
      ++ int_buffer m ++ chars "movi" ++ movi).length = 24 + hdrl.length + movi.length := by
    simp only [List.length_append, int_buffer_length, chars_length_RIFF, chars_length_AVI,
      chars_length_LIST, chars_length_movi]
    omega
  rw [e, read_bytes_skip _ _ _ _ (by rw [hl]; omega), hl, Nat.add_sub_cancel_left]

theorem table_entries_head (tbl : List Nat) (n : Nat) :
    table_entries tbl (n + 1)
      = tbl.getD 0 0 :: (List.range n).map (fun t => tbl.getD (t + 1) 0) := by
  simp [table_entries, List.range_succ_eq_map]

theorem read_first_record (e : Nat) (es : List Nat) :
    read_bytes (idx1_chunk (e :: es)) 8 16 = index_record 4 e := by
  have h : idx1_chunk (e :: es) = (chars "idx1" ++ int_buffer (16 * (e :: es).length))
      ++ (index_record 4 e ++ index_records ((4 + entry_len e + 8) % 2 ^ 32) es) := by
    simp only [idx1_chunk, index_records, List.append_assoc]
  have hl : (chars "idx1" ++ int_buffer (16 * (e :: es).length)).length = 8 := by
    rw [List.length_append, int_buffer_length, chars_length_idx1]
  rw [h, read_bytes_skip _ _ _ _ (by rw [hl]), hl, Nat.sub_self, ← index_record_length 4 e]
  exact read_bytes_head _ _

theorem read_idx1_header (es : List Nat) :
    read_bytes (idx1_chunk es) 0 4 = chars "idx1" := by
  simp only [idx1_chunk, List.append_assoc]
  exact read_bytes_head (chars "idx1") _

/-- After 1023 appends and one more, the first record of the index is the
record of slot 0 of the newly allocated table. -/
theorem first_record_after_growth (heap : Nat → Nat → Nat) (width height : Nat)
    (fourcc : List Nat) (fps : Nat) (audio : Option gwavi_audio_t) (frs : List Frame)
    (fr : Frame) (off : Nat) (hfps : 1 ≤ fps) (hlen : frs.length = 1023)
    (hoff : off = 24 + (if audio.isSome then 302 else 200) + (movi_chunks (frs ++ [fr])).length) :
    ∃ r, produce heap width height fourcc fps audio (frs ++ [fr]) = some (0, r)
      ∧ read_bytes r.outFile.data off 4 = chars "idx1"
      ∧ read_bytes r.outFile.data (off + 8) 16 = index_record 4 (heap 2048 0 % 2 ^ 32) := by
  obtain ⟨s, tbl, ho, ht, hp⟩ := produce_eq heap width height fourcc fps audio (frs ++ [fr]) hfps
  have htab := table_after_1024 heap width height fourcc fps audio s frs fr ho hlen
  rw [ht, Option.some.injEq] at htab
  have hH : (hdrl_list (final_records (add_frames heap s (frs ++ [fr])))).length
      = 200 + (if audio.isSome then 102 else 0) := by
    obtain ⟨-, -, -, -, -, -, ha, -, hf, -⟩ :=
      Open_layout heap width height fourcc fps audio s ho
    rw [final_hdrl_length, hdrl_list_length, hf, ha]
    cases audio <;> rfl
  have hoff' : off = 24 + (hdrl_list (final_records (add_frames heap s (frs ++ [fr])))).length
      + (movi_chunks (frs ++ [fr])).length := by
    rw [hoff, hH]; split <;> omega
  have h0 : tbl.getD 0 0 = heap 2048 0 % 2 ^ 32 := by
    rw [htab, getD_set_ne _ _ _ _ (by decide), new_array_getD heap 2048 0 (by decide)]
  have hn : (frs ++ [fr]).length = 1023 + 1 := by
    rw [List.length_append, hlen, List.length_singleton]
  obtain ⟨es, he⟩ : ∃ es, table_entries tbl (frs ++ [fr]).length
      = heap 2048 0 % 2 ^ 32 :: es :=
    ⟨_, by rw [hn, table_entries_head, h0]⟩
  refine ⟨_, hp, ?_, ?_⟩
  · exact (read_bytes_riff_idx _ _ _ _ _ off 0 4 hoff').trans (read_idx1_header _)
  · refine (read_bytes_riff_idx _ _ _ _ _ off 8 16 hoff').trans ?_
    exact (congrArg (fun l => read_bytes (idx1_chunk l) 8 16) he).trans (read_first_record _ _)

theorem read_bytes_riff_movi (a : Nat) (hdrl : List Nat) (m : Nat) (movi idx : List Nat)
    (off k n : Nat) (hoff : off = 24 + hdrl.length) :
    read_bytes (riff_file a hdrl m movi idx) (off + k) n = read_bytes (movi ++ idx) k n := by
  subst hoff
  have e : riff_file a hdrl m movi idx
      = (chars "RIFF" ++ int_buffer a ++ chars "AVI " ++ hdrl ++ chars "LIST"
          ++ int_buffer m ++ chars "movi") ++ (movi ++ idx) := by
    simp only [riff_file, List.append_assoc]
  have hl : (chars "RIFF" ++ int_buffer a ++ chars "AVI " ++ hdrl ++ chars "LIST"
      ++ int_buffer m ++ chars "movi").length = 24 + hdrl.length := by
    simp only [List.length_append, int_buffer_length, chars_length_RIFF, chars_length_AVI,
      chars_length_LIST, chars_length_movi]
    omega
  rw [e, read_bytes_skip _ _ _ _ (by rw [hl]; omega), hl, Nat.add_sub_cancel_left]

/-- The first eight bytes after the "movi" tag are the tag and the length
field of the first frame appended. -/
theorem first_chunk_of_file (heap : Nat → Nat → Nat) (width height : Nat)
    (fourcc : List Nat) (fps : Nat) (audio : Option gwavi_audio_t) (f0 : Frame)
    (frs : List Frame) (hfps : 1 ≤ fps) :
    ∃ r, produce heap width height fourcc fps audio (f0 :: frs) = some (0, r)
      ∧ read_bytes r.outFile.data (24 + (if audio.isSome then 302 else 200)) 8
          = f0.tag ++ int_buffer f0.padded := by
  obtain ⟨s, tbl, ho, -, hp⟩ := produce_eq heap width height fourcc fps audio (f0 :: frs) hfps
  have hH : (hdrl_list (final_records (add_frames heap s (f0 :: frs)))).length
      = 200 + (if audio.isSome then 102 else 0) := by
    obtain ⟨-, -, -, -, -, -, ha, -, hf, -⟩ :=
      Open_layout heap width height fourcc fps audio s ho
    rw [final_hdrl_length, hdrl_list_length, hf, ha]
    cases audio <;> rfl
  have hoff : 24 + (if audio.isSome then 302 else 200)
      = 24 + (hdrl_list (final_records (add_frames heap s (f0 :: frs)))).length := by
    rw [hH]; split <;> omega
  have hc : movi_chunks (f0 :: frs) ++ idx1_chunk (table_entries tbl (f0 :: frs).length)
      = (f0.tag ++ int_buffer f0.padded)
        ++ (buffer_bytes f0.buffer f0.len ++ List.replicate (maxi_pad f0.len) 0
          ++ movi_chunks frs ++ idx1_chunk (table_entries tbl (f0 :: frs).length)) := by
    simp only [movi_chunks_cons, Frame.chunk, frame_chunk, Frame.padded, List.append_assoc]
  have hl : (f0.tag ++ int_buffer f0.padded).length = 8 := by
    rw [List.length_append, Frame.tag_length, int_buffer_length]
  refine ⟨_, hp, ?_⟩
  refine (read_bytes_riff_movi _ _ _ _ _ _ 0 8 hoff).trans ?_
  rw [hc, ← hl]
  exact read_bytes_head _ _

/-! ## The codec check -/

theorem words_of_spec (l : List Nat) :
    ∃ w ws, words_of l = w :: ws ∧ w <+: l ∧ 32 ∉ w ∧ ∀ v ∈ ws, 32 ∉ v ∧ v <:+: l := by
  induction l with
  | nil => exact ⟨[], [], rfl, List.prefix_refl _, by simp, by simp⟩
  | cons c cs ih =>
    obtain ⟨w, ws, e, hp, hs, hr⟩ := ih
    by_cases hc : c = 32
    · refine ⟨[], w :: ws, by simp [words_of, hc, e], List.nil_prefix, by simp, ?_⟩
      intro v hv
      rcases List.mem_cons.1 hv with h | h
      · subst h
        exact ⟨hs, List.infix_cons hp.isInfix⟩
      · exact ⟨(hr v h).1, List.infix_cons (hr v h).2⟩
    · refine ⟨c :: w, ws, by simp [words_of, hc, e], (List.prefix_cons_inj c).2 hp, ?_, ?_⟩
      · intro hm
        rcases List.mem_cons.1 hm with h | h
        · exact hc h.symm
        · exact hs h
      · intro v hv
        exact ⟨(hr v hv).1, List.infix_cons (hr v hv).2⟩

/-- A word of a line has no space in it and is a contiguous part of the line. -/
theorem mem_words_of (l w : List Nat) (h : w ∈ words_of l) : 32 ∉ w ∧ w <:+: l := by
  obtain ⟨w0, ws, e, hp, hs, hr⟩ := words_of_spec l
  rw [e] at h
  rcases List.mem_cons.1 h with h | h
  · subst h
    exact ⟨hs, hp.isInfix⟩
  · exact hr w h

/-- A listed code has no space in it and is a contiguous part of the table. -/
theorem listed_code_in_table (c : List Nat) (h : c ∈ listed_codes) :
    32 ∉ c ∧ c <:+: valid_fourcc := by
  obtain ⟨ws, hws, hc⟩ := List.mem_flatten.1 h
  obtain ⟨l, hl, rfl⟩ := List.mem_map.1 hws
  obtain ⟨h1, h2⟩ := mem_words_of _ _ hc
  exact ⟨h1, h2.trans (List.infix_of_mem_flatten (List.mem_map_of_mem chars hl))⟩

theorem check_fourcc_eq_zero (t : List Nat) :
    check_fourcc (some t) = 0 ↔ 32 ∉ t ∧ t <:+: valid_fourcc := by
  unfold check_fourcc
  by_cases h : 32 ∈ t ∨ ¬ t <:+: valid_fourcc
  · simp only [h, if_true]
    constructor
    · intro h1; exact absurd h1 (by decide)
    · rintro ⟨h1, h2⟩
      rcases h with h | h
      · exact absurd h h1
      · exact absurd h2 h
  · simp only [h, if_false, true_iff]
    push_neg at h
    exact h

theorem check_fourcc_eq_one (t : List Nat) :
    check_fourcc (some t) = 1 ↔ 32 ∈ t ∨ ¬ t <:+: valid_fourcc := by
  unfold check_fourcc
  by_cases h : 32 ∈ t ∨ ¬ t <:+: valid_fourcc
  · simp only [h, if_true]
  · simp only [h, if_false, iff_false]
    decide


set_option maxRecDepth 100000 in
/-- The last code of a line and the first code of the next are adjacent in the
table: "BPSA", from "8BPS" and "AASC", is not a listed code and is accepted. -/
theorem check_fourcc_across_lines :
    chars "BPSA" ∉ listed_codes ∧ chars "BPSA" <:+: valid_fourcc
      ∧ check_fourcc (some (chars "BPSA")) = 0 := by
  have hn : chars "BPSA" ∉ listed_codes := by
    intro h
    obtain ⟨ws, hws, hc⟩ := List.mem_flatten.1 h
    obtain ⟨l, hl, rfl⟩ := List.mem_map.1 hws
    have hall : ∀ l ∈ valid_fourcc_lines, chars "BPSA" ∉ words_of (chars l) := by decide
    exact hall l hl hc
  have e : valid_fourcc
      = chars "3IV1 3IV2 8BPS"
        ++ (chars "AASC ABYR ADV1 ADVJ AEMI AFLC AFLI AJPG AMPG ANIM AP41 ASLC"
          ++ ((valid_fourcc_lines.drop 2).map chars).flatten) := by
    have h : valid_fourcc_lines = "3IV1 3IV2 8BPS"
        :: "AASC ABYR ADV1 ADVJ AEMI AFLC AFLI AJPG AMPG ANIM AP41 ASLC"
        :: valid_fourcc_lines.drop 2 := rfl
    unfold valid_fourcc
    rw [h]
    simp only [List.map_cons, List.flatten_cons, List.drop_succ_cons, List.drop_zero]
  have h1 : chars "BPSA" <:+: chars "3IV1 3IV2 8BPS"
      ++ chars "AASC ABYR ADV1 ADVJ AEMI AFLC AFLI AJPG AMPG ANIM AP41 ASLC" := by decide
  have h2 : chars "BPSA" <:+: valid_fourcc := by
    rw [e, ← List.append_assoc]
    exact h1.trans (List.prefix_append _ _).isInfix
  exact ⟨hn, h2, (check_fourcc_eq_zero _).2 ⟨by decide, h2⟩⟩

theorem compression_code_bytes (a b c d : Nat) (ha : a < 128) (hb : b < 128) (hc : c < 128)
    (hd : d < 128) : int_buffer (compression_code [a, b, c, d]) = [a, b, c, d] := by
  have e : compression_code [a, b, c, d] = a + 256 * b + 65536 * c + 16777216 * d := by
    simp only [compression_code, charAt, char_to_uint, List.getD_cons_zero, List.getD_cons_succ,
      Nat.shiftLeft_eq]
    have h1 : a % 256 = a := Nat.mod_eq_of_lt (by omega)
    have h2 : b % 256 = b := Nat.mod_eq_of_lt (by omega)
    have h3 : c % 256 = c := Nat.mod_eq_of_lt (by omega)
    have h4 : d % 256 = d := Nat.mod_eq_of_lt (by omega)
    rw [h1, h2, h3, h4, if_pos ha, if_pos hb, if_pos hc, if_pos hd]
    omega
  rw [e]
  have h1 : (a + 256 * b + 65536 * c + 16777216 * d) % 2 ^ 32
      = a + 256 * b + 65536 * c + 16777216 * d := Nat.mod_eq_of_lt (by omega)
  have g0 : (a + 256 * b + 65536 * c + 16777216 * d) % 256 = a := by omega
  have g1 : (a + 256 * b + 65536 * c + 16777216 * d) / 2 ^ 8 % 256 = b := by omega
  have g2 : (a + 256 * b + 65536 * c + 16777216 * d) / 2 ^ 16 % 256 = c := by omega
  have g3 : (a + 256 * b + 65536 * c + 16777216 * d) / 2 ^ 24 % 256 = d := by omega
  simp only [int_buffer, Nat.shiftRight_eq_div_pow, h1, g0, g1, g2, g3]

theorem read_strh_codec (h : gwavi_stream_header_t) :
    read_bytes (strh_chunk h) 12 4 = (List.range 4).map (charAt h.codec) := by
  have hm : ((List.range 4).map (charAt h.codec)).length = 4 := by simp
  have hd : ((List.range 4).map (charAt h.data_type)).length = 4 := by simp
  simp only [strh_chunk, List.append_assoc]
  rw [read_bytes_skip _ _ _ _ (by simp [chars_length_strh]), chars_length_strh,
    read_bytes_skip _ _ _ _ (by simp [int_buffer_length]), int_buffer_length,
    read_bytes_skip _ _ _ _ (by simp [hd]), hd]
  exact hm ▸ read_bytes_head _ _

theorem read_strf_compression (h : gwavi_stream_format_v_t) :
    read_bytes (strf_v_chunk h) 24 4 = int_buffer h.compression_type := by
  have hs : (chars "strf").length = 4 := rfl
  simp only [strf_v_chunk, List.append_assoc]
  rw [read_bytes_skip _ _ _ _ (by simp [hs]), hs,
    read_bytes_skip _ _ _ _ (by simp [int_buffer_length]), int_buffer_length,
    read_bytes_skip _ _ _ _ (by simp [int_buffer_length]), int_buffer_length,
    read_bytes_skip _ _ _ _ (by simp [int_buffer_length]), int_buffer_length,
    read_bytes_skip _ _ _ _ (by simp [int_buffer_length]), int_buffer_length,
    read_bytes_skip _ _ _ _ (by simp [short_buffer_length]), short_buffer_length,
    read_bytes_skip _ _ _ _ (by simp [short_buffer_length]), short_buffer_length]
  exact int_buffer_length h.compression_type ▸ read_bytes_head _ _

/-! ## The offset table below its capacity -/

/-- An append that stays below the capacity stores its entry in slot
`offsets_ptr` of the same table. -/
theorem add_frame_table (heap : Nat → Nat → Nat) (s : Session) (fr : Frame) (tbl : List Nat)
    (h1 : s.offsets = some tbl) (h : s.offset_count + 1 < s.offsets_len) :
    (add_frame heap s fr).offsets = some (tbl.set s.offsets_ptr fr.entry) := by
  have hn : ¬ (s.offset_count + 1 ≥ s.offsets_len) := by omega
  unfold add_frame
  cases hfa : fr.audio
  · simp only [Bool.false_eq_true, if_false, AddVideoFrame, store_offset, grow_offsets, hn,
      h1, Option.map_some', Frame.entry, hfa, Frame.padded]
  · simp only [if_true, AddAudioFrame, store_offset, grow_offsets, hn, if_false, h1,
      Option.map_some', Frame.entry, hfa, Frame.padded]

/-- Appends that stay below the capacity fill the table slot by slot and keep
what was recorded before. -/
theorem add_frames_table (heap : Nat → Nat → Nat) (frs : List Frame) :
    ∀ (s : Session) (tbl : List Nat), s.offsets = some tbl → tbl.length = s.offsets_len →
      s.offsets_ptr = s.offset_count → s.offset_count + frs.length < s.offsets_len →
      ∃ tbl', (add_frames heap s frs).offsets = some tbl' ∧ tbl'.length = s.offsets_len
        ∧ (∀ j, j < s.offset_count → tbl'.getD j 0 = tbl.getD j 0)
        ∧ (∀ i, i < frs.length →
            tbl'.getD (s.offset_count + i) 0 = (frs.map Frame.entry).getD i 0) := by
  induction frs with
  | nil =>
    intro s tbl h1 h2 _ _
    exact ⟨tbl, h1, h2, fun _ _ => rfl, fun i hi => absurd hi (by simp)⟩
  | cons fr frs ih =>
    intro s tbl h1 h2 h3 h4
    rw [List.length_cons] at h4
    have e1 := add_frame_table heap s fr tbl h1 (by omega)
    have e2 := add_frame_offsets_len heap s fr (by omega)
    obtain ⟨-, -, -, -, fc, fp, -⟩ := add_frame_fields heap s fr
    obtain ⟨tbl', g1, g2, g3, g4⟩ := ih (add_frame heap s fr) _ e1
      (by rw [List.length_set, h2, e2]) (by rw [fc, fp, h3]) (by rw [fc, e2]; omega)
    rw [fc] at g3 g4
    rw [h3] at g3
    refine ⟨tbl', by rw [add_frames_cons]; exact g1, by rw [g2, e2], ?_, ?_⟩
    · intro j hj
      rw [g3 j (by omega), getD_set_ne _ _ _ _ (by omega)]
    · intro i hi
      cases i with
      | zero =>
        rw [Nat.add_zero, g3 _ (by omega), getD_set_self _ _ _ (by omega)]
        rfl
      | succ k =>
        rw [List.length_cons] at hi
        have := g4 k (by omega)
        rw [show s.offset_count + (k + 1) = s.offset_count + 1 + k by omega, this]
        rfl

/-- Below 1024 frames the first slots of the table hold the entries of the
frames, in order. -/
theorem table_below_capacity (heap : Nat → Nat → Nat) (width height : Nat) (fourcc : List Nat)
    (fps : Nat) (audio : Option gwavi_audio_t) (s : Session) (frs : List Frame)
    (ho : Open heap width height fourcc fps audio = some s) (hlen : frs.length < 1024) :
    ∃ tbl, (add_frames heap s frs).offsets = some tbl ∧ tbl.length = 1024
      ∧ table_entries tbl frs.length = frs.map Frame.entry := by
  obtain ⟨-, -, ht, hl, hp, hc, -⟩ := Open_layout heap width height fourcc fps audio s ho
  obtain ⟨tbl, g1, g2, -, g4⟩ := add_frames_table heap frs s _ ht
    (by rw [new_array_length, hl]) (by rw [hp, hc]) (by rw [hc, hl]; omega)
  refine ⟨tbl, g1, by rw [g2, hl], ?_⟩
  apply List.ext_getElem
  · rw [table_entries_length, List.length_map]
  · intro i h1 h2
    rw [table_entries_length] at h1
    have := g4 i h1
    rw [hc, Nat.zero_add] at this
    simp only [table_entries, List.getElem_map, List.getElem_range]
    rw [this, List.getD_eq_getElem?_getD, List.getElem?_eq_getElem h2]
    simp

/-- The table before and after the 1024th append to a fresh session: before,
the first 1023 slots hold the entries of the frames; after, they hold what the
allocator left in the new array. -/
theorem table_across_growth (heap : Nat → Nat → Nat) (width height : Nat) (fourcc : List Nat)
    (fps : Nat) (audio : Option gwavi_audio_t) (s : Session) (frs : List Frame) (fr : Frame)
    (ho : Open heap width height fourcc fps audio = some s) (hlen : frs.length = 1023) :
    ∃ tb ta, (add_frames heap s frs).offsets = some tb
      ∧ (∀ i, i < 1023 → tb.getD i 0 = (frs.map Frame.entry).getD i 0)
      ∧ (add_frames heap s (frs ++ [fr])).offsets = some ta
      ∧ (∀ i, i < 1023 → ta.getD i 0 = heap 2048 i % 2 ^ 32)
      ∧ ta.getD 1023 0 = fr.entry := by
  obtain ⟨-, -, ht, hl, hp, hc, -⟩ := Open_layout heap width height fourcc fps audio s ho
  obtain ⟨tb, g1, -, -, g4⟩ := add_frames_table heap frs s _ ht
    (by rw [new_array_length, hl]) (by rw [hp, hc]) (by rw [hc, hl, hlen]; decide)
  refine ⟨tb, _, g1, ?_, table_after_1024 heap width height fourcc fps audio s frs fr ho hlen,
    ?_, ?_⟩
  · intro i hi
    have := g4 i (by rw [hlen]; exact hi)
    rw [hc, Nat.zero_add] at this
    exact this
  · intro i hi
    rw [getD_set_ne _ _ _ _ (by omega), new_array_getD heap 2048 i (by omega)]
  · exact getD_set_self _ _ _ (by rw [new_array_length]; decide)

/-! ## Sequences of calls -/

theorem call_null (heap : Nat → Nat → Nat) (s : Session) (c : Call) (h : c.buffer = none) :
    call heap s c = (-1, s) := by
  unfold call AddAudioFrame AddVideoFrame
  rw [h]
  split <;> rfl

theorem call_some (heap : Nat → Nat → Nat) (s : Session) (c : Call) (b : Nat → Nat)
    (h : c.buffer = some b) :
    (call heap s c).1 = 0 ∧ (call heap s c).2 = add_frame heap s ⟨c.audio, b, c.len⟩ := by
  unfold call add_frame
  rw [h]
  cases c.audio
  · exact ⟨rfl, rfl⟩
  · exact ⟨rfl, rfl⟩

/-- A sequence of calls returns -1 for the null buffers and 0 for the others,
and leaves the session that appending the non-null buffers gives. -/
theorem calls_eq (heap : Nat → Nat → Nat) (cs : List Call) :
    ∀ s : Session,
      (calls heap s cs).1 = cs.map (fun c => if c.buffer.isSome then (0 : Int) else -1)
        ∧ (calls heap s cs).2 = add_frames heap s (appended cs) := by
  induction cs with
  | nil => intro s; exact ⟨rfl, rfl⟩
  | cons c cs ih =>
    intro s
    cases hb : c.buffer with
    | none =>
      have e := call_null heap s c hb
      obtain ⟨i1, i2⟩ := ih s
      simp only [calls, e, List.map_cons, hb, Option.isSome_none, Bool.false_eq_true, if_false,
        appended, List.filterMap_cons, Option.map_none']
      exact ⟨by rw [i1], i2⟩
    | some b =>
      obtain ⟨e1, e2⟩ := call_some heap s c b hb
      obtain ⟨i1, i2⟩ := ih (add_frame heap s ⟨c.audio, b, c.len⟩)
      simp only [calls, e1, e2, List.map_cons, hb, Option.isSome_some, if_true,
        appended, List.filterMap_cons, Option.map_some']
      exact ⟨by rw [i1], by rw [i2]; rfl⟩

theorem count_zero_codes (cs : List Call) :
    (cs.map (fun c => if c.buffer.isSome then (0 : Int) else -1)).count 0
      = (appended cs).length := by
  induction cs with
  | nil => rfl
  | cons c cs ih =>
    cases hb : c.buffer with
    | none =>
      simp only [List.map_cons, hb, Option.isSome_none, Bool.false_eq_true, if_false,
        appended, List.filterMap_cons, Option.map_none']
      rw [List.count_cons_of_ne (by decide), ih]
      rfl
    | some b =>
      simp only [List.map_cons, hb, Option.isSome_some, if_true,
        appended, List.filterMap_cons, Option.map_some', List.length_cons]
      rw [List.count_cons_self, ih]
      rfl

theorem add_frame_offsets_len_growth (heap : Nat → Nat → Nat) (s : Session) (fr : Frame)
    (h : s.offsets_len ≤ s.offset_count + 1) :
    (add_frame heap s fr).offsets_len = s.offsets_len + 1024 := by
  have hn : s.offset_count + 1 ≥ s.offsets_len := h
  unfold add_frame
  cases fr.audio
  · simp only [Bool.false_eq_true, if_false, AddVideoFrame, store_offset, grow_offsets, hn,
      if_true]
  · simp only [if_true, AddAudioFrame, store_offset, grow_offsets, hn]

/-- What one append does to the table of a session in the state `TableOk`: the
entry of the frame is in slot `offsets_ptr` afterwards, and the state is kept. -/
theorem add_frame_tableOk (heap : Nat → Nat → Nat) (s : Session) (fr : Frame)
    (h : TableOk s) :
    TableOk (add_frame heap s fr)
      ∧ ∃ tbl, (add_frame heap s fr).offsets = some tbl
          ∧ tbl[s.offsets_ptr]? = some fr.entry := by
  obtain ⟨tbl, h1, h2, h3, h4⟩ := h
  obtain ⟨-, -, -, -, fc, fp, -⟩ := add_frame_fields heap s fr
  by_cases hg : s.offset_count + 1 < s.offsets_len
  · have e1 := add_frame_table heap s fr tbl h1 hg
    have e2 := add_frame_offsets_len heap s fr hg
    refine ⟨⟨_, e1, by rw [List.length_set, h2, e2], by rw [fc, fp, h3], by rw [fc, e2]; exact hg⟩,
      _, e1, ?_⟩
    rw [List.getElem?_set]
    simp only [if_true]
    rw [if_pos (by omega)]
  · have e1 := add_frame_growth heap s fr (by omega)
    have e2 := add_frame_offsets_len_growth heap s fr (by omega)
    refine ⟨⟨_, e1, by rw [List.length_set, new_array_length, e2], by rw [fc, fp, h3],
      by rw [fc, e2]; omega⟩, _, e1, ?_⟩
    rw [List.getElem?_set]
    simp only [if_true]
    rw [if_pos (by rw [new_array_length]; omega)]

theorem add_frames_tableOk (heap : Nat → Nat → Nat) (frs : List Frame) :
    ∀ s : Session, TableOk s → TableOk (add_frames heap s frs) := by
  induction frs with
  | nil => intro s h; exact h
  | cons fr frs ih => intro s h; exact ih _ (add_frame_tableOk heap s fr h).1

theorem Open_tableOk (heap : Nat → Nat → Nat) (width height : Nat) (fourcc : List Nat)
    (fps : Nat) (audio : Option gwavi_audio_t) (s : Session)
    (ho : Open heap width height fourcc fps audio = some s) : TableOk s := by
  obtain ⟨-, -, ht, hl, hp, hc, -⟩ := Open_layout heap width height fourcc fps audio s ho
  exact ⟨_, ht, by rw [new_array_length, hl], by rw [hp, hc], by rw [hc, hl]; decide⟩

/-- The low 31 bits of the entry of a frame are its padded length modulo
`2^31`, a multiple of 4. -/
theorem entry_low_bits (fr : Frame) :
    fr.entry &&& 0x7fffffff = fr.padded % 2 ^ 31 ∧ (fr.entry &&& 0x7fffffff) % 4 = 0 := by
  have h1 : fr.entry &&& 0x7fffffff = fr.padded % 2 ^ 31 := by
    unfold Frame.entry
    split
    · exact audio_entry_low _
    · rw [and_low_eq_mod, Nat.mod_mod_of_dvd _ (by norm_num)]
  refine ⟨h1, ?_⟩
  rw [h1]
  have h2 : fr.padded % 4 = 0 := by
    have := maxi_pad_eq fr.len
    unfold Frame.padded
    omega
  omega

/-! ## The offsets of the index records -/

theorem index_records_append_list (a b : List Nat) :
    ∀ o, index_records o (a ++ b) = index_records o a ++ index_records (index_offset o a) b := by
  induction a with
  | nil => intro o; rfl
  | cons e a ih =>
    intro o
    rw [List.cons_append, index_records, ih, index_records, List.append_assoc]
    rfl

theorem entry_tag_length (e : Nat) : (entry_tag e).length = 4 := by
  unfold entry_tag
  split <;> rfl

/-- The length recorded for a frame whose padded length fits 31 bits. -/
theorem entry_len_entry (fr : Frame) (h : fr.padded < 2 ^ 31) : entry_len fr.entry = fr.padded := by
  unfold entry_len Frame.entry
  cases fr.audio
  · have e : fr.padded % 2 ^ 32 = fr.padded := Nat.mod_eq_of_lt (by omega)
    simp only [Bool.false_eq_true, if_false, e]
    rw [if_pos (and_high_eq_zero _ h)]
  · simp only [if_true]
    rw [if_neg (by rw [audio_entry_high]; decide), audio_entry_low, Nat.mod_eq_of_lt h]

theorem index_offset_entries (frs : List Frame) (hfit : ∀ fr ∈ frs, fr.padded < 2 ^ 31) :
    ∀ o, index_offset o (frs.map Frame.entry) % 2 ^ 32
      = (o + (frs.map (fun fr => fr.padded + 8)).sum) % 2 ^ 32 := by
  induction frs with
  | nil => intro o; simp [index_offset]
  | cons fr frs ih =>
    intro o
    have h1 := entry_len_entry fr (hfit fr (List.mem_cons_self _ _))
    have h2 := ih (fun g hg => hfit g (List.mem_cons_of_mem _ hg))
      ((o + entry_len fr.entry + 8) % 2 ^ 32)
    have e : index_offset o ((fr :: frs).map Frame.entry)
        = index_offset ((o + entry_len fr.entry + 8) % 2 ^ 32) (frs.map Frame.entry) := rfl
    rw [e, h2, h1, List.map_cons, List.sum_cons]
    omega

/-- The offset field of record `i` of an `idx1` chunk. -/
theorem read_record_offset (es : List Nat) (i : Nat) (hi : i < es.length) :
    read_int (idx1_chunk es) (8 + 16 * i + 8) = index_offset 4 (es.take i) % 2 ^ 32 := by
  have hs : es = es.take i ++ (es[i] :: es.drop (i + 1)) := by
    rw [← List.drop_eq_getElem_cons hi, List.take_append_drop]
  have ht : (es.take i).length = i := by rw [List.length_take]; omega
  have e : idx1_chunk es = (chars "idx1" ++ int_buffer (16 * es.length)
      ++ index_records 4 (es.take i) ++ entry_tag es[i] ++ int_buffer 0x10)
      ++ (int_buffer (index_offset 4 (es.take i)) ++ (int_buffer (entry_len es[i])
        ++ index_records ((index_offset 4 (es.take i) + entry_len es[i] + 8) % 2 ^ 32)
            (es.drop (i + 1)))) := by
    unfold idx1_chunk
    conv_lhs => rw [hs]
    rw [index_records_append_list, index_records]
    simp only [index_record, List.append_assoc]
    rw [← hs]
  have hl : (chars "idx1" ++ int_buffer (16 * es.length)
      ++ index_records 4 (es.take i) ++ entry_tag es[i] ++ int_buffer 0x10).length
      = 8 + 16 * i + 8 := by
    simp only [List.length_append, chars_length_idx1, int_buffer_length, index_records_length,
      entry_tag_length, ht]
  rw [e, read_int_skip _ _ _ (by rw [hl]), hl, Nat.sub_self]
  exact read_int_head _ _

theorem movi_chunks_append (a b : List Frame) :
    movi_chunks (a ++ b) = movi_chunks a ++ movi_chunks b := by
  simp [movi_chunks]

/-- The chunk of frame `i` follows the chunks of the frames before it. -/
theorem read_movi_chunk (frs : List Frame) (Z : List Nat) (i : Nat) (hi : i < frs.length) :
    read_bytes (movi_chunks frs ++ Z) (chunk_offset frs i - 4) (8 + frs[i].padded)
      = frs[i].chunk := by
  have hs : frs = frs.take i ++ (frs[i] :: frs.drop (i + 1)) := by
    rw [← List.drop_eq_getElem_cons hi, List.take_append_drop]
  have hl : (movi_chunks (frs.take i)).length = chunk_offset frs i - 4 := by
    rw [movi_chunks_length, chunk_offset, Nat.add_sub_cancel_left]
    congr 1
    apply List.map_congr_left
    intro fr _
    exact Nat.add_comm _ _
  have e : movi_chunks frs ++ Z = movi_chunks (frs.take i)
      ++ (frs[i].chunk ++ (movi_chunks (frs.drop (i + 1)) ++ Z)) := by
    conv_lhs => rw [hs]
    rw [movi_chunks_append, movi_chunks_cons]
    simp only [List.append_assoc]
  rw [e, read_bytes_skip _ _ _ _ (by rw [hl]), hl, Nat.sub_self, ← Frame.chunk_length]
  exact read_bytes_head _ _

/-! ## Appends and setters -/

theorem call_layout (heap : Nat → Nat → Nat) (s : Session) (c : Call) (hdrl movi : List Nat)
    (h : Layout s hdrl movi) (ht : s.offsets.isSome) :
    ∃ movi', Layout (call heap s c).2 hdrl movi' ∧ (call heap s c).2.offsets.isSome
      ∧ ∃ z, movi' = movi ++ z := by
  cases hb : c.buffer with
  | none =>
    rw [call_null heap s c hb]
    exact ⟨movi, h, ht, [], by simp⟩
  | some b =>
    rw [(call_some heap s c b hb).2]
    exact ⟨_, add_frame_layout heap s _ hdrl movi h, add_frame_offsets_some heap s _ ht, _, rfl⟩

theorem SetFramerate_layout (s s' : Session) (fps : Nat) (hdrl movi : List Nat)
    (h : Layout s hdrl movi) (hs : SetFramerate s fps = some s') :
    Layout s' hdrl movi ∧ s'.offsets = s.offsets := by
  unfold SetFramerate at hs
  split at hs
  · exact absurd hs (by simp)
  · rw [Option.some.injEq] at hs
    subst hs
    obtain ⟨h1, h2, h3, h4⟩ := h
    refine ⟨⟨?_, h2, h3, h4⟩, rfl⟩
    rw [h1, hdrl_list_length, hdrl_list_length]

theorem SetFourccCodec_layout (s : Session) (fourcc : List Nat) (hdrl movi : List Nat)
    (h : Layout s hdrl movi) : Layout (SetFourccCodec s fourcc) hdrl movi := by
  obtain ⟨h1, h2, h3, h4⟩ := h
  refine ⟨?_, h2, h3, h4⟩
  rw [h1, hdrl_list_length, hdrl_list_length]
  rfl

theorem SetVideoFrameSize_layout (s : Session) (width height : Nat) (hdrl movi : List Nat)
    (h : Layout s hdrl movi) : Layout (SetVideoFrameSize s width height) hdrl movi := by
  obtain ⟨h1, h2, h3, h4⟩ := h
  refine ⟨?_, h2, h3, h4⟩
  rw [h1, hdrl_list_length, hdrl_list_length]
  rfl

theorem apply_op_layout (heap : Nat → Nat → Nat) (s s' : Session) (op : Op)
    (hdrl movi : List Nat) (h : Layout s hdrl movi) (ht : s.offsets.isSome)
    (hs : apply_op heap s op = some s') :
    ∃ movi', Layout s' hdrl movi' ∧ s'.offsets.isSome ∧ ∃ z, movi' = movi ++ z := by
  cases op with
  | append c =>
    simp only [apply_op, Option.some.injEq] at hs
    subst hs
    exact call_layout heap s c hdrl movi h ht
  | framerate fps =>
    simp only [apply_op] at hs
    obtain ⟨g1, g2⟩ := SetFramerate_layout s s' fps hdrl movi h hs
    exact ⟨movi, g1, by rw [g2]; exact ht, [], by simp⟩
  | fourcc tag =>
    simp only [apply_op, Option.some.injEq] at hs
    subst hs
    exact ⟨movi, SetFourccCodec_layout s tag hdrl movi h, ht, [], by simp⟩
  | frame_size width height =>
    simp only [apply_op, Option.some.injEq] at hs
    subst hs
    exact ⟨movi, SetVideoFrameSize_layout s width height hdrl movi h, ht, [], by simp⟩

/-- Appends and setters keep the layout of the file: the header list written
by the constructor stays where it is, and frame chunks are added at the end. -/
theorem apply_ops_layout (heap : Nat → Nat → Nat) (ops : List Op) :
    ∀ (s s' : Session) (hdrl movi : List Nat), Layout s hdrl movi → s.offsets.isSome →
      apply_ops heap s ops = some s' →
      ∃ movi', Layout s' hdrl movi' ∧ s'.offsets.isSome ∧ ∃ z, movi' = movi ++ z := by
  induction ops with
  | nil =>
    intro s s' hdrl movi h ht hs
    simp only [apply_ops, Option.some.injEq] at hs
    subst hs
    exact ⟨movi, h, ht, [], by simp⟩
  | cons op ops ih =>
    intro s s' hdrl movi h ht hs
    simp only [apply_ops] at hs
    cases h1 : apply_op heap s op with
    | none => rw [h1] at hs; exact absurd hs (by simp)
    | some s1 =>
      rw [h1, Option.some_bind] at hs
      obtain ⟨m1, g1, g2, z1, e1⟩ := apply_op_layout heap s s1 op hdrl movi h ht h1
      obtain ⟨m2, g3, g4, z2, e2⟩ := ih s1 s' hdrl m1 g1 g2 hs
      exact ⟨m2, g3, g4, z1 ++ z2, by rw [e2, e1, List.append_assoc]⟩

/-- The header rewrite of `Finalize`: seek to 12, write the header list, seek
back.  Only the bytes of the old header list change. -/
theorem rewrite_header_step (s : Session) (P old rest : List Nat) (p t : Nat)
    (hP : P.length = 12) (hold : old.length = (hdrl_list s).length) :
    (write_avi_header_chunk
        { s with outFile := (OutFile.mk (P ++ old ++ rest) p).seekp 12 }).outFile.seekp t
      = { data := P ++ hdrl_list s ++ rest, pos := t } := by
  rw [write_avi_header_chunk_eq]
  have e : hdrl_list { s with outFile := (OutFile.mk (P ++ old ++ rest) p).seekp 12 }
      = hdrl_list s := rfl
  show (((OutFile.mk (P ++ old ++ rest) p).seekp 12).write
    (hdrl_list { s with outFile := (OutFile.mk (P ++ old ++ rest) p).seekp 12 })).seekp t = _
  rw [e]
  exact OutFile.overwrite _ P old (hdrl_list s) rest 12 t rfl hold hP.symm

/-! ## The store into the offset table -/

/-- The table that an appender leaves is the table at its store with the entry
written into slot `offsets_ptr`. -/
theorem call_store (heap : Nat → Nat → Nat) (s : Session) (c : Call) (b : Nat → Nat)
    (h : c.buffer = some b) :
    (call heap s c).2.offsets
        = (store_offset (at_store heap s c.audio) (Frame.entry ⟨c.audio, b, c.len⟩)).offsets
      ∧ (call heap s c).2.offsets_len = (at_store heap s c.audio).offsets_len
      ∧ (call heap s c).2.offsets_ptr = (at_store heap s c.audio).offsets_ptr + 1 := by
  unfold call at_store
  rw [h]
  cases c.audio
  · exact ⟨rfl, rfl, rfl⟩
  · exact ⟨rfl, rfl, rfl⟩

/-- At the store the cursor is below the capacity, and the table has as many
slots as the capacity says. -/
theorem at_store_in_bounds (heap : Nat → Nat → Nat) (s : Session) (audio : Bool)
    (h : TableOk s) :
    (at_store heap s audio).offsets_ptr = s.offsets_ptr
      ∧ (at_store heap s audio).offsets_ptr < (at_store heap s audio).offsets_len
      ∧ ((at_store heap s audio).offsets_len = s.offsets_len
          ∨ (at_store heap s audio).offsets_len = s.offsets_len + 1024)
      ∧ ∃ tbl, (at_store heap s audio).offsets = some tbl
          ∧ tbl.length = (at_store heap s audio).offsets_len := by
  obtain ⟨tbl, h1, h2, h3, h4⟩ := h
  unfold at_store grow_offsets
  cases audio
  · simp only [Bool.false_eq_true, if_false]
    split
    · exact ⟨rfl, by show s.offsets_ptr < s.offsets_len + 1024; omega, Or.inr rfl, _, rfl,
        new_array_length _ _⟩
    · exact ⟨rfl, by show s.offsets_ptr < s.offsets_len; omega, Or.inl rfl, tbl, h1, h2⟩
  · simp only [if_true]
    split
    · exact ⟨rfl, by show s.offsets_ptr < s.offsets_len + 1024; omega, Or.inr rfl, _, rfl,
        new_array_length _ _⟩
    · exact ⟨rfl, by show s.offsets_ptr < s.offsets_len; omega, Or.inl rfl, tbl, h1, h2⟩

/-! ## The appenders on a stream whose writes can throw -/

/-- When no write throws, the appenders with the `catch` path are the
appenders. -/
theorem AddVideoFrame_io_none (heap : Nat → Nat → Nat) (s : Session)
    (buffer : Option (Nat → Nat)) (len : Nat) :
    AddVideoFrame_io heap s buffer len none = AddVideoFrame heap s buffer len := by
  cases buffer <;> rfl

theorem AddAudioFrame_io_none (heap : Nat → Nat → Nat) (s : Session)
    (buffer : Option (Nat → Nat)) (len : Nat) :
    AddAudioFrame_io heap s buffer len none = AddAudioFrame heap s buffer len := by
  cases buffer <;> rfl

theorem io_call_null (heap : Nat → Nat → Nat) (s : Session) (c : IoCall)
    (h : c.buffer = none) : io_call heap s c = (-1, s) := by
  unfold io_call AddAudioFrame_io AddVideoFrame_io
  rw [h]
  split <;> rfl

/-- A call with a non-null buffer returns 0 exactly when no write throws; on
both paths the table is the table at the store with the entry written. -/
theorem io_call_some (heap : Nat → Nat → Nat) (s : Session) (c : IoCall) (b : Nat → Nat)
    (h : c.buffer = some b) :
    (io_call heap s c).1 = (if c.throws.isNone then 0 else -1)
      ∧ SameTable (io_call heap s c).2
          (store_offset (at_store heap s c.audio) (Frame.entry ⟨c.audio, b, c.len⟩)) := by
  unfold io_call at_store AddAudioFrame_io AddVideoFrame_io
  rw [h]
  cases c.audio <;> cases c.throws <;> exact ⟨rfl, rfl, rfl, rfl, rfl⟩

theorem add_frame_store (heap : Nat → Nat → Nat) (s : Session) (fr : Frame) :
    SameTable (add_frame heap s fr) (store_offset (at_store heap s fr.audio) fr.entry) := by
  obtain ⟨a, b, l⟩ := fr
  unfold add_frame at_store
  cases a <;> exact ⟨rfl, rfl, rfl, rfl⟩

theorem SameTable.symm {s t : Session} (h : SameTable s t) : SameTable t s :=
  ⟨h.1.symm, h.2.1.symm, h.2.2.1.symm, h.2.2.2.symm⟩

theorem SameTable.trans {s t u : Session} (h : SameTable s t) (g : SameTable t u) :
    SameTable s u :=
  ⟨h.1.trans g.1, h.2.1.trans g.2.1, h.2.2.1.trans g.2.2.1, h.2.2.2.trans g.2.2.2⟩

/-- The store depends on the table only. -/
theorem store_sameTable (heap : Nat → Nat → Nat) (s t : Session) (audio : Bool) (v : Nat)
    (h : SameTable s t) :
    SameTable (store_offset (at_store heap s audio) v) (store_offset (at_store heap t audio) v) := by
  obtain ⟨h1, h2, h3, h4⟩ := h
  unfold at_store grow_offsets store_offset SameTable
  cases audio
  · simp only [Bool.false_eq_true, if_false, h1, h2, h3, h4]
    split <;> exact ⟨rfl, rfl, rfl, rfl⟩
  · simp only [if_true, h1, h2, h3, h4]
    split <;> exact ⟨rfl, rfl, rfl, rfl⟩


/-- A sequence of calls leaves the table that appending the frames of the
calls with a non-null buffer leaves, whether their writes throw or not. -/
theorem io_calls_sameTable (heap : Nat → Nat → Nat) (cs : List IoCall) :
    ∀ s t : Session, SameTable s t →
      SameTable (io_calls heap s cs).2 (add_frames heap t (io_appended cs)) := by
  induction cs with
  | nil => intro s t h; exact h
  | cons c cs ih =>
    intro s t h
    cases hb : c.buffer with
    | none =>
      have e : io_appended (c :: cs) = io_appended cs := by
        simp only [io_appended, List.filterMap_cons, hb, Option.map_none']
      rw [e]
      show SameTable (io_calls heap (io_call heap s c).2 cs).2 _
      rw [io_call_null heap s c hb]
      exact ih s t h
    | some b =>
      have e : io_appended (c :: cs) = ⟨c.audio, b, c.len⟩ :: io_appended cs := by
        simp only [io_appended, List.filterMap_cons, hb, Option.map_some']
      rw [e, add_frames_cons]
      show SameTable (io_calls heap (io_call heap s c).2 cs).2 _
      apply ih
      exact ((io_call_some heap s c b hb).2.trans
        (store_sameTable heap s t c.audio _ h)).trans
        (add_frame_store heap t ⟨c.audio, b, c.len⟩).symm

/-- The return codes of a sequence of calls: 0 for a non-null buffer whose
writes do not throw, -1 otherwise. -/
theorem io_calls_codes (heap : Nat → Nat → Nat) (cs : List IoCall) :
    ∀ s : Session, (io_calls heap s cs).1
      = cs.map (fun c => if c.buffer.isSome && c.throws.isNone then (0 : Int) else -1) := by
  induction cs with
  | nil => intro s; rfl
  | cons c cs ih =>
    intro s
    show (io_call heap s c).1 :: (io_calls heap (io_call heap s c).2 cs).1 = _
    rw [ih, List.map_cons]
    congr 1
    cases hb : c.buffer with
    | none => rw [io_call_null heap s c hb]; rfl
    | some b =>
      rw [(io_call_some heap s c b hb).1]
      cases c.throws <;> rfl

theorem io_appended_length (cs : List IoCall) :
    (io_appended cs).length = (cs.filter (fun c => c.buffer.isSome)).length := by
  induction cs with
  | nil => rfl
  | cons c cs ih =>
    cases hb : c.buffer with
    | none =>
      simp only [io_appended, List.filterMap_cons, hb, Option.map_none', List.filter_cons,
        Option.isSome_none, Bool.false_eq_true, if_false]
      exact ih
    | some b =>
      simp only [io_appended, List.filterMap_cons, hb, Option.map_some', List.filter_cons,
        Option.isSome_some, if_true, List.length_cons]
      exact congrArg (· + 1) ih

/-- The calls with a non-null buffer are those that return 0 and those whose
write throws. -/
theorem count_io_codes (cs : List IoCall) :
    (cs.map (fun c => if c.buffer.isSome && c.throws.isNone then (0 : Int) else -1)).count 0
        + (cs.filter (fun c => c.buffer.isSome && c.throws.isSome)).length
      = (cs.filter (fun c => c.buffer.isSome)).length := by
  induction cs with
  | nil => rfl
  | cons c cs ih =>
    cases hb : c.buffer with
    | none =>
      simp only [List.map_cons, List.filter_cons, hb, Option.isSome_none, Bool.false_and,
        Bool.false_eq_true, if_false]
      rw [List.count_cons_of_ne (by decide)]
      exact ih
    | some b =>
      cases ht : c.throws with
      | none =>
        simp only [List.map_cons, List.filter_cons, hb, ht, Option.isSome_some,
          Option.isNone_none, Option.isSome_none, Bool.and_self, Bool.and_false,
          Bool.false_eq_true, if_true, if_false, List.length_cons]
        rw [List.count_cons_self]
        omega
      | some f =>
        simp only [List.map_cons, List.filter_cons, hb, ht, Option.isSome_some,
          Option.isNone_some, Bool.and_self, Bool.and_false, Bool.false_eq_true, if_true,
          if_false, List.length_cons]
        rw [List.count_cons_of_ne (by decide)]
        omega

theorem no_throw_filter (cs : List IoCall) (h : ∀ c ∈ cs, c.throws = none) :
    (cs.filter (fun c => c.buffer.isSome && c.throws.isSome)).length = 0 := by
  rw [List.length_eq_zero, List.filter_eq_nil_iff]
  intro c hc
  rw [h c hc]
  simp

theorem TableOk_of_sameTable (s t : Session) (h : SameTable s t) (ht : TableOk t) :
    TableOk s := by
  obtain ⟨h1, h2, h3, h4⟩ := h
  obtain ⟨tbl, t1, t2, t3, t4⟩ := ht
  exact ⟨tbl, by rw [h1, t1], by rw [h3, t2], by rw [h2, h4, t3], by rw [h4, h3]; exact t4⟩

/-- The store of an appender on a session in the state `TableOk`: the count
grows by one and the entry is in slot `offsets_ptr` afterwards. -/
theorem store_at_store (heap : Nat → Nat → Nat) (s : Session) (audio : Bool) (v : Nat)
    (h : TableOk s) :
    (store_offset (at_store heap s audio) v).offset_count = s.offset_count + 1
      ∧ ∃ tbl, (store_offset (at_store heap s audio) v).offsets = some tbl
          ∧ tbl[s.offsets_ptr]? = some v := by
  obtain ⟨a1, a2, -, tbl, a4, a5⟩ := at_store_in_bounds heap s audio h
  constructor
  · unfold at_store
    cases audio
    · exact (grow_offsets_fields heap _).2.2.2.2.1
    · exact (grow_offsets_fields heap _).2.2.2.2.1
  · refine ⟨tbl.set (at_store heap s audio).offsets_ptr v, by simp [store_offset, a4], ?_⟩
    rw [a1, List.getElem?_set]
    simp only [if_true]
    rw [if_pos (by rw [a5, ← a1]; exact a2)]

/-! ## Properties stated by the specification -/

/-! ### C1: what one append writes -/

/-- C1: for every session state and every non-null buffer of length `len` with
`len + 3 < 2 ^ 31`, `AddVideoFrame` returns 0 and writes at the write position
(appends, when the position is the end of the file) exactly `8 + len + pad`
bytes: the tag "00dc", the four-byte little-endian value `len + pad`, the
`len` payload bytes unchanged and in order, then `pad` zero bytes, where
`pad = (4 - len mod 4) mod 4`; `AddAudioFrame` does the same with the tag
"01wb". -/
theorem add_frame_writes_chunk (heap : Nat → Nat → Nat) (s : Session) (buffer : Nat → Nat)
    (len : Nat) (hlen : len + 3 < 2 ^ 31) :
    (AddVideoFrame heap s (some buffer) len).1 = 0
      ∧ WritesChunk s (AddVideoFrame heap s (some buffer) len).2 (chars "00dc") buffer len
      ∧ (AddAudioFrame heap s (some buffer) len).1 = 0
      ∧ WritesChunk s (AddAudioFrame heap s (some buffer) len).2 (chars "01wb") buffer len :=
  ⟨rfl, writesChunk_of_outFile _ _ _ _ _ rfl hlen (AddVideoFrame_outFile heap s buffer len),
   rfl, writesChunk_of_outFile _ _ _ _ _ rfl hlen (AddAudioFrame_outFile heap s buffer len)⟩

/-- Witness for C1: a five-byte buffer appended to the sample session. -/
theorem add_frame_writes_chunk_witness :
    5 + 3 < 2 ^ 31
      ∧ (AddVideoFrame zero_heap sample_session (some (fun i => i + 1)) 5).1 = 0
      ∧ WritesChunk sample_session
          (AddVideoFrame zero_heap sample_session (some (fun i => i + 1)) 5).2
          (chars "00dc") (fun i => i + 1) 5
      ∧ (AddAudioFrame zero_heap sample_session (some (fun i => i + 1)) 5).1 = 0
      ∧ WritesChunk sample_session
          (AddAudioFrame zero_heap sample_session (some (fun i => i + 1)) 5).2
          (chars "01wb") (fun i => i + 1) 5 :=
  ⟨by norm_num, add_frame_writes_chunk zero_heap sample_session (fun i => i + 1) 5 (by norm_num)⟩

/-! ### C2: the padding -/

/-- C2: for every payload length `len` the padding computed by the appenders
equals `(4 - len mod 4) mod 4`, is one of 0, 1, 2, 3, and `len + maxi_pad` is
the smallest multiple of 4 that is at least `len`.  This value, as a 32-bit
number, is what `AddVideoFrame` stores in the slot `offsets_ptr` of the offset
table, what `AddAudioFrame` stores there in the low 31 bits beside the audio
flag, and what both emit as the chunk length; it is `len + maxi_pad` itself
whenever `len + 3 < 2 ^ 31`. -/
theorem padding_rounds_up (len : Nat) :
    maxi_pad len = (4 - len % 4) % 4
      ∧ (maxi_pad len = 0 ∨ maxi_pad len = 1 ∨ maxi_pad len = 2 ∨ maxi_pad len = 3)
      ∧ (len + maxi_pad len) % 4 = 0
      ∧ len ≤ len + maxi_pad len
      ∧ (∀ m, m % 4 = 0 → len ≤ m → len + maxi_pad len ≤ m)
      ∧ (∀ (heap : Nat → Nat → Nat) (s : Session) (buffer : Nat → Nat) (tbl : List Nat),
          s.offsets = some tbl → tbl.length = s.offsets_len → s.offsets_ptr < s.offsets_len →
          (∃ tv, (AddVideoFrame heap s (some buffer) len).2.offsets = some tv
              ∧ tv[s.offsets_ptr]? = some ((len + maxi_pad len) % 2 ^ 32))
            ∧ (∃ ta e, (AddAudioFrame heap s (some buffer) len).2.offsets = some ta
              ∧ ta[s.offsets_ptr]? = some e
              ∧ e &&& 0x7fffffff = (len + maxi_pad len) % 2 ^ 31
              ∧ e &&& 0x80000000 = 0x80000000)
            ∧ (AddVideoFrame heap s (some buffer) len).2.outFile
                = s.outFile.write (chars "00dc" ++ int_buffer (len + maxi_pad len)
                    ++ buffer_bytes buffer len ++ List.replicate (maxi_pad len) 0)
            ∧ (AddAudioFrame heap s (some buffer) len).2.outFile
                = s.outFile.write (chars "01wb" ++ int_buffer (len + maxi_pad len)
                    ++ buffer_bytes buffer len ++ List.replicate (maxi_pad len) 0)
            ∧ le_decode (int_buffer (len + maxi_pad len)) = (len + maxi_pad len) % 2 ^ 32)
      ∧ (len + 3 < 2 ^ 31 → (len + maxi_pad len) % 2 ^ 32 = len + maxi_pad len
          ∧ (len + maxi_pad len) % 2 ^ 31 = len + maxi_pad len) := by
  have hp := maxi_pad_eq len
  have hlt := maxi_pad_lt len
  refine ⟨hp, by omega, by omega, by omega, fun m h1 h2 => by omega, ?_, ?_⟩
  · intro heap s buffer tbl h1 h2 h3
    refine ⟨?_, ?_, AddVideoFrame_outFile heap s buffer len,
      AddAudioFrame_outFile heap s buffer len, le_decode_int_buffer _⟩
    · obtain ⟨t1, e1, l1, p1⟩ := grow_offsets_table heap
        { s with
          offset_count := s.offset_count + 1
          stream_header_v := { s.stream_header_v with
            data_length := s.stream_header_v.data_length + 1 } } tbl h1 h2
      obtain ⟨t2, e2, g2⟩ := store_offset_slot _ ((len + maxi_pad len) % 2 ^ 32) t1 e1
        (by rw [p1]; exact Nat.lt_of_lt_of_le h3 l1)
      rw [p1] at g2
      exact ⟨t2, e2, g2⟩
    · obtain ⟨t1, e1, l1, p1⟩ := grow_offsets_table heap
        { s with offset_count := s.offset_count + 1 } tbl h1 h2
      obtain ⟨t2, e2, g2⟩ := store_offset_slot _
        (((len + maxi_pad len) ||| 0x80000000) % 2 ^ 32) t1 e1
        (by rw [p1]; exact Nat.lt_of_lt_of_le h3 l1)
      rw [p1] at g2
      exact ⟨t2, _, e2, g2, audio_entry_low _, audio_entry_high _⟩
  · intro h
    constructor <;> (apply Nat.mod_eq_of_lt; omega)

/-- Witness for C2: a five-byte buffer is recorded as 8 in slot 1 of the
sample session. -/
theorem padding_rounds_up_witness :
    (∃ tv, (AddVideoFrame zero_heap sample_session (some (fun i => i + 1)) 5).2.offsets = some tv
        ∧ tv[sample_session.offsets_ptr]? = some ((5 + maxi_pad 5) % 2 ^ 32))
      ∧ (5 + maxi_pad 5) % 2 ^ 32 = 5 + maxi_pad 5 :=
  ⟨((padding_rounds_up 5).2.2.2.2.2.1 zero_heap sample_session (fun i => i + 1) [8, 5, 6, 7]
      rfl rfl (by decide)).1,
   ((padding_rounds_up 5).2.2.2.2.2.2 (by norm_num)).1⟩

/-! ### C3: the index records -/

/-- C3 on 1024 frames: the growth step of the 1024th append replaces the
offset table by a new array, so Finalize writes the records of the first 1023
frames from whatever the allocator left in that array.  For 1024 audio frames
of 4 bytes appended to a session with audio, the first frame is in the file
as an "01wb" chunk of length 4 (at offset 326), but the first index record
(16 bytes after the 8-byte `idx1` prefix at offset 12614) is the record of the
uninitialised slot `heap 2048 0`; with zeroed memory it is tagged "00dc" with
length 0, whereas the frame it should describe gives "01wb" with length 4. -/
theorem index_record_lost_by_growth :
    (∀ heap : Nat → Nat → Nat,
      ∃ r, produce heap 64 64 (chars "XVID") 25 (some ⟨2, 16, 44100⟩)
            (List.replicate 1024 ⟨true, fun _ => 0, 4⟩) = some (0, r)
        ∧ read_bytes r.outFile.data 326 8 = chars "01wb" ++ [4, 0, 0, 0]
        ∧ read_bytes r.outFile.data 12614 4 = chars "idx1"
        ∧ read_bytes r.outFile.data (12614 + 8) 16 = index_record 4 (heap 2048 0 % 2 ^ 32))
      ∧ index_record 4 (zero_heap 2048 0 % 2 ^ 32)
          = chars "00dc" ++ [16, 0, 0, 0] ++ [4, 0, 0, 0] ++ [0, 0, 0, 0]
      ∧ index_record 4 (Frame.entry ⟨true, fun _ => 0, 4⟩)
          = chars "01wb" ++ [16, 0, 0, 0] ++ [4, 0, 0, 0] ++ [4, 0, 0, 0] := by
  refine ⟨fun heap => ?_, by decide, by decide⟩
  have hrep : List.replicate 1024 (⟨true, fun _ => 0, 4⟩ : Frame)
      = List.replicate 1023 ⟨true, fun _ => 0, 4⟩ ++ [⟨true, fun _ => 0, 4⟩] :=
    List.replicate_succ' 1023 _
  have hrep2 : List.replicate 1024 (⟨true, fun _ => 0, 4⟩ : Frame)
      = ⟨true, fun _ => 0, 4⟩ :: List.replicate 1023 ⟨true, fun _ => 0, 4⟩ :=
    List.replicate_succ _ 1023
  have hM : (movi_chunks (List.replicate 1023 (⟨true, fun _ => 0, 4⟩ : Frame)
      ++ [⟨true, fun _ => 0, 4⟩])).length = 12288 := by
    rw [movi_chunks_length, List.map_append, List.sum_append, List.map_replicate,
      List.sum_replicate]
    rfl
  obtain ⟨r, hp, h1, h2⟩ := first_record_after_growth heap 64 64 (chars "XVID") 25
    (some ⟨2, 16, 44100⟩) (List.replicate 1023 ⟨true, fun _ => 0, 4⟩) ⟨true, fun _ => 0, 4⟩
    12614 (by decide) (List.length_replicate _ _) (by rw [hM]; rfl)
  obtain ⟨r', hp', h3⟩ := first_chunk_of_file heap 64 64 (chars "XVID") 25
    (some ⟨2, 16, 44100⟩) ⟨true, fun _ => 0, 4⟩ (List.replicate 1023 ⟨true, fun _ => 0, 4⟩)
    (by decide)
  rw [← hrep] at hp
  rw [← hrep2, hp, Option.some.injEq, Prod.mk.injEq] at hp'
  rw [← hp'.2] at h3
  exact ⟨r, hp, h3, h1, h2⟩

/-! ### C4: the size of the movi list -/

/-- C4, as amended: for every sequence of appended frames followed by Finalize,
the size field backpatched into the movi list, the four bytes at the retained
marker, holds 4 plus the sum over the frames of `8 + padded length`, as a
32-bit value: the four bytes of the "movi" tag that follow the field are
counted.  It reads exactly `4 + sum` whenever that is below `2 ^ 32`. -/
theorem movi_size_counts_tag_and_chunks (heap : Nat → Nat → Nat) (width height : Nat)
    (fourcc : List Nat) (fps : Nat) (audio : Option gwavi_audio_t) (frs : List Frame)
    (hfps : 1 ≤ fps) :
    ∃ s r, Open heap width height fourcc fps audio = some s
      ∧ produce heap width height fourcc fps audio frs = some (0, r)
      ∧ r.marker = s.marker
      ∧ read_bytes r.outFile.data (r.marker - 4) 4 = chars "LIST"
      ∧ read_bytes r.outFile.data (r.marker + 4) 4 = chars "movi"
      ∧ read_int r.outFile.data r.marker
          = (4 + (frs.map (fun fr => 8 + (fr.len + maxi_pad fr.len))).sum) % 2 ^ 32
      ∧ (4 + (frs.map (fun fr => 8 + (fr.len + maxi_pad fr.len))).sum < 2 ^ 32 →
          read_int r.outFile.data r.marker
            = 4 + (frs.map (fun fr => 8 + (fr.len + maxi_pad fr.len))).sum) := by
  obtain ⟨s, tbl, ho, -, hp⟩ := produce_eq heap width height fourcc fps audio frs hfps
  obtain ⟨⟨-, -, -, hm⟩, -⟩ := Open_layout heap width height fourcc fps audio s ho
  have hm2 : (add_frames heap s frs).marker = s.marker := (add_frames_fields heap frs s).2.2.2.1
  have hl := final_hdrl_length heap s frs
  have hsum : (movi_chunks frs).length
      = (frs.map (fun fr => 8 + (fr.len + maxi_pad fr.len))).sum := movi_chunks_length frs
  have hsz : read_int (riff_file
        (24 + (hdrl_list s).length + (movi_chunks frs).length
          + (idx1_chunk (table_entries tbl frs.length)).length - 8)
        (hdrl_list (final_records (add_frames heap s frs)))
        (4 + (movi_chunks frs).length) (movi_chunks frs)
        (idx1_chunk (table_entries tbl frs.length))) s.marker
      = (4 + (frs.map (fun fr => 8 + (fr.len + maxi_pad fr.len))).sum) % 2 ^ 32 := by
    rw [hm, ← hl, read_movi_size, hsum]
  have htag := read_movi_tags
    (24 + (hdrl_list s).length + (movi_chunks frs).length
      + (idx1_chunk (table_entries tbl frs.length)).length - 8)
    (hdrl_list (final_records (add_frames heap s frs)))
    (4 + (movi_chunks frs).length) (movi_chunks frs)
    (idx1_chunk (table_entries tbl frs.length))
  rw [hl] at htag
  have hm3 : (add_frames heap s frs).marker = 16 + (hdrl_list s).length := hm2.trans hm
  refine ⟨s, _, ho, hp, hm2, ?_, ?_, ?_, fun hlt => ?_⟩
  · refine (congrArg (fun k => read_bytes _ (k - 4) 4) hm3).trans ?_
    exact (congrArg (fun k => read_bytes _ k 4)
      (show 16 + (hdrl_list s).length - 4 = 12 + (hdrl_list s).length by omega)).trans htag.1
  · refine (congrArg (fun k => read_bytes _ (k + 4) 4) hm3).trans ?_
    exact (congrArg (fun k => read_bytes _ k 4)
      (show 16 + (hdrl_list s).length + 4 = 20 + (hdrl_list s).length by omega)).trans htag.2
  · exact (congrArg (read_int _) hm2).trans hsz
  · exact ((congrArg (read_int _) hm2).trans hsz).trans (Nat.mod_eq_of_lt hlt)

/-- Witness for C4: the scenario of the specification, two video frames of 100
and 101 bytes. -/
theorem movi_size_counts_tag_and_chunks_witness :
    1 ≤ 25 ∧ ∃ s r, Open zero_heap 64 64 (chars "XVID") 25 none = some s
      ∧ produce zero_heap 64 64 (chars "XVID") 25 none
          [⟨false, fun _ => 0, 100⟩, ⟨false, fun _ => 0, 101⟩] = some (0, r)
      ∧ r.marker = s.marker
      ∧ read_bytes r.outFile.data (r.marker - 4) 4 = chars "LIST"
      ∧ read_bytes r.outFile.data (r.marker + 4) 4 = chars "movi"
      ∧ read_int r.outFile.data r.marker
          = (4 + (([⟨false, fun _ => 0, 100⟩, ⟨false, fun _ => 0, 101⟩] : List Frame).map
              (fun fr => 8 + (fr.len + maxi_pad fr.len))).sum) % 2 ^ 32
      ∧ (4 + (([⟨false, fun _ => 0, 100⟩, ⟨false, fun _ => 0, 101⟩] : List Frame).map
              (fun fr => 8 + (fr.len + maxi_pad fr.len))).sum < 2 ^ 32 →
          read_int r.outFile.data r.marker
            = 4 + (([⟨false, fun _ => 0, 100⟩, ⟨false, fun _ => 0, 101⟩] : List Frame).map
              (fun fr => 8 + (fr.len + maxi_pad fr.len))).sum) :=
  ⟨by decide, movi_size_counts_tag_and_chunks zero_heap 64 64 (chars "XVID") 25 none
    [⟨false, fun _ => 0, 100⟩, ⟨false, fun _ => 0, 101⟩] (by decide)⟩

set_option maxRecDepth 100000 in
/-- C4 fails as stated: with no frame appended the sum is 0, and the field at
the marker of the finished file reads 4. -/
theorem movi_size_of_no_frames :
    (produce zero_heap 64 64 (chars "XVID") 25 none []).map
        (fun r => read_int r.2.outFile.data r.2.marker) = some 4
      ∧ (([] : List Frame).map (fun fr => 8 + (fr.len + maxi_pad fr.len))).sum = 0 := by
  decide

/-! ### C5: the outer RIFF size -/

/-- C5: for every Open (with `fps ≥ 1`, so that it succeeds) followed by any
sequence of appended frames and one Finalize, the call sequence returns 0 and
the four-byte little-endian field at offset 4 of the finished file holds the
number of bytes of the file minus 8, as a 32-bit value: it reads exactly
`length - 8` for every file whose `length - 8` is below `2 ^ 32`. -/
theorem riff_size_is_file_length (heap : Nat → Nat → Nat) (width height : Nat)
    (fourcc : List Nat) (fps : Nat) (audio : Option gwavi_audio_t) (frs : List Frame)
    (hfps : 1 ≤ fps) :
    ∃ r, produce heap width height fourcc fps audio frs = some (0, r)
      ∧ read_bytes r.outFile.data 0 4 = chars "RIFF"
      ∧ read_int r.outFile.data 4 = (r.outFile.data.length - 8) % 2 ^ 32
      ∧ (r.outFile.data.length - 8 < 2 ^ 32 →
          read_int r.outFile.data 4 = r.outFile.data.length - 8)
      ∧ 8 ≤ r.outFile.data.length := by
  obtain ⟨s, tbl, -, -, hp⟩ := produce_eq heap width height fourcc fps audio frs hfps
  have hsz : read_int (riff_file
        (24 + (hdrl_list s).length + (movi_chunks frs).length
          + (idx1_chunk (table_entries tbl frs.length)).length - 8)
        (hdrl_list (final_records (add_frames heap s frs)))
        (4 + (movi_chunks frs).length) (movi_chunks frs)
        (idx1_chunk (table_entries tbl frs.length))) 4
      = ((riff_file
        (24 + (hdrl_list s).length + (movi_chunks frs).length
          + (idx1_chunk (table_entries tbl frs.length)).length - 8)
        (hdrl_list (final_records (add_frames heap s frs)))
        (4 + (movi_chunks frs).length) (movi_chunks frs)
        (idx1_chunk (table_entries tbl frs.length))).length - 8) % 2 ^ 32 := by
    rw [read_riff_size, riff_file_length, final_hdrl_length]
  refine ⟨_, hp, read_bytes_head (chars "RIFF") _, hsz, fun hlt => ?_, ?_⟩
  · exact hsz.trans (Nat.mod_eq_of_lt hlt)
  · show 8 ≤ (riff_file _ _ _ _ _).length
    rw [riff_file_length]
    omega

/-- Witness for C5: the scenario of the specification, a 64 x 64 XVID file at
25 fps with frames of 100 and 101 bytes; the file has 484 bytes and the field
reads 476. -/
theorem riff_size_is_file_length_witness :
    1 ≤ 25 ∧ ∃ r, produce zero_heap 64 64 (chars "XVID") 25 none
        [⟨false, fun _ => 0, 100⟩, ⟨false, fun _ => 0, 101⟩] = some (0, r)
      ∧ read_bytes r.outFile.data 0 4 = chars "RIFF"
      ∧ read_int r.outFile.data 4 = (r.outFile.data.length - 8) % 2 ^ 32
      ∧ (r.outFile.data.length - 8 < 2 ^ 32 →
          read_int r.outFile.data 4 = r.outFile.data.length - 8)
      ∧ 8 ≤ r.outFile.data.length :=
  ⟨by decide, riff_size_is_file_length zero_heap 64 64 (chars "XVID") 25 none
    [⟨false, fun _ => 0, 100⟩, ⟨false, fun _ => 0, 101⟩] (by decide)⟩

/-! ### C6: the size of the avih chunk -/

/-- C6: for every state of the stream and every value of the container header
(so for every width, height, codec tag and frame rate, and whatever the
fields hold later), `write_avi_header` writes the tag "avih", a size field
holding 56, and then exactly 56 bytes of payload, the fourteen 4-byte
integers of the header. -/
theorem avih_size_is_payload_length (f : OutFile) (h : gwavi_header_t) :
    write_avi_header f h = f.write (chars "avih" ++ [56, 0, 0, 0] ++ avih_payload h)
      ∧ le_decode [56, 0, 0, 0] = (avih_payload h).length
      ∧ (avih_payload h).length = 56
      ∧ (avih_payload h).length = 14 * 4
      ∧ (write_avi_header f h).pos = f.pos + 8 + (avih_payload h).length := by
  have hl : (avih_payload h).length = 56 := by
    simp [avih_payload, int_buffer_length]
  refine ⟨write_avi_header_eq f h, ?_, hl, by rw [hl], ?_⟩
  · rw [hl]; rfl
  · rw [write_avi_header_eq, OutFile.write_pos, avih_chunk_length, hl]

/-! ### C7: round trip -/

/-- C7, as amended: round trip.  For every Open with `fps ≥ 1` (width and
height being `unsigned int` values), every sequence of appended frames whose
chunks fit the 32-bit size fields and one Finalize, reading the produced file
at the documented layout recovers the width and the height given, the frame
interval `1000000 / fps`, the four codec-tag bytes, and, walking the chunks of
the movi list, for each frame a chunk length equal to the padded length
`len + pad` of its buffer: the buffer length rounded up to a multiple of 4,
which is the buffer length itself only when that is a multiple of 4. -/
theorem round_trip (heap : Nat → Nat → Nat) (width height : Nat) (fourcc : List Nat)
    (fps : Nat) (audio : Option gwavi_audio_t) (frs : List Frame) (hfps : 1 ≤ fps)
    (hw : width < 2 ^ 32) (hh : height < 2 ^ 32)
    (hfit : ∀ fr ∈ frs, fr.len + maxi_pad fr.len < 2 ^ 32)
    (hsize : 4 + (frs.map (fun fr => 8 + (fr.len + maxi_pad fr.len))).sum < 2 ^ 32) :
    ∃ r, produce heap width height fourcc fps audio frs = some (0, r)
      ∧ read_int r.outFile.data 64 = width
      ∧ read_int r.outFile.data 68 = height
      ∧ read_int r.outFile.data 32 = 1000000 / fps
      ∧ read_bytes r.outFile.data 112 4 = (List.range 4).map (charAt fourcc)
      ∧ (fourcc.length = 4 → read_bytes r.outFile.data 112 4 = fourcc)
      ∧ read_frame_sizes r.outFile.data = frs.map (fun fr => fr.len + maxi_pad fr.len)
      ∧ (∀ fr ∈ frs, fr.len ≤ fr.len + maxi_pad fr.len
          ∧ (fr.len + maxi_pad fr.len) % 4 = 0
          ∧ (fr.len + maxi_pad fr.len = fr.len ↔ fr.len % 4 = 0)) := by
  obtain ⟨s, tbl, ho, -, hp⟩ := produce_eq heap width height fourcc fps audio frs hfps
  obtain ⟨-, -, -, -, -, -, ha, hv, hf, -, -⟩ :=
    Open_layout heap width height fourcc fps audio s ho
  obtain ⟨fa, ff, -, -, -, -, fv, -⟩ := add_frames_fields heap frs s
  have hrd := read_header_fields
    (24 + (hdrl_list s).length + (movi_chunks frs).length
      + (idx1_chunk (table_entries tbl frs.length)).length - 8)
    (final_records (add_frames heap s frs)) (4 + (movi_chunks frs).length) (movi_chunks frs)
    (idx1_chunk (table_entries tbl frs.length))
  have hwd : (final_records (add_frames heap s frs)).avi_header.width = width := by
    show (add_frames heap s frs).avi_header.width = width
    rw [fa, ha]; rfl
  have hht : (final_records (add_frames heap s frs)).avi_header.height = height := by
    show (add_frames heap s frs).avi_header.height = height
    rw [fa, ha]; rfl
  have htd : (final_records (add_frames heap s frs)).avi_header.time_delay = 1000000 / fps := by
    show (add_frames heap s frs).avi_header.time_delay = 1000000 / fps
    rw [fa, ha]; rfl
  have hcd : (final_records (add_frames heap s frs)).stream_header_v.codec
      = (List.range 4).map (charAt fourcc) := by
    show (add_frames heap s frs).stream_header_v.codec = _
    rw [fv, hv]; rfl
  have hcodec : read_bytes (riff_file
      (24 + (hdrl_list s).length + (movi_chunks frs).length
        + (idx1_chunk (table_entries tbl frs.length)).length - 8)
      (hdrl_list (final_records (add_frames heap s frs)))
      (4 + (movi_chunks frs).length) (movi_chunks frs)
      (idx1_chunk (table_entries tbl frs.length))) 112 4 = (List.range 4).map (charAt fourcc) := by
    rw [hrd.2.2.2.2.2, hcd]
    simp [charAt, List.range_succ]
  have hlen : ((hdrl_list (final_records (add_frames heap s frs))).length) < 2 ^ 32 := by
    rw [final_hdrl_length, hdrl_list_length, hf]
    have : (init_session width height fourcc fps audio).stream_format_v.colors_used = 0 := rfl
    rw [this]
    split <;> omega
  have hfit' : ∀ fr ∈ frs, fr.padded < 2 ^ 32 := hfit
  have hsize' : 4 + (movi_chunks frs).length < 2 ^ 32 := by
    rw [movi_chunks_length]; exact hsize
  have hdiv : 1000000 / fps < 2 ^ 32 :=
    Nat.lt_of_le_of_lt (Nat.div_le_self _ _) (by norm_num)
  refine ⟨_, hp, ?_, ?_, ?_, hcodec, fun h4 => ?_, ?_, fun fr _ => ?_⟩
  · exact hrd.2.2.2.1.trans (by rw [hwd, Nat.mod_eq_of_lt hw])
  · exact hrd.2.2.2.2.1.trans (by rw [hht, Nat.mod_eq_of_lt hh])
  · exact hrd.2.1.trans (by rw [htd, Nat.mod_eq_of_lt hdiv])
  · exact hcodec.trans (map_charAt_four fourcc h4)
  · exact read_frame_sizes_riff _ _ frs _ hlen hfit' hsize'
  · have := maxi_pad_eq fr.len
    omega

/-- Witness for C7: a stereo 16-bit session and the sample interleaving. -/
theorem round_trip_witness :
    1 ≤ 25 ∧ 64 < 2 ^ 32
      ∧ (∀ fr ∈ sample_frames, fr.len + maxi_pad fr.len < 2 ^ 32)
      ∧ 4 + (sample_frames.map (fun fr => 8 + (fr.len + maxi_pad fr.len))).sum < 2 ^ 32
      ∧ ∃ r, produce zero_heap 64 64 (chars "XVID") 25 (some ⟨2, 16, 44100⟩) sample_frames
            = some (0, r)
        ∧ read_int r.outFile.data 64 = 64
        ∧ read_int r.outFile.data 68 = 64
        ∧ read_int r.outFile.data 32 = 1000000 / 25
        ∧ read_bytes r.outFile.data 112 4 = (List.range 4).map (charAt (chars "XVID"))
        ∧ ((chars "XVID").length = 4 → read_bytes r.outFile.data 112 4 = chars "XVID")
        ∧ read_frame_sizes r.outFile.data
            = sample_frames.map (fun fr => fr.len + maxi_pad fr.len)
        ∧ (∀ fr ∈ sample_frames, fr.len ≤ fr.len + maxi_pad fr.len
            ∧ (fr.len + maxi_pad fr.len) % 4 = 0
            ∧ (fr.len + maxi_pad fr.len = fr.len ↔ fr.len % 4 = 0)) :=
  ⟨by decide, by decide, by decide, by decide,
    round_trip zero_heap 64 64 (chars "XVID") 25 (some ⟨2, 16, 44100⟩) sample_frames
      (by decide) (by decide) (by decide) (by decide) (by decide)⟩

set_option maxRecDepth 100000 in
/-- C7 fails as stated: a video frame whose buffer has 1 byte is read back
from the finished file with the chunk length 4. -/
theorem frame_length_read_back_padded :
    (produce zero_heap 64 64 (chars "XVID") 25 none [⟨false, fun _ => 7, 1⟩]).map
        (fun r => read_frame_sizes r.2.outFile.data) = some [4]
      ∧ ([⟨false, fun _ => 7, 1⟩] : List Frame).map (fun fr => fr.len) = [1] := by
  decide

/-! ### C8: a null buffer -/

/-- C8: for every session state and every `len`, a call with a null buffer
returns -1 and leaves the whole session as it was: no byte is written, and the
write position, the offset table, `offset_count`, `offsets_ptr` and both
stream headers are unchanged. -/
theorem null_buffer_rejected (heap : Nat → Nat → Nat) (s : Session) (len : Nat) :
    (AddVideoFrame heap s none len).1 = -1 ∧ (AddVideoFrame heap s none len).2 = s
      ∧ (AddAudioFrame heap s none len).1 = -1 ∧ (AddAudioFrame heap s none len).2 = s :=
  ⟨rfl, rfl, rfl, rfl⟩

/-! ### C9: an empty buffer -/

/-- C9, as amended: a non-null buffer of length 0 is accepted.  Both appenders
return 0, write the eight bytes of an empty chunk (the tag and a zero length
field) at the write position, and count the frame: `offset_count` and
`offsets_ptr` grow by one, `AddVideoFrame` adds one to the video frame count,
and the audio byte length gains nothing. -/
theorem empty_buffer_accepted (heap : Nat → Nat → Nat) (s : Session) (buffer : Nat → Nat) :
    (AddVideoFrame heap s (some buffer) 0).1 = 0
      ∧ (AddVideoFrame heap s (some buffer) 0).2.outFile
          = s.outFile.write (chars "00dc" ++ [0, 0, 0, 0])
      ∧ (AddVideoFrame heap s (some buffer) 0).2.offset_count = s.offset_count + 1
      ∧ (AddVideoFrame heap s (some buffer) 0).2.offsets_ptr = s.offsets_ptr + 1
      ∧ (AddVideoFrame heap s (some buffer) 0).2.stream_header_v.data_length
          = s.stream_header_v.data_length + 1
      ∧ (AddAudioFrame heap s (some buffer) 0).1 = 0
      ∧ (AddAudioFrame heap s (some buffer) 0).2.outFile
          = s.outFile.write (chars "01wb" ++ [0, 0, 0, 0])
      ∧ (AddAudioFrame heap s (some buffer) 0).2.offset_count = s.offset_count + 1
      ∧ (AddAudioFrame heap s (some buffer) 0).2.offsets_ptr = s.offsets_ptr + 1
      ∧ (AddAudioFrame heap s (some buffer) 0).2.stream_header_a.data_length
          = s.stream_header_a.data_length := by
  have hv := AddVideoFrame_outFile heap s buffer 0
  have ha := AddAudioFrame_outFile heap s buffer 0
  have e : ∀ tag : List Nat, frame_chunk tag buffer 0 = tag ++ [0, 0, 0, 0] := by
    intro tag; simp [frame_chunk, maxi_pad, buffer_bytes, int_buffer]
  rw [e] at hv ha
  refine ⟨rfl, hv, ?_, ?_, ?_, rfl, ha, ?_, ?_, ?_⟩
  · simp only [AddVideoFrame, store_offset, grow_offsets]; split <;> rfl
  · simp only [AddVideoFrame, store_offset, grow_offsets]; split <;> rfl
  · simp only [AddVideoFrame, store_offset, grow_offsets]; split <;> rfl
  · simp only [AddAudioFrame, store_offset, grow_offsets]; split <;> rfl
  · simp only [AddAudioFrame, store_offset, grow_offsets]; split <;> rfl
  · simp only [AddAudioFrame, store_offset, grow_offsets]; split <;> simp [maxi_pad]

/-- C9 fails as stated: on the sample session an empty non-null buffer makes
both appenders return 0, not -1, and the file grows by eight bytes. -/
theorem empty_buffer_not_rejected :
    (AddVideoFrame zero_heap sample_session (some (fun _ => 0)) 0).1 ≠ -1
      ∧ (AddVideoFrame zero_heap sample_session (some (fun _ => 0)) 0).2.outFile.data
          = sample_session.outFile.data ++ [48, 48, 100, 99, 0, 0, 0, 0]
      ∧ (AddVideoFrame zero_heap sample_session (some (fun _ => 0)) 0).2.offsets
          ≠ sample_session.offsets
      ∧ (AddVideoFrame zero_heap sample_session (some (fun _ => 0)) 0).2.stream_header_v.data_length
          ≠ sample_session.stream_header_v.data_length
      ∧ (AddAudioFrame zero_heap sample_session (some (fun _ => 0)) 0).1 ≠ -1
      ∧ (AddAudioFrame zero_heap sample_session (some (fun _ => 0)) 0).2.outFile.data
          = sample_session.outFile.data ++ [48, 49, 119, 98, 0, 0, 0, 0]
      ∧ (AddAudioFrame zero_heap sample_session (some (fun _ => 0)) 0).2.offsets
          ≠ sample_session.offsets := by
  decide

/-! ### C10: the stream counts -/

/-- C10: after Open and any sequence of appends, the video stream header's
accumulated frame count is the number of `AddVideoFrame` calls and the audio
stream header's accumulated byte length is the sum of `len + pad` over the
`AddAudioFrame` calls (for audio buffers whose padded length fits the 32-bit
cast); Finalize then returns 0 and sets the container header's frame count to
the number of video frames.  Each `AddVideoFrame` adds exactly 1 and leaves
the audio byte length unchanged; each `AddAudioFrame` adds `len + pad` as a
32-bit value and leaves the video frame count unchanged. -/
theorem stream_counts (heap : Nat → Nat → Nat) (width height : Nat) (fourcc : List Nat)
    (fps : Nat) (audio : Option gwavi_audio_t) (frs : List Frame) (hfps : 1 ≤ fps)
    (hfit : ∀ fr ∈ frs, fr.audio = true → fr.len + maxi_pad fr.len < 2 ^ 32) :
    (∃ s r, Open heap width height fourcc fps audio = some s
      ∧ s.stream_header_v.data_length = 0 ∧ s.stream_header_a.data_length = 0
      ∧ (add_frames heap s frs).stream_header_v.data_length
          = (frs.filter (fun fr => !fr.audio)).length
      ∧ (add_frames heap s frs).stream_header_a.data_length
          = ((frs.filter (fun fr => fr.audio)).map (fun fr => fr.len + maxi_pad fr.len)).sum
      ∧ Finalize (add_frames heap s frs) = some (0, r)
      ∧ r.avi_header.number_of_frames = (frs.filter (fun fr => !fr.audio)).length)
    ∧ (∀ (t : Session) (buffer : Nat → Nat) (len : Nat),
        (AddVideoFrame heap t (some buffer) len).2.stream_header_v.data_length
            = t.stream_header_v.data_length + 1
          ∧ (AddVideoFrame heap t (some buffer) len).2.stream_header_a.data_length
            = t.stream_header_a.data_length
          ∧ (AddAudioFrame heap t (some buffer) len).2.stream_header_a.data_length
            = t.stream_header_a.data_length + (len + maxi_pad len) % 2 ^ 32
          ∧ (AddAudioFrame heap t (some buffer) len).2.stream_header_v.data_length
            = t.stream_header_v.data_length) := by
  constructor
  · obtain ⟨s, tbl, ho, -, hp⟩ := produce_eq heap width height fourcc fps audio frs hfps
    obtain ⟨-, -, -, -, -, -, -, hv, -, ha, -⟩ :=
      Open_layout heap width height fourcc fps audio s ho
    have hv0 : s.stream_header_v.data_length = 0 := by rw [hv]; rfl
    have ha0 : s.stream_header_a.data_length = 0 := by rw [ha]; cases audio <;> rfl
    obtain ⟨-, -, -, -, -, -, fv, fa⟩ := add_frames_fields heap frs s
    have hsum : ((frs.filter (fun fr => fr.audio)).map (fun fr => fr.padded % 2 ^ 32)).sum
        = ((frs.filter (fun fr => fr.audio)).map (fun fr => fr.len + maxi_pad fr.len)).sum := by
      congr 1
      apply List.map_congr_left
      intro fr hfr
      rw [List.mem_filter] at hfr
      exact Nat.mod_eq_of_lt (hfit fr hfr.1 hfr.2)
    have e1 : (add_frames heap s frs).stream_header_v.data_length
        = (frs.filter (fun fr => !fr.audio)).length := by
      rw [fv, hv0, Nat.zero_add]
    have e2 : (add_frames heap s frs).stream_header_a.data_length
        = ((frs.filter (fun fr => fr.audio)).map (fun fr => fr.len + maxi_pad fr.len)).sum := by
      rw [fa, ha0, Nat.zero_add, hsum]
    rw [produce, ho] at hp
    exact ⟨s, _, ho, hv0, ha0, e1, e2, hp, (Finalize_frame_count _ _ hp).2.trans e1⟩
  · intro t buffer len
    have hvid := add_frame_fields heap t ⟨false, buffer, len⟩
    have haud := add_frame_fields heap t ⟨true, buffer, len⟩
    refine ⟨?_, ?_, ?_, ?_⟩
    · exact congrArg gwavi_stream_header_t.data_length hvid.2.2.2.2.2.2.1
    · exact congrArg gwavi_stream_header_t.data_length hvid.2.2.2.2.2.2.2
    · exact congrArg gwavi_stream_header_t.data_length haud.2.2.2.2.2.2.2
    · exact congrArg gwavi_stream_header_t.data_length haud.2.2.2.2.2.2.1

/-- Witness for C10: a stereo 16-bit session and the sample interleaving. -/
theorem stream_counts_witness :
    1 ≤ 25
      ∧ (∀ fr ∈ sample_frames, fr.audio = true → fr.len + maxi_pad fr.len < 2 ^ 32)
      ∧ ∃ s r, Open zero_heap 64 64 (chars "XVID") 25 (some ⟨2, 16, 44100⟩) = some s
        ∧ s.stream_header_v.data_length = 0 ∧ s.stream_header_a.data_length = 0
        ∧ (add_frames zero_heap s sample_frames).stream_header_v.data_length
            = (sample_frames.filter (fun fr => !fr.audio)).length
        ∧ (add_frames zero_heap s sample_frames).stream_header_a.data_length
            = ((sample_frames.filter (fun fr => fr.audio)).map
                (fun fr => fr.len + maxi_pad fr.len)).sum
        ∧ Finalize (add_frames zero_heap s sample_frames) = some (0, r)
        ∧ r.avi_header.number_of_frames = (sample_frames.filter (fun fr => !fr.audio)).length :=
  ⟨by decide, by decide,
    (stream_counts zero_heap 64 64 (chars "XVID") 25 (some ⟨2, 16, 44100⟩) sample_frames
      (by decide) (by decide)).1⟩

/-! ### C11: the count of the offset table -/

/-- C11, as the code has it: for every session that the constructor returns
and every sequence of `AddVideoFrame` / `AddAudioFrame` calls, with null
buffers and with stream writes that throw: a call returns 0 when its buffer is
non-null and none of its writes throws, and -1 otherwise; `offset_count`, and
with it the cursor `offsets_ptr`, equals the number of calls with a non-null
buffer, which is the number of calls that returned 0 plus the number of calls
that returned -1 because a write threw; so it equals the number of calls that
returned 0 when no write threw.  A further call with a null buffer returns -1
and changes nothing; a further call with a non-null buffer adds one to
`offset_count`, whether its writes throw or not, and records in slot
`offsets_ptr` an entry whose low 31 bits are a multiple of 4; and as long as
`offset_count` is below 1024, every slot below it holds an entry whose low 31
bits are a multiple of 4. -/
theorem offset_count_counts_nonnull_calls (heap : Nat → Nat → Nat) (width height : Nat)
    (fourcc : List Nat) (fps : Nat) (audio : Option gwavi_audio_t) (s : Session)
    (ho : Open heap width height fourcc fps audio = some s) (cs : List IoCall) :
    (io_calls heap s cs).1
        = cs.map (fun c => if c.buffer.isSome && c.throws.isNone then (0 : Int) else -1)
      ∧ (io_calls heap s cs).2.offset_count = (cs.filter (fun c => c.buffer.isSome)).length
      ∧ (io_calls heap s cs).2.offset_count
          = (io_calls heap s cs).1.count 0
            + (cs.filter (fun c => c.buffer.isSome && c.throws.isSome)).length
      ∧ ((∀ c ∈ cs, c.throws = none) →
          (io_calls heap s cs).2.offset_count = (io_calls heap s cs).1.count 0)
      ∧ (io_calls heap s cs).2.offsets_ptr = (io_calls heap s cs).2.offset_count
      ∧ (∀ c : IoCall, c.buffer = none →
          io_call heap (io_calls heap s cs).2 c = (-1, (io_calls heap s cs).2))
      ∧ (∀ c : IoCall, c.buffer.isSome →
          (io_call heap (io_calls heap s cs).2 c).1 = (if c.throws.isNone then 0 else -1)
            ∧ (io_call heap (io_calls heap s cs).2 c).2.offset_count
                = (io_calls heap s cs).2.offset_count + 1
            ∧ ∃ tbl e, (io_call heap (io_calls heap s cs).2 c).2.offsets = some tbl
                ∧ tbl[(io_calls heap s cs).2.offsets_ptr]? = some e
                ∧ (e &&& 0x7fffffff) % 4 = 0)
      ∧ ((io_calls heap s cs).2.offset_count < 1024 →
          ∃ tbl, (io_calls heap s cs).2.offsets = some tbl
            ∧ ∀ i, i < (io_calls heap s cs).2.offset_count →
                (tbl.getD i 0 &&& 0x7fffffff) % 4 = 0) := by
  have e1 := io_calls_codes heap cs s
  obtain ⟨g1, g2, g3, g4⟩ := io_calls_sameTable heap cs s s ⟨rfl, rfl, rfl, rfl⟩
  obtain ⟨-, -, -, -, hp, hc, -⟩ := Open_layout heap width height fourcc fps audio s ho
  obtain ⟨-, -, -, -, fc, fp, -⟩ := add_frames_fields heap (io_appended cs) s
  have hok : TableOk (io_calls heap s cs).2 :=
    TableOk_of_sameTable _ _ ⟨g1, g2, g3, g4⟩
      (add_frames_tableOk heap _ s (Open_tableOk heap width height fourcc fps audio s ho))
  have hcount : (io_calls heap s cs).2.offset_count = (io_appended cs).length := by
    rw [g4, fc, hc, Nat.zero_add]
  have hsum := count_io_codes cs
  refine ⟨e1, ?_, ?_, ?_, ?_, ?_, ?_, ?_⟩
  · rw [hcount, io_appended_length]
  · rw [hcount, io_appended_length, e1, hsum]
  · intro hno
    rw [hcount, io_appended_length, e1, ← hsum, no_throw_filter cs hno, Nat.add_zero]
  · rw [g2, g4, fc, fp, hp, hc]
  · intro c hn
    exact io_call_null heap _ c hn
  · intro c hsome
    obtain ⟨b, hb⟩ := Option.isSome_iff_exists.mp hsome
    obtain ⟨r1, r2, -, -, r5⟩ := io_call_some heap (io_calls heap s cs).2 c b hb
    obtain ⟨t1, tbl, t2, t3⟩ := store_at_store heap (io_calls heap s cs).2 c.audio
      (Frame.entry ⟨c.audio, b, c.len⟩) hok
    exact ⟨r1, by rw [r5, t1], tbl, _, by rw [r2, t2], t3, (entry_low_bits _).2⟩
  · intro hlt
    rw [hcount] at hlt
    obtain ⟨tbl, q1, -, q3⟩ :=
      table_below_capacity heap width height fourcc fps audio s (io_appended cs) ho hlt
    refine ⟨tbl, by rw [g1]; exact q1, ?_⟩
    intro i hi
    rw [hcount] at hi
    have h1 : (table_entries tbl (io_appended cs).length).getD i 0 = tbl.getD i 0 := by
      simp [table_entries, List.getD_eq_getElem?_getD, List.getElem?_map,
        List.getElem?_range hi]
    rw [← h1, q3, List.getD_eq_getElem?_getD, List.getElem?_map,
      List.getElem?_eq_getElem hi]
    exact (entry_low_bits _).2

/-- Witness for C11: a video frame, a call with a null buffer and an audio
frame on a fresh session, no write throwing: the codes are 0, -1, 0 and
`offset_count` is 2. -/
theorem offset_count_counts_nonnull_calls_witness :
    ∃ s, Open zero_heap 64 64 (chars "XVID") 25 none = some s
      ∧ (io_calls zero_heap s [⟨false, some (fun _ => 7), 5, none⟩, ⟨false, none, 5, none⟩,
            ⟨true, some (fun _ => 1), 3, none⟩]).1 = [0, -1, 0]
      ∧ (io_calls zero_heap s [⟨false, some (fun _ => 7), 5, none⟩, ⟨false, none, 5, none⟩,
            ⟨true, some (fun _ => 1), 3, none⟩]).2.offset_count = 2 := by
  obtain ⟨s, ho⟩ : ∃ s, Open zero_heap 64 64 (chars "XVID") 25 none = some s :=
    ⟨_, Open_eq zero_heap 64 64 (chars "XVID") 25 none (by decide)⟩
  obtain ⟨h1, -, -, h4, -⟩ := offset_count_counts_nonnull_calls zero_heap 64 64 (chars "XVID")
    25 none s ho
    [⟨false, some (fun _ => 7), 5, none⟩, ⟨false, none, 5, none⟩,
      ⟨true, some (fun _ => 1), 3, none⟩]
  refine ⟨s, ho, h1, ?_⟩
  rw [h4 (by intro c hc; simp only [List.mem_cons, List.mem_singleton, List.not_mem_nil,
      or_false] at hc; rcases hc with h | h | h <;> rw [h]), h1]
  rfl

/-- Counterexample to C11 as stated: on a fresh session one `AddVideoFrame` call
with a non-null buffer of 5 bytes whose first write throws returns -1, so no
call has returned 0, and `offset_count` is 1 with the entry 8 recorded in
slot 0. -/
theorem failed_write_is_counted :
    ∃ s, Open zero_heap 64 64 (chars "XVID") 25 none = some s
      ∧ AddVideoFrame_io zero_heap s (some (fun _ => 7)) 5 (some s.outFile)
          = (io_call zero_heap s ⟨false, some (fun _ => 7), 5, some s.outFile⟩)
      ∧ (io_calls zero_heap s [⟨false, some (fun _ => 7), 5, some s.outFile⟩]).1 = [-1]
      ∧ (io_calls zero_heap s [⟨false, some (fun _ => 7), 5, some s.outFile⟩]).1.count 0 = 0
      ∧ (io_calls zero_heap s [⟨false, some (fun _ => 7), 5, some s.outFile⟩]).2.offset_count
          = 1
      ∧ (io_calls zero_heap s [⟨false, some (fun _ => 7), 5, some s.outFile⟩]).2.outFile
          = s.outFile
      ∧ ∃ tbl, (io_calls zero_heap s
            [⟨false, some (fun _ => 7), 5, some s.outFile⟩]).2.offsets = some tbl
          ∧ tbl.getD 0 0 = 8 := by
  obtain ⟨s, ho⟩ : ∃ s, Open zero_heap 64 64 (chars "XVID") 25 none = some s :=
    ⟨_, Open_eq zero_heap 64 64 (chars "XVID") 25 none (by decide)⟩
  obtain ⟨-, -, ht, hl, hp, hc, -⟩ := Open_layout zero_heap 64 64 (chars "XVID") 25 none s ho
  have hn : ¬ (s.offset_count + 1 ≥ s.offsets_len) := by rw [hc, hl]; decide
  refine ⟨s, ho, rfl, rfl, rfl, ?_, rfl, ?_⟩
  · show (grow_offsets zero_heap _).offset_count = 1
    rw [(grow_offsets_fields zero_heap _).2.2.2.2.1]
    show s.offset_count + 1 = 1
    rw [hc]
  · refine ⟨(new_array zero_heap 1024).set 0 8, ?_, ?_⟩
    · show (store_offset (grow_offsets zero_heap _) _).offsets = _
      simp only [store_offset, grow_offsets, hn, if_false, ht, hp, Option.map_some']
      rfl
    · exact getD_set_self _ _ _ (by rw [new_array_length]; decide)

/-! ### C12: the frame rate given to Open -/

/-- C12: with a frame rate of 0 the constructor throws: there is no session,
and the file named `filename` is what it was before the call, neither created
nor truncated nor written.  For every `fps >= 1` the constructor returns a
session whose container header has `time_delay = 1000000 / fps` (integer
division), which is also the value, as a 32-bit number, of the first field of
the `avih` chunk in the bytes written (offset 32). -/
theorem Open_checks_fps (heap : Nat → Nat → Nat) (width height : Nat) (fourcc : List Nat)
    (audio : Option gwavi_audio_t) :
    Open heap width height fourcc 0 audio = none
      ∧ (∀ disk, Open_file heap width height fourcc 0 audio disk = (disk, none))
      ∧ (∀ fps, 1 ≤ fps →
          ∃ s, Open heap width height fourcc fps audio = some s
            ∧ s.avi_header.time_delay = 1000000 / fps
            ∧ read_int s.outFile.data 32 = (1000000 / fps) % 2 ^ 32
            ∧ ∀ disk, Open_file heap width height fourcc fps audio disk
                = (some s.outFile.data, some s)) := by
  refine ⟨rfl, fun _ => rfl, ?_⟩
  intro fps hfps
  obtain ⟨s, ho⟩ : ∃ s, Open heap width height fourcc fps audio = some s :=
    ⟨_, Open_eq heap width height fourcc fps audio hfps⟩
  obtain ⟨hl, -, -, -, -, -, ha, -⟩ := Open_layout heap width height fourcc fps audio s ho
  have ht : s.avi_header.time_delay = 1000000 / fps := by rw [ha]; rfl
  refine ⟨s, ho, ht, ?_, ?_⟩
  · rw [layout_riff_file s _ _ hl, (read_header_fields 0 s 0 [] []).2.1, ht]
  · intro disk
    simp only [Open_file, ho]

/-- Witness for C12: 25 frames per second give an interval of 40000. -/
theorem Open_checks_fps_witness :
    ∃ s, Open zero_heap 64 64 (chars "XVID") 25 none = some s
      ∧ s.avi_header.time_delay = 40000
      ∧ read_int s.outFile.data 32 = 40000 := by
  obtain ⟨s, h1, h2, h3, -⟩ :=
    (Open_checks_fps zero_heap 64 64 (chars "XVID") none).2.2 25 (by decide)
  exact ⟨s, h1, h2, h3⟩

/-! ### C13: the setters -/

/-- C13: for every session, `SetFramerate` (with `fps >= 1`), `SetFourccCodec`
and `SetVideoFrameSize` return a session with the same bytes written, write
position, `movi` marker, offset table, count, cursor and capacity, number of
video frames and audio byte length; `SetVideoFrameSize(w, h)` sets `width` and
`height` in the container header and in the video format to `w` and `h`, and
the four fields `avi_header.data_rate`, `avi_header.buffer_size`,
`stream_header_v.buffer_size` and `stream_format_v.image_size` to
`w * h * 3 mod 2^32`. -/
theorem setters_keep_output (s : Session) :
    (∀ fps, 1 ≤ fps → ∃ s', SetFramerate s fps = some s' ∧ KeepsOutput s s')
      ∧ (∀ fourcc, KeepsOutput s (SetFourccCodec s fourcc))
      ∧ (∀ w h, KeepsOutput s (SetVideoFrameSize s w h)
          ∧ (SetVideoFrameSize s w h).avi_header.width = w
          ∧ (SetVideoFrameSize s w h).avi_header.height = h
          ∧ (SetVideoFrameSize s w h).stream_format_v.width = w
          ∧ (SetVideoFrameSize s w h).stream_format_v.height = h
          ∧ (SetVideoFrameSize s w h).avi_header.data_rate = (w * h * 3) % 2 ^ 32
          ∧ (SetVideoFrameSize s w h).avi_header.buffer_size = (w * h * 3) % 2 ^ 32
          ∧ (SetVideoFrameSize s w h).stream_header_v.buffer_size = (w * h * 3) % 2 ^ 32
          ∧ (SetVideoFrameSize s w h).stream_format_v.image_size = (w * h * 3) % 2 ^ 32) := by
  refine ⟨?_, ?_, ?_⟩
  · intro fps hfps
    have h0 : ¬ fps = 0 := by omega
    rw [SetFramerate, if_neg h0]
    exact ⟨_, rfl, rfl, rfl, rfl, rfl, rfl, rfl, rfl, rfl, rfl⟩
  · intro fourcc
    exact ⟨rfl, rfl, rfl, rfl, rfl, rfl, rfl, rfl, rfl⟩
  · intro w h
    exact ⟨⟨rfl, rfl, rfl, rfl, rfl, rfl, rfl, rfl, rfl⟩, rfl, rfl, rfl, rfl, rfl, rfl, rfl, rfl⟩

/-- Witness for C13: `SetFramerate(30)` on the sample session. -/
theorem setters_keep_output_witness :
    ∃ s', SetFramerate sample_session 30 = some s' ∧ KeepsOutput sample_session s' :=
  (setters_keep_output sample_session).1 30 (by decide)

/-! ### C14: the table across a growth step -/

/-- C14 on 1024 frames: after 1023 video frames of 4 bytes appended to a fresh
session every slot `i < 1023` of the offset table holds the recorded value 4;
the 1024th append finds `offset_count` at `offsets_len`, deletes the table and
allocates a new one without copying, so afterwards slot 1023 holds the new
entry and every slot `i < 1023` holds what the allocator left there,
`heap 2048 i`; on zeroed memory that is 0, not the recorded 4. -/
theorem table_entries_lost_by_growth :
    (∀ heap : Nat → Nat → Nat,
      ∃ s tb ta, Open heap 64 64 (chars "XVID") 25 none = some s
        ∧ (add_frames heap s (List.replicate 1023 ⟨false, fun _ => 0, 4⟩)).offsets = some tb
        ∧ (∀ i, i < 1023 → tb.getD i 0 = 4)
        ∧ (add_frames heap s (List.replicate 1024 ⟨false, fun _ => 0, 4⟩)).offsets = some ta
        ∧ (∀ i, i < 1023 → ta.getD i 0 = heap 2048 i % 2 ^ 32)
        ∧ ta.getD 1023 0 = 4)
      ∧ zero_heap 2048 0 % 2 ^ 32 = 0 := by
  refine ⟨fun heap => ?_, rfl⟩
  obtain ⟨s, ho⟩ : ∃ s, Open heap 64 64 (chars "XVID") 25 none = some s :=
    ⟨_, Open_eq heap 64 64 (chars "XVID") 25 none (by decide)⟩
  have hrep : List.replicate 1024 (⟨false, fun _ => 0, 4⟩ : Frame)
      = List.replicate 1023 ⟨false, fun _ => 0, 4⟩ ++ [⟨false, fun _ => 0, 4⟩] :=
    List.replicate_succ' 1023 _
  obtain ⟨tb, ta, h1, h2, h3, h4, h5⟩ := table_across_growth heap 64 64 (chars "XVID") 25 none s
    (List.replicate 1023 ⟨false, fun _ => 0, 4⟩) ⟨false, fun _ => 0, 4⟩ ho
    (List.length_replicate _ _)
  refine ⟨s, tb, ta, ho, h1, ?_, hrep ▸ h3, h4, h5⟩
  intro i hi
  rw [h2 i hi, List.map_replicate, List.getD_eq_getElem?_getD, List.getElem?_replicate]
  simp only [hi, if_true, Option.getD_some]
  rfl

/-! ### C15: the offsets of the index records -/

/-- C15: for every session opened with `fps >= 1`, every sequence of fewer than
1024 appended frames whose padded lengths fit 31 bits, and Finalize: with `H`
the length of the header list (200, or 302 with audio), the "movi" tag is at
offset `20 + H` of the file and the `idx1` chunk follows the frame chunks; the
offset field of the `i`-th index record (bytes 8..11 of the record) holds
`4 + sum over j < i of (padded length of frame j + 8)` as a 32-bit value, that
is, this number itself when it is below `2^32`; and the chunk of frame `i`
(tag, length field, payload, padding) is found at exactly this distance from
the first byte of the "movi" tag. -/
theorem index_offsets_locate_chunks (heap : Nat → Nat → Nat) (width height : Nat)
    (fourcc : List Nat) (fps : Nat) (audio : Option gwavi_audio_t) (frs : List Frame)
    (hfps : 1 ≤ fps) (hlen : frs.length < 1024) (hfit : ∀ fr ∈ frs, fr.padded < 2 ^ 31) :
    ∃ r, produce heap width height fourcc fps audio frs = some (0, r)
      ∧ read_bytes r.outFile.data (20 + (if audio.isSome then 302 else 200)) 4 = chars "movi"
      ∧ read_bytes r.outFile.data
          (24 + (if audio.isSome then 302 else 200) + (movi_chunks frs).length) 4 = chars "idx1"
      ∧ ∀ (i : Nat) (hi : i < frs.length),
          read_int r.outFile.data
              (24 + (if audio.isSome then 302 else 200) + (movi_chunks frs).length
                + (8 + 16 * i + 8))
            = chunk_offset frs i % 2 ^ 32
          ∧ (chunk_offset frs i < 2 ^ 32 →
              read_int r.outFile.data
                  (24 + (if audio.isSome then 302 else 200) + (movi_chunks frs).length
                    + (8 + 16 * i + 8))
                = chunk_offset frs i)
          ∧ read_bytes r.outFile.data
              (20 + (if audio.isSome then 302 else 200) + chunk_offset frs i)
              (8 + frs[i].padded) = frs[i].chunk := by
  obtain ⟨s, tbl, ho, htbl, hp⟩ := produce_eq heap width height fourcc fps audio frs hfps
  obtain ⟨tbl2, g1, -, g3⟩ :=
    table_below_capacity heap width height fourcc fps audio s frs ho hlen
  have ht : tbl = tbl2 := Option.some.inj (htbl.symm.trans g1)
  subst ht
  have hH : (hdrl_list (final_records (add_frames heap s frs))).length
      = (if audio.isSome then 302 else 200) := by
    obtain ⟨-, -, -, -, -, -, ha, -, hf, -⟩ :=
      Open_layout heap width height fourcc fps audio s ho
    rw [final_hdrl_length, hdrl_list_length, hf, ha]
    cases audio <;> rfl
  rw [g3] at hp
  obtain ⟨off, hoff⟩ : ∃ off, off
      = 24 + (hdrl_list (final_records (add_frames heap s frs))).length
        + (movi_chunks frs).length := ⟨_, rfl⟩
  refine ⟨_, hp, ?_, ?_, ?_⟩
  · rw [← hH]
    exact (read_movi_tags _ _ _ _ _).2
  · rw [← hH, ← hoff]
    exact (read_bytes_riff_idx _ _ _ _ _ off 0 4 hoff).trans (read_idx1_header _)
  · intro i hi
    rw [← hH, ← hoff]
    have e2 := read_record_offset (frs.map Frame.entry) i (by rw [List.length_map]; exact hi)
    have e3 := index_offset_entries (frs.take i)
      (fun g hg => hfit g (List.mem_of_mem_take hg)) 4
    rw [← List.map_take, e3] at e2
    refine ⟨(congrArg le_decode
        (read_bytes_riff_idx _ _ _ _ _ off (8 + 16 * i + 8) 4 hoff)).trans e2,
      fun hlt => ((congrArg le_decode
        (read_bytes_riff_idx _ _ _ _ _ off (8 + 16 * i + 8) 4 hoff)).trans e2).trans
          (Nat.mod_eq_of_lt hlt), ?_⟩
    obtain ⟨k, hk⟩ : ∃ k, k = chunk_offset frs i - 4 := ⟨_, rfl⟩
    obtain ⟨o2, ho2⟩ : ∃ o2, o2
        = 24 + (hdrl_list (final_records (add_frames heap s frs))).length := ⟨_, rfl⟩
    have h4 : 20 + (hdrl_list (final_records (add_frames heap s frs))).length
        + chunk_offset frs i = o2 + k := by
      rw [ho2, hk]
      unfold chunk_offset
      omega
    rw [h4]
    refine (read_bytes_riff_movi _ _ _ _ _ o2 k _ ho2).trans ?_
    rw [hk]
    exact read_movi_chunk frs _ i hi

set_option maxRecDepth 100000 in
/-- Witness for C15: the sample frames (padded lengths 200, 104, 8); the second
index record carries the offset 4 + (200 + 8) = 212. -/
theorem index_offsets_locate_chunks_witness :
    ∃ r, produce zero_heap 64 64 (chars "XVID") 25 (some ⟨2, 16, 44100⟩) sample_frames
          = some (0, r)
      ∧ read_int r.outFile.data (24 + 302 + (movi_chunks sample_frames).length + (8 + 16 * 1 + 8))
          = 212 := by
  obtain ⟨r, h1, -, -, h4⟩ := index_offsets_locate_chunks zero_heap 64 64 (chars "XVID") 25
    (some ⟨2, 16, 44100⟩) sample_frames (by decide) (by decide) (by decide)
  exact ⟨r, h1, (h4 1 (by decide)).2.1 (by decide)⟩

/-! ### C16: the backpatched size fields -/

/-- C16: for every stream state and every value of the header records, each
serializer writes its tag, a size field and a payload, and the size field
holds the number of bytes of the payload: 56 for a `strh` chunk,
`40 + 4 * colors_used` for the video `strf` chunk, 18 for the audio `strf`
chunk, `4 + (8 + 56) + (8 + 40 + 4 * colors_used)` for the video `strl` list,
`4 + (8 + 56) + (8 + 18)` for the audio `strl` list (written when there are two
streams), 4 plus the `avih` chunk (8 + 56) plus the one or two `strl` lists for
the `hdrl` list, and `16 * count` for the `idx1` chunk of every non-null
table.  The field is written by `write_int`, so it decodes to that number
whenever the number is below `2^32`. -/
theorem size_fields_count_payload :
    (∀ (f : OutFile) (h : gwavi_stream_header_t), ∃ p,
        write_stream_header f h = f.write (chars "strh" ++ int_buffer p.length ++ p)
          ∧ p.length = 56)
      ∧ (∀ (f : OutFile) (h : gwavi_stream_format_v_t), ∃ p,
          write_stream_format_v f h = f.write (chars "strf" ++ int_buffer p.length ++ p)
            ∧ p.length = 40 + 4 * h.colors_used)
      ∧ (∀ (f : OutFile) (h : gwavi_stream_format_a_t), ∃ p,
          write_stream_format_a f h = f.write (chars "strf" ++ int_buffer p.length ++ p)
            ∧ p.length = 18)
      ∧ (∀ s : Session, ∃ p v a,
          write_avi_header_chunk s
              = { s with outFile := s.outFile.write (chars "LIST" ++ int_buffer p.length ++ p) }
            ∧ p = chars "hdrl" ++ avih_chunk s.avi_header
                ++ (chars "LIST" ++ int_buffer v.length ++ v) ++ a
            ∧ v = chars "strl" ++ strh_chunk s.stream_header_v ++ strf_v_chunk s.stream_format_v
            ∧ v.length = 4 + (8 + 56) + (8 + (40 + 4 * s.stream_format_v.colors_used))
            ∧ (s.avi_header.data_streams = 2 → ∃ w,
                a = chars "LIST" ++ int_buffer w.length ++ w
                  ∧ w = chars "strl" ++ strh_chunk s.stream_header_a
                      ++ strf_a_chunk s.stream_format_a
                  ∧ w.length = 4 + (8 + 56) + (8 + 18))
            ∧ (s.avi_header.data_streams ≠ 2 → a = [])
            ∧ p.length = 4 + (8 + 56) + (8 + v.length) + a.length)
      ∧ (∀ (f : OutFile) (count : Nat) (tbl : List Nat), ∃ p tbl',
          write_index f count (some tbl)
              = some (f.write (chars "idx1" ++ int_buffer p.length ++ p), tbl')
            ∧ p.length = 16 * count)
      ∧ (∀ n, n < 2 ^ 32 → le_decode (int_buffer n) = n) := by
  refine ⟨?_, ?_, ?_, ?_, ?_, ?_⟩
  · intro f h
    obtain ⟨p, hp, hl⟩ : ∃ p, p = (List.range 4).map (charAt h.data_type)
        ++ (List.range 4).map (charAt h.codec)
        ++ int_buffer h.flags ++ int_buffer h.priority ++ int_buffer h.initial_frames
        ++ int_buffer h.time_scale ++ int_buffer h.data_rate ++ int_buffer h.start_time
        ++ int_buffer h.data_length ++ int_buffer h.buffer_size ++ int_buffer h.video_quality
        ++ int_buffer h.sample_size ++ int_buffer 0 ++ int_buffer 0 ∧ p.length = 56 :=
      ⟨_, rfl, by
        simp only [List.length_append, int_buffer_length, List.length_map, List.length_range]⟩
    refine ⟨p, ?_, hl⟩
    rw [hl, hp, write_stream_header_eq]
    simp only [strh_chunk, List.append_assoc]
  · intro f h
    obtain ⟨p, hp, hl⟩ : ∃ p, p = int_buffer h.header_size ++ int_buffer h.width
        ++ int_buffer h.height
        ++ short_buffer h.num_planes ++ short_buffer h.bits_per_pixel
        ++ int_buffer h.compression_type ++ int_buffer h.image_size
        ++ int_buffer h.x_pels_per_meter ++ int_buffer h.y_pels_per_meter
        ++ int_buffer h.colors_used ++ int_buffer h.colors_important ++ palette_bytes h
        ∧ p.length = 40 + 4 * h.colors_used :=
      ⟨_, rfl, by
        simp only [List.length_append, int_buffer_length, short_buffer_length,
          palette_bytes_length]⟩
    refine ⟨p, ?_, hl⟩
    rw [hl, hp, write_stream_format_v_eq]
    simp only [strf_v_chunk, List.append_assoc]
  · intro f h
    obtain ⟨p, hp, hl⟩ : ∃ p, p = short_buffer h.format_type ++ short_buffer h.channels
        ++ int_buffer h.sample_rate
        ++ int_buffer h.bytes_per_second ++ short_buffer h.block_align
        ++ short_buffer h.bits_per_sample ++ short_buffer h.size ∧ p.length = 18 :=
      ⟨_, rfl, by simp only [List.length_append, int_buffer_length, short_buffer_length]⟩
    refine ⟨p, ?_, hl⟩
    rw [hl, hp, write_stream_format_a_eq]
    simp only [strf_a_chunk, List.append_assoc]
  · intro s
    have hv : (chars "strl" ++ strh_chunk s.stream_header_v
        ++ strf_v_chunk s.stream_format_v).length
        = 4 + (8 + 56) + (8 + (40 + 4 * s.stream_format_v.colors_used)) := by
      simp only [List.length_append, chars_length_strl, strh_chunk_length, strf_v_chunk_length]
      omega
    have hw : (chars "strl" ++ strh_chunk s.stream_header_a
        ++ strf_a_chunk s.stream_format_a).length = 4 + (8 + 56) + (8 + 18) := by
      simp only [List.length_append, chars_length_strl, strh_chunk_length, strf_a_chunk_length]
    refine ⟨chars "hdrl" ++ avih_chunk s.avi_header ++ strl_v_list s ++ strl_a_list s,
      chars "strl" ++ strh_chunk s.stream_header_v ++ strf_v_chunk s.stream_format_v,
      strl_a_list s, ?_, ?_, rfl, hv, ?_, ?_, ?_⟩
    · rw [write_avi_header_chunk_eq]
      simp only [List.length_append, chars_length_hdrl]
      simp only [hdrl_list, List.append_assoc]
    · simp only [List.length_append, chars_length_strl]
      simp only [strl_v_list, List.append_assoc]
    · intro h2
      refine ⟨_, ?_, rfl, hw⟩
      simp only [List.length_append, chars_length_strl]
      simp only [strl_a_list, h2, if_true, List.append_assoc]
    · intro h2
      simp only [strl_a_list, h2, if_false]
    · rw [List.length_append, List.length_append, List.length_append, chars_length_hdrl,
        avih_chunk_length, strl_v_list_length, hv]
      omega
  · intro f count tbl
    obtain ⟨tbl', e⟩ := write_index_eq f count tbl
    refine ⟨index_records 4 (table_entries tbl count), tbl', ?_, ?_⟩
    · rw [e, idx1_chunk, index_records_length, table_entries_length]
    · rw [index_records_length, table_entries_length]
  · intro n hn
    rw [le_decode_int_buffer, Nat.mod_eq_of_lt hn]

/-- Witness for C16: the sample session has two streams, so its header list
carries the audio `strl` list of size 94; the size 56 is read back as 56. -/
theorem size_fields_count_payload_witness :
    (∃ p a w, write_avi_header_chunk sample_session
          = { sample_session with
              outFile := sample_session.outFile.write
                (chars "LIST" ++ int_buffer p.length ++ p) }
        ∧ a = chars "LIST" ++ int_buffer w.length ++ w
        ∧ w.length = 4 + (8 + 56) + (8 + 18)
        ∧ p.length = 4 + (8 + 56) + (8 + (4 + (8 + 56) + (8 + (40 + 4 * 0)))) + a.length)
      ∧ le_decode (int_buffer 56) = 56 := by
  obtain ⟨p, v, a, h1, -, -, h4, h5, -, h7⟩ := size_fields_count_payload.2.2.2.1 sample_session
  obtain ⟨w, hw1, -, hw3⟩ := h5 rfl
  exact ⟨⟨p, a, w, h1, hw1, hw3, by rw [h7, h4]; rfl⟩,
    size_fields_count_payload.2.2.2.2.2 56 (by decide)⟩

/-! ### C17: the codec check -/

/-- C17, as the code has it: `check_fourcc` returns -1 for a null tag; for a
non-null tag it returns 0 or 1; it returns 0 for every code listed in the table
and for every contiguous part of a listed code; it returns 1 for every tag that
contains a space and for every tag that does not occur as a contiguous run of
characters of the table; so a tag for which it returns 0 has no space and
occurs in the table. -/
theorem check_fourcc_accepts_parts_of_codes :
    check_fourcc none = -1
      ∧ (∀ t, check_fourcc (some t) = 0 ∨ check_fourcc (some t) = 1)
      ∧ (∀ c ∈ listed_codes, ∀ t, t <:+: c → check_fourcc (some t) = 0)
      ∧ (∀ t, 32 ∈ t → check_fourcc (some t) = 1)
      ∧ (∀ t, ¬ t <:+: valid_fourcc → check_fourcc (some t) = 1)
      ∧ (∀ t, check_fourcc (some t) = 0 → 32 ∉ t ∧ t <:+: valid_fourcc) := by
  refine ⟨rfl, ?_, ?_, ?_, ?_, ?_⟩
  · intro t
    by_cases h : 32 ∈ t ∨ ¬ t <:+: valid_fourcc
    · exact Or.inr ((check_fourcc_eq_one t).2 h)
    · push_neg at h
      exact Or.inl ((check_fourcc_eq_zero t).2 h)
  · intro c hc t ht
    obtain ⟨h1, h2⟩ := listed_code_in_table c hc
    exact (check_fourcc_eq_zero t).2 ⟨fun h => h1 (ht.subset h), ht.trans h2⟩
  · intro t h
    exact (check_fourcc_eq_one t).2 (Or.inl h)
  · intro t h
    exact (check_fourcc_eq_one t).2 (Or.inr h)
  · intro t h
    exact (check_fourcc_eq_zero t).1 h

set_option maxRecDepth 100000 in
/-- Witness for C17: "XVID" is listed and accepted; "XV D" has a space and
"xvid" has characters that the table does not have, and both are refused. -/
theorem check_fourcc_accepts_parts_of_codes_witness :
    chars "XVID" ∈ listed_codes
      ∧ check_fourcc (some (chars "XVID")) = 0
      ∧ check_fourcc (some (chars "XV D")) = 1
      ∧ ¬ chars "xvid" <:+: valid_fourcc
      ∧ check_fourcc (some (chars "xvid")) = 1 := by
  have hm : chars "XVID" ∈ listed_codes :=
    List.mem_flatten.2 ⟨words_of (chars "X263 X264 XLV0 XMPG XVID"),
      List.mem_map.2 ⟨"X263 X264 XLV0 XMPG XVID", by decide, rfl⟩, by decide⟩
  have hx : ¬ chars "xvid" <:+: valid_fourcc := by
    intro h
    have h1 : 120 ∈ valid_fourcc := h.subset (by decide)
    obtain ⟨l, hl, hc⟩ := List.mem_flatten.1 h1
    obtain ⟨s, hs, rfl⟩ := List.mem_map.1 hl
    have hall : ∀ l ∈ valid_fourcc_lines, 120 ∉ chars l := by decide
    exact hall s hs hc
  exact ⟨hm,
    check_fourcc_accepts_parts_of_codes.2.2.1 _ hm _ (List.infix_refl _),
    check_fourcc_accepts_parts_of_codes.2.2.2.1 _ (by decide),
    hx,
    check_fourcc_accepts_parts_of_codes.2.2.2.2.1 _ hx⟩

set_option maxRecDepth 100000 in
/-- Counterexample to C17 as stated: "XVI" is not one of the listed codes, and
`check_fourcc` returns 0 for it. -/
theorem check_fourcc_accepts_unlisted_tag :
    chars "XVI" ∉ listed_codes ∧ check_fourcc (some (chars "XVI")) = 0 := by
  constructor
  · intro h
    obtain ⟨ws, hws, hc⟩ := List.mem_flatten.1 h
    obtain ⟨l, hl, rfl⟩ := List.mem_map.1 hws
    have hall : ∀ l ∈ valid_fourcc_lines, chars "XVI" ∉ words_of (chars l) := by decide
    exact hall l hl hc
  · have hm : chars "XVID" ∈ listed_codes :=
      List.mem_flatten.2 ⟨words_of (chars "X263 X264 XLV0 XMPG XVID"),
        List.mem_map.2 ⟨"X263 X264 XLV0 XMPG XVID", by decide, rfl⟩, by decide⟩
    obtain ⟨h1, h2⟩ := listed_code_in_table _ hm
    have h3 : chars "XVI" <:+: chars "XVID" := by decide
    exact (check_fourcc_eq_zero _).2 ⟨by decide, h3.trans h2⟩

/-! ### C18: the compression code -/

/-- C18: for every codec tag of four characters whose bytes are in 0..127, the
compression code that the constructor and `SetFourccCodec` compute is
`fourcc[0] + (fourcc[1] << 8) + (fourcc[2] << 16) + (fourcc[3] << 24)`, and
`write_int` serializes it as the four tag bytes in their original order; so
after the constructor and after `SetFourccCodec` the codec field of the video
`strh` chunk (bytes 12..15 of the chunk) and the compression field of the video
`strf` chunk (bytes 24..27 of the chunk) are both the four tag bytes. -/
theorem compression_code_is_tag (fourcc : List Nat) (hlen : fourcc.length = 4)
    (hb : ∀ b ∈ fourcc, b < 128) :
    compression_code fourcc
        = charAt fourcc 0 + (charAt fourcc 1 <<< 8) + (charAt fourcc 2 <<< 16)
          + (charAt fourcc 3 <<< 24)
      ∧ int_buffer (compression_code fourcc) = fourcc
      ∧ (∀ f : OutFile, write_int f (compression_code fourcc) = f.write fourcc)
      ∧ (∀ (heap : Nat → Nat → Nat) (width height fps : Nat) (audio : Option gwavi_audio_t)
          (s : Session), Open heap width height fourcc fps audio = some s →
          s.stream_format_v.compression_type = compression_code fourcc
            ∧ read_bytes (strh_chunk s.stream_header_v) 12 4 = fourcc
            ∧ read_bytes (strf_v_chunk s.stream_format_v) 24 4 = fourcc)
      ∧ (∀ s : Session,
          (SetFourccCodec s fourcc).stream_format_v.compression_type = compression_code fourcc
            ∧ read_bytes (strh_chunk (SetFourccCodec s fourcc).stream_header_v) 12 4 = fourcc
            ∧ read_bytes (strf_v_chunk (SetFourccCodec s fourcc).stream_format_v) 24 4
                = fourcc) := by
  have hi : int_buffer (compression_code fourcc) = fourcc := by
    match fourcc, hlen, hb with
    | [a, b, c, d], _, hb =>
      exact compression_code_bytes a b c d (hb a (by simp)) (hb b (by simp)) (hb c (by simp))
        (hb d (by simp))
  have hm := map_charAt_four fourcc hlen
  refine ⟨?_, hi, fun f => by rw [write_int, hi], ?_, ?_⟩
  · match fourcc, hlen, hb with
    | [a, b, c, d], _, hb =>
      have ha : a < 128 := hb a (by simp)
      have hb' : b < 128 := hb b (by simp)
      have hc : c < 128 := hb c (by simp)
      have hd : d < 128 := hb d (by simp)
      have h1 : a % 256 = a := Nat.mod_eq_of_lt (by omega)
      have h2 : b % 256 = b := Nat.mod_eq_of_lt (by omega)
      have h3 : c % 256 = c := Nat.mod_eq_of_lt (by omega)
      have h4 : d % 256 = d := Nat.mod_eq_of_lt (by omega)
      simp only [compression_code, charAt, char_to_uint, List.getD_cons_zero,
        List.getD_cons_succ, Nat.shiftLeft_eq]
      rw [h1, h2, h3, h4, if_pos ha, if_pos hb', if_pos hc, if_pos hd]
      omega
  · intro heap width height fps audio s ho
    obtain ⟨-, -, -, -, -, -, -, hv, hf, -⟩ := Open_layout heap width height fourcc fps audio s ho
    refine ⟨by rw [hf]; rfl, ?_, ?_⟩
    · rw [read_strh_codec, hv]
      show (List.range 4).map (charAt ((List.range 4).map (charAt fourcc))) = fourcc
      rw [hm, hm]
    · rw [read_strf_compression, hf]
      exact hi
  · intro s
    refine ⟨rfl, ?_, ?_⟩
    · rw [read_strh_codec]
      show (List.range 4).map (charAt ((List.range 4).map (charAt fourcc))) = fourcc
      rw [hm, hm]
    · rw [read_strf_compression]
      exact hi

/-- Witness for C18: the tag "XVID". -/
theorem compression_code_is_tag_witness :
    int_buffer (compression_code (chars "XVID")) = chars "XVID"
      ∧ read_bytes (strf_v_chunk (SetFourccCodec sample_session (chars "XVID")).stream_format_v)
          24 4 = chars "XVID" :=
  ⟨(compression_code_is_tag (chars "XVID") rfl (by decide)).2.1,
   ((compression_code_is_tag (chars "XVID") rfl (by decide)).2.2.2.2 sample_session).2.2⟩

/-! ### C19: the integer emitters -/

/-- C19: for every `n < 2^32`, `write_int` writes exactly four bytes
`b0, b1, b2, b3`, each below 256, with
`b0 + 256*b1 + 65536*b2 + 16777216*b3 = n`, and `write_short` writes exactly two
bytes `c0, c1` with `c0 + 256*c1 = n mod 65536`; little-endian decoding of the
bytes written gives back `n`, respectively `n mod 65536`, and the write
position advances by 4, respectively 2. -/
theorem write_int_short_little_endian (f : OutFile) (n : Nat) (h : n < 2 ^ 32) :
    ∃ b0 b1 b2 b3 c0 c1 : Nat,
      write_int f n = f.write [b0, b1, b2, b3]
        ∧ b0 < 256 ∧ b1 < 256 ∧ b2 < 256 ∧ b3 < 256
        ∧ b0 + 256 * b1 + 65536 * b2 + 16777216 * b3 = n
        ∧ le_decode [b0, b1, b2, b3] = n
        ∧ (write_int f n).pos = f.pos + 4
        ∧ write_short f n = f.write [c0, c1]
        ∧ c0 < 256 ∧ c1 < 256
        ∧ c0 + 256 * c1 = n % 65536
        ∧ le_decode [c0, c1] = n % 65536
        ∧ (write_short f n).pos = f.pos + 2 := by
  have hn : n % 2 ^ 32 = n := Nat.mod_eq_of_lt h
  refine ⟨n % 256, (n >>> 8) % 256, (n >>> 16) % 256, (n >>> 24) % 256,
    n % 256, (n >>> 8) % 256, ?_, ?_, ?_, ?_, ?_, ?_, ?_, ?_, ?_, ?_, ?_, ?_, ?_, ?_⟩
  · simp only [write_int, int_buffer, hn]
  · exact Nat.mod_lt _ (by decide)
  · exact Nat.mod_lt _ (by decide)
  · exact Nat.mod_lt _ (by decide)
  · exact Nat.mod_lt _ (by decide)
  · simp only [Nat.shiftRight_eq_div_pow]; omega
  · simp only [le_decode, Nat.shiftRight_eq_div_pow]; omega
  · rw [write_int, OutFile.write_pos, int_buffer_length]
  · simp only [write_short, short_buffer, hn]
  · exact Nat.mod_lt _ (by decide)
  · exact Nat.mod_lt _ (by decide)
  · simp only [Nat.shiftRight_eq_div_pow]; omega
  · simp only [le_decode, Nat.shiftRight_eq_div_pow]; omega
  · rw [write_short, OutFile.write_pos, short_buffer_length]

theorem write_int_short_little_endian_witness :
    ∃ b0 b1 b2 b3 c0 c1 : Nat,
      write_int sample_session.outFile 0x12345678
          = sample_session.outFile.write [b0, b1, b2, b3]
        ∧ b0 < 256 ∧ b1 < 256 ∧ b2 < 256 ∧ b3 < 256
        ∧ b0 + 256 * b1 + 65536 * b2 + 16777216 * b3 = 0x12345678
        ∧ le_decode [b0, b1, b2, b3] = 0x12345678
        ∧ (write_int sample_session.outFile 0x12345678).pos = sample_session.outFile.pos + 4
        ∧ write_short sample_session.outFile 0x12345678
          = sample_session.outFile.write [c0, c1]
        ∧ c0 < 256 ∧ c1 < 256
        ∧ c0 + 256 * c1 = 0x12345678 % 65536
        ∧ le_decode [c0, c1] = 0x12345678 % 65536
        ∧ (write_short sample_session.outFile 0x12345678).pos
          = sample_session.outFile.pos + 2 :=
  write_int_short_little_endian sample_session.outFile 0x12345678 (by decide)

/-! ### C20: the header is rewritten in place -/

/-- C20: `write_avi_header_chunk` writes, at the write position, a header list
of `200 + 4 * colors_used` bytes, and 102 more when there are two streams:
with no palette colours, 200 bytes for one stream and 302 for two, whatever the
other header fields hold.  For every session that the constructor returns and
every sequence of appender calls and setter calls after it, the header list
that `Finalize` serializes has the length of the one written by the
constructor; so the rewrite of `Finalize` (seek to 12, `write_avi_header_chunk`,
seek back) on a file made of 12 bytes, a header list of that length and any
rest changes the bytes of the header list only; and `Finalize` returns 0 with a
file in which the new header list is followed by the `movi` list tag, the
`movi` size, the "movi" tag with the frame chunks as they were appended, and
the index. -/
theorem header_rewrite_in_place (heap : Nat → Nat → Nat) (width height : Nat)
    (fourcc : List Nat) (fps : Nat) (audio : Option gwavi_audio_t) (s0 s : Session)
    (ops : List Op) (ho : Open heap width height fourcc fps audio = some s0)
    (hs : apply_ops heap s0 ops = some s) :
    (∀ t : Session,
        write_avi_header_chunk t = { t with outFile := t.outFile.write (hdrl_list t) }
          ∧ (hdrl_list t).length = 200 + 4 * t.stream_format_v.colors_used
              + (if t.avi_header.data_streams = 2 then 102 else 0)
          ∧ (t.stream_format_v.colors_used = 0 →
              (hdrl_list t).length = if t.avi_header.data_streams = 2 then 302 else 200))
      ∧ (hdrl_list s0).length = (if audio.isSome then 302 else 200)
      ∧ (hdrl_list (final_records s)).length = (hdrl_list s0).length
      ∧ (∀ (P old rest : List Nat) (p t : Nat), P.length = 12 →
          old.length = (hdrl_list s0).length →
          (write_avi_header_chunk
              { final_records s with
                outFile := (OutFile.mk (P ++ old ++ rest) p).seekp 12 }).outFile.seekp t
            = { data := P ++ hdrl_list (final_records s) ++ rest, pos := t })
      ∧ ∃ movi idx r,
          s.outFile.data = chars "RIFF" ++ int_buffer 0 ++ chars "AVI " ++ hdrl_list s0
              ++ chars "LIST" ++ int_buffer 0 ++ chars "movi" ++ movi
            ∧ Finalize s = some (0, r)
            ∧ r.outFile.data
                = chars "RIFF"
                  ++ int_buffer (24 + (hdrl_list s0).length + movi.length + idx.length - 8)
                  ++ chars "AVI " ++ hdrl_list (final_records s)
                  ++ chars "LIST" ++ int_buffer (4 + movi.length) ++ chars "movi" ++ movi
                  ++ idx := by
  obtain ⟨hl, -, ht, -, -, -, ha, -, hf, -⟩ := Open_layout heap width height fourcc fps audio s0 ho
  obtain ⟨movi, g1, g2, -⟩ := apply_ops_layout heap ops s0 s (hdrl_list s0) [] hl
    (by rw [ht]; rfl) hs
  obtain ⟨tbl, htbl⟩ := Option.isSome_iff_exists.mp g2
  have h0 : (hdrl_list s0).length = (if audio.isSome then 302 else 200) := by
    rw [hdrl_list_length, hf, ha]
    cases audio <;> rfl
  have h1 : (hdrl_list (final_records s)).length = (hdrl_list s0).length := by
    rw [g1.1, hdrl_list_length, hdrl_list_length]
    rfl
  refine ⟨?_, h0, h1, ?_, movi, idx1_chunk (table_entries tbl s.offset_count), _, g1.2.1,
    Finalize_eq s (hdrl_list s0) movi tbl g1 htbl, rfl⟩
  · intro t
    refine ⟨write_avi_header_chunk_eq t, hdrl_list_length t, ?_⟩
    intro hc
    rw [hdrl_list_length, hc]
    split <;> rfl
  · intro P old rest p t hP hold
    exact rewrite_header_step (final_records s) P old rest p t hP (hold.trans h1.symm)

/-- Witness for C20: a video frame, `SetFramerate(30)`, `SetFourccCodec("MJPG")`,
`SetVideoFrameSize(32, 32)` and a call with a null buffer after opening without
audio; the header list is 200 bytes long at Open and at Finalize. -/
theorem header_rewrite_in_place_witness :
    ∃ s0 s, Open zero_heap 64 64 (chars "XVID") 25 none = some s0
      ∧ apply_ops zero_heap s0
          [Op.append ⟨false, some (fun _ => 7), 5⟩, Op.framerate 30, Op.fourcc (chars "MJPG"),
            Op.frame_size 32 32, Op.append ⟨true, none, 5⟩] = some s
      ∧ (hdrl_list s0).length = 200
      ∧ (hdrl_list (final_records s)).length = (hdrl_list s0).length := by
  obtain ⟨s0, ho⟩ : ∃ s0, Open zero_heap 64 64 (chars "XVID") 25 none = some s0 :=
    ⟨_, Open_eq zero_heap 64 64 (chars "XVID") 25 none (by decide)⟩
  obtain ⟨s, hs⟩ : ∃ s, apply_ops zero_heap s0
      [Op.append ⟨false, some (fun _ => 7), 5⟩, Op.framerate 30, Op.fourcc (chars "MJPG"),
        Op.frame_size 32 32, Op.append ⟨true, none, 5⟩] = some s := ⟨_, rfl⟩
  obtain ⟨-, h2, h3, -⟩ := header_rewrite_in_place zero_heap 64 64 (chars "XVID") 25 none s0 s
    _ ho hs
  exact ⟨s0, s, ho, hs, h2, h3⟩

/-! ### C21: SetFramerate and the interval of Open -/

/-- C21 at 25 frames per second: the constructor sets the frame interval
`time_delay` to `1000000 / 25 = 40000` and the rate of the video stream to 25;
`SetFramerate(25)` on that session keeps the rate at 25 but sets the interval to
`10000000 / 25 = 400000`, so the container header is not what it was, and the
file that `Finalize` then produces carries 400000 in the first field of the
`avih` chunk (offset 32).  For every session and every `fps = k + 1`,
`SetFramerate` sets the rate to `fps` and the interval to `10000000 / fps`,
which is at least ten times the `1000000 / fps` of the constructor. -/
theorem SetFramerate_interval_differs :
    (∀ heap : Nat → Nat → Nat,
      ∃ s s' r, Open heap 64 64 (chars "XVID") 25 none = some s
        ∧ s.avi_header.time_delay = 40000
        ∧ s.stream_header_v.data_rate = 25
        ∧ SetFramerate s 25 = some s'
        ∧ s'.avi_header.time_delay = 400000
        ∧ s'.stream_header_v.data_rate = 25
        ∧ s'.avi_header ≠ s.avi_header
        ∧ Finalize s' = some (0, r)
        ∧ read_int r.outFile.data 32 = 400000)
      ∧ (∀ (s : Session) (k : Nat),
          ∃ s', SetFramerate s (k + 1) = some s'
            ∧ s'.stream_header_v.data_rate = k + 1
            ∧ s'.avi_header.time_delay = 10000000 / (k + 1)
            ∧ 10 * (1000000 / (k + 1)) ≤ s'.avi_header.time_delay) := by
  constructor
  · intro heap
    obtain ⟨s, ho⟩ : ∃ s, Open heap 64 64 (chars "XVID") 25 none = some s :=
      ⟨_, Open_eq heap 64 64 (chars "XVID") 25 none (by decide)⟩
    obtain ⟨hl, -, ht, -, -, -, ha, hv, -⟩ := Open_layout heap 64 64 (chars "XVID") 25 none s ho
    obtain ⟨s', hs⟩ : ∃ s', SetFramerate s 25 = some s' := ⟨_, rfl⟩
    have hs2 : s' = { s with
        stream_header_v := { s.stream_header_v with data_rate := 25 }
        avi_header := { s.avi_header with time_delay := 10000000 / 25 } } :=
      (Option.some.inj hs).symm
    have h1 : s.avi_header.time_delay = 40000 := by rw [ha]; rfl
    have h2 : s'.avi_header.time_delay = 400000 := by rw [hs2]
    obtain ⟨g1, g2⟩ := SetFramerate_layout s s' 25 _ _ hl hs
    have hf := Finalize_eq s' (hdrl_list s) [] (new_array heap 1024) g1 (by rw [g2, ht])
    refine ⟨s, s', _, ho, h1, by rw [hv]; rfl, hs, h2, by rw [hs2], ?_, hf, ?_⟩
    · intro hc
      have := congrArg gwavi_header_t.time_delay hc
      rw [h1, h2] at this
      exact absurd this (by decide)
    · refine ((read_header_fields _ (final_records s') _ _ _).2.1).trans ?_
      show s'.avi_header.time_delay % 2 ^ 32 = 400000
      rw [h2]
      rfl
  · intro s k
    refine ⟨_, rfl, rfl, rfl, ?_⟩
    show 10 * (1000000 / (k + 1)) ≤ 10000000 / (k + 1)
    rw [Nat.le_div_iff_mul_le (Nat.succ_pos k)]
    calc 10 * (1000000 / (k + 1)) * (k + 1)
        = 10 * (1000000 / (k + 1) * (k + 1)) := by ring
      _ ≤ 10 * 1000000 := Nat.mul_le_mul_left 10 (Nat.div_mul_le_self _ _)

/-! ### C22: the stores into the offset table are in bounds -/

/-- C22: the constructor leaves a table of capacity `offsets_len = 1024` with
`offsets_ptr = offset_count = 0`.  In the session after every sequence of
`AddVideoFrame` / `AddAudioFrame` calls on it, null buffers included,
`offsets_ptr` equals `offset_count`, both are below `offsets_len`, and the
table is allocated with `offsets_len` slots.  A further call with a non-null
buffer stores its entry through `store_offset` in the session `at_store`, in
which the slot index `offsets_ptr` is the cursor of before, strictly below
the capacity `offsets_len`, which is the capacity of before or 1024 more, and
the table has exactly `offsets_len` slots: the store is in bounds. -/
theorem table_store_in_bounds (heap : Nat → Nat → Nat) (width height : Nat)
    (fourcc : List Nat) (fps : Nat) (audio : Option gwavi_audio_t) (s0 : Session)
    (ho : Open heap width height fourcc fps audio = some s0) (cs : List Call) :
    s0.offsets_len = 1024 ∧ s0.offsets_ptr = 0 ∧ s0.offset_count = 0
      ∧ (calls heap s0 cs).2.offsets_ptr = (calls heap s0 cs).2.offset_count
      ∧ (calls heap s0 cs).2.offset_count < (calls heap s0 cs).2.offsets_len
      ∧ (∃ tbl, (calls heap s0 cs).2.offsets = some tbl
          ∧ tbl.length = (calls heap s0 cs).2.offsets_len)
      ∧ ∀ (c : Call) (b : Nat → Nat), c.buffer = some b →
          (call heap (calls heap s0 cs).2 c).2.offsets
              = (store_offset (at_store heap (calls heap s0 cs).2 c.audio)
                  (Frame.entry ⟨c.audio, b, c.len⟩)).offsets
            ∧ (at_store heap (calls heap s0 cs).2 c.audio).offsets_ptr
                = (calls heap s0 cs).2.offsets_ptr
            ∧ (at_store heap (calls heap s0 cs).2 c.audio).offsets_ptr
                < (at_store heap (calls heap s0 cs).2 c.audio).offsets_len
            ∧ ((at_store heap (calls heap s0 cs).2 c.audio).offsets_len
                  = (calls heap s0 cs).2.offsets_len
                ∨ (at_store heap (calls heap s0 cs).2 c.audio).offsets_len
                  = (calls heap s0 cs).2.offsets_len + 1024)
            ∧ (∃ tbl, (at_store heap (calls heap s0 cs).2 c.audio).offsets = some tbl
                ∧ tbl.length = (at_store heap (calls heap s0 cs).2 c.audio).offsets_len)
            ∧ (call heap (calls heap s0 cs).2 c).2.offsets_len
                = (at_store heap (calls heap s0 cs).2 c.audio).offsets_len := by
  obtain ⟨-, -, -, hl, hp, hc, -⟩ := Open_layout heap width height fourcc fps audio s0 ho
  have hok : TableOk (calls heap s0 cs).2 := by
    rw [(calls_eq heap cs s0).2]
    exact add_frames_tableOk heap _ s0 (Open_tableOk heap width height fourcc fps audio s0 ho)
  obtain ⟨tbl, t1, t2, t3, t4⟩ := hok
  refine ⟨hl, hp, hc, t3, t4, ⟨tbl, t1, t2⟩, ?_⟩
  intro c b hb
  obtain ⟨c1, c2, -⟩ := call_store heap (calls heap s0 cs).2 c b hb
  obtain ⟨a1, a2, a3, a4⟩ := at_store_in_bounds heap (calls heap s0 cs).2 c.audio
    ⟨tbl, t1, t2, t3, t4⟩
  exact ⟨c1, a1, a2, a3, a4, c2⟩

/-- Witness for C22: after a video frame, a call with a null buffer and an
audio frame on a fresh session the cursor is 2, below the capacity 1024. -/
theorem table_store_in_bounds_witness :
    ∃ s0, Open zero_heap 64 64 (chars "XVID") 25 none = some s0
      ∧ (calls zero_heap s0 [⟨false, some (fun _ => 7), 5⟩, ⟨false, none, 5⟩,
            ⟨true, some (fun _ => 1), 3⟩]).2.offsets_ptr
          = (calls zero_heap s0 [⟨false, some (fun _ => 7), 5⟩, ⟨false, none, 5⟩,
            ⟨true, some (fun _ => 1), 3⟩]).2.offset_count
      ∧ (calls zero_heap s0 [⟨false, some (fun _ => 7), 5⟩, ⟨false, none, 5⟩,
            ⟨true, some (fun _ => 1), 3⟩]).2.offset_count
          < (calls zero_heap s0 [⟨false, some (fun _ => 7), 5⟩, ⟨false, none, 5⟩,
            ⟨true, some (fun _ => 1), 3⟩]).2.offsets_len := by
  obtain ⟨s0, ho⟩ : ∃ s0, Open zero_heap 64 64 (chars "XVID") 25 none = some s0 :=
    ⟨_, Open_eq zero_heap 64 64 (chars "XVID") 25 none (by decide)⟩
  obtain ⟨-, -, -, h4, h5, -⟩ := table_store_in_bounds zero_heap 64 64 (chars "XVID") 25 none s0
    ho [⟨false, some (fun _ => 7), 5⟩, ⟨false, none, 5⟩, ⟨true, some (fun _ => 1), 3⟩]
  exact ⟨s0, ho, h4, h5⟩

end GWAVI
